import Mathlib

/-!
# Trooba pipeline engine (`src/index.js`): embedding and verified properties

The JavaScript objects of `index.js` are embedded as explicit state:

* static pipe points live in a heap (`World.heap`), addressed by a reference, because
  `next`/`prev` are object references and `createPipePoint` mutates `next.prev`;
* context objects live in `World.ctxs`, addressed by reference, because several bound points
  share one context object and `on`/`once` mutate it;
* builder objects (`Trooba`) live in `World.builders`;
* every point object carries an object identity `oid`, because `createWriteStream` keeps the
  flag `_streamClosed` on the point object it is given (`World.streamClosed`);
* caller-supplied functions are named by a number; what such a function does when it is called
  is given by an environment `Env`.  Every call of a stage handler, of a transport and of a
  caller-supplied hook is appended to `World.log`, the observable trace;
* closures created by the library itself (`onceFn`, the response wrapper of `request`, the
  completion callbacks of `process`) are defunctionalised into data;
* exceptions are completions (`Completion.thrown`) together with the world reached when the
  exception was raised, because JavaScript exceptions do not roll back mutations.
-/

namespace Index

/-! ## Values -/

/-- Function values: a caller-supplied function, or one of the two function literals of
`index.js` (`startPipe` in `buildPipe`, `injectTransport` in `Trooba.prototype.create`, the
latter closing over the builder `self`). -/
inductive Fn where
  | user (name : Nat)
  | startPipe
  | injectTransport (self : Nat)
  deriving DecidableEq, Repr

/-- JavaScript values carried as payloads, configs, handlers and context properties. -/
inductive Value where
  | undefined
  | null
  | bool (b : Bool)
  | num (n : Int)
  | str (s : String)
  | fn (f : Fn)
  /-- the object literal with the two properties `handler` and `config` -/
  | handlerMeta (handler : Value) (config : Value)
  /-- a reference to a context object -/
  | ctxRef (c : Nat)
  deriving DecidableEq, Repr

instance : Inhabited Value := ⟨Value.undefined⟩

/-- JavaScript truthiness (`if (v)`, `!v`, `a || b`). -/
def Value.truthy : Value → Bool
  | .undefined => false
  | .null => false
  | .bool b => b
  | .num n => n != 0
  | .str s => s != ""
  | .fn _ => true
  | .handlerMeta _ _ => true
  | .ctxRef _ => true

/-- The test `typeof v === 'function'`. -/
def Value.isFunction : Value → Bool
  | .fn _ => true
  | _ => false

/-- The test `typeof v === 'string'`. -/
def Value.isString : Value → Bool
  | .str _ => true
  | _ => false

/-- Property read `v.handler`. -/
def Value.handlerProp : Value → Value
  | .handlerMeta h _ => h
  | _ => .undefined

/-- Property read `v.config`. -/
def Value.configProp : Value → Value
  | .handlerMeta _ c => c
  | _ => .undefined

/-- The expression `a || b`. -/
def Value.or (a b : Value) : Value := if a.truthy then a else b

/-! ## Points, messages, hooks, contexts -/

abbrev Ref := Nat
abbrev CtxRef := Nat

/-- `Types.REQUEST`. -/
def Types.REQUEST : Nat := 1
/-- `Types.RESPONSE`. -/
def Types.RESPONSE : Nat := 2

/-- A point object (`PipePoint`).  `context` is `none` on the static points of a chain.
The field `_messageHandlers` of the source is written by the constructor and copied by `clone`
but never read (hooks are kept in the context, see `handlers`), so it is not represented. -/
structure PipePoint where
  handler : Value
  config : Value
  _id : Nat
  next : Option Ref
  prev : Option Ref
  context : Option CtxRef
  /-- the identity of this object (not a property of the source object) -/
  oid : Nat := 0
  deriving DecidableEq, Repr

instance : Inhabited PipePoint := ⟨⟨.undefined, .undefined, 0, none, none, none, 0⟩⟩

/-- A message object `{type, flow, ref, context, sync}`. -/
structure Message where
  type : String
  flow : Nat
  ref : Value
  context : Option CtxRef := none
  sync : Bool := false
  deriving DecidableEq, Repr

/-- Functions stored in the hook registry. -/
inductive Hook where
  /-- a caller-supplied function -/
  | user (name : Nat)
  /-- the closure `onceFn` created by `once`; it closes over `self`, `type` and `handler` -/
  | onceFn (self : PipePoint) (type : String) (handler : Hook)
  /-- the closure `function (res) { callback(null, res); }` created by `request` -/
  | responseCb (callback : Hook)
  deriving DecidableEq, Repr

/-- The object `ctx.$points`: point `_id` ↦ (message type ↦ hook).  An entry `$points[id]` is
created lazily by `handlers` and always holds its `_messageHandlers` map. -/
abbrev Registry := Nat → Option (String → Option Hook)

/-- A context object.  `fields` are its own properties other than `$points`, in insertion
order; `points` is the property `$points` (`none` when it is `undefined`). -/
structure Context where
  fields : List (String × Value) := []
  points : Option Registry := none

instance : Inhabited Context := ⟨{}⟩

/-- Property read `obj[name]` on a property list. -/
def getField : List (String × Value) → String → Value
  | [], _ => .undefined
  | (k, v) :: rest, name => if k = name then v else getField rest name

/-- Property write `obj[name] = v` on a property list. -/
def setField : List (String × Value) → String → Value → List (String × Value)
  | [], name, v => [(name, v)]
  | (k, x) :: rest, name, v => if k = name then (k, v) :: rest else (k, x) :: setField rest name v

/-- The keys of a property list, `Object.keys(obj)`. -/
def keys (fields : List (String × Value)) : List String := fields.map Prod.fst

/-- The test `name.charAt(0) !== '$'` negated: the name starts with the control character. -/
def reserved (name : String) : Bool := name.data.head? == some (Char.ofNat 36)

/-! ## The world -/

/-- What is thrown: `new Error(message)`, a runtime `TypeError`, or an arbitrary value
(`throw message.ref`). -/
inductive Thrown where
  | error (message : String)
  | typeError
  | value (v : Value)
  deriving DecidableEq, Repr

/-- What a caller-supplied hook does with the completion callback it is handed, before it
returns.  When no callback was handed over, `complete` is the call of `undefined`. -/
inductive HookOutcome where
  /-- returns without having called the callback -/
  | suspend
  /-- calls the callback, with no argument or with one, and returns -/
  | complete (arg : Option Value)
  /-- throws -/
  | raise (t : Thrown)
  deriving DecidableEq, Repr

/-- Calls a caller-supplied stage or transport function makes on the bound point it is
handed. -/
inductive StageOp where
  | on (type : String) (hook : Hook)
  | once (type : String) (hook : Hook)
  /-- throws -/
  | raise (t : Thrown)
  deriving DecidableEq, Repr

/-- One call of a stage handler, a transport, an API wrapper or a caller-supplied hook. -/
inductive Event where
  /-- the call `point.handler(point, point.config)` in `process` -/
  | handler (fn : Value) (point : PipePoint) (config : Value)
  /-- the call `tr.handler(pipe, tr.config)` or `tr(pipe)` in `injectTransport` -/
  | transport (fn : Value) (point : PipePoint) (config : Value)
  /-- the call of the API wrapper in `Trooba.prototype.create` -/
  | api (fn : Value) (point : PipePoint) (config : Value)
  /-- a hook called with the arguments `args`, followed by a completion callback when `cb` -/
  | hook (name : Nat) (args : List Value) (cb : Bool)
  deriving DecidableEq, Repr

/-- A completion callback handed to a hook that has not been called yet: `onComplete` of
`process` (`isEnd = false`) or the resume callback of `processEndEvent` (`isEnd = true`),
with the point and message it closes over. -/
structure Continuation where
  point : PipePoint
  message : Message
  /-- the context whose registry `messageHandlers` refers to -/
  ctx : CtxRef
  isEnd : Bool
  deriving DecidableEq, Repr

/-- A builder object (`Trooba`). -/
structure Trooba where
  _handlers : List Value := []
  _transport : Value := .undefined
  _api : Value := .undefined
  _pipe : Option Ref := none
  deriving DecidableEq, Repr

instance : Inhabited Trooba := ⟨{}⟩

/-- The mutable state of the program. -/
structure World where
  heap : Ref → PipePoint := fun _ => default
  heapSize : Nat := 0
  /-- `PipePoint.instanceCounter` -/
  instanceCounter : Nat := 0
  ctxs : CtxRef → Context := fun _ => default
  ctxCount : Nat := 0
  builders : Nat → Trooba := fun _ => default
  builderCount : Nat := 0
  /-- calls of handlers, transports and caller-supplied hooks, oldest first -/
  log : List Event := []
  /-- completion callbacks held by hooks that returned without calling them -/
  pending : List Continuation := []
  /-- `setTimeout(sendRequest, 0)` tasks: the point and the request payload -/
  timers : List (PipePoint × Value) := []
  /-- number of point objects created so far; the next object identity -/
  objCount : Nat := 0
  /-- the property `_streamClosed` of the point object with the given identity -/
  streamClosed : Nat → Bool := fun _ => false

instance : Inhabited World := ⟨{}⟩

/-- How a call ended. -/
inductive Completion (α : Type) where
  | ok (a : α)
  | thrown (t : Thrown)
  /-- the interpreter ran out of fuel (no JavaScript behaviour) -/
  | outOfFuel
  deriving DecidableEq, Repr

/-- The world after a call and how the call ended. -/
structure Res (α : Type) where
  world : World
  completion : Completion α

/-- Behaviour of the caller-supplied functions. -/
structure Env where
  /-- the API calls a stage or transport function makes when called with
  `(point, config)`, given the context it finds -/
  stage : Nat → PipePoint → Value → Context → List StageOp
  /-- what a hook does when called with `args` (and a completion callback when `cb`) -/
  hook : Nat → List Value → Bool → HookOutcome
  /-- module loading, `require(name)` -/
  require : String → Value

def World.setPoint (w : World) (r : Ref) (p : PipePoint) : World :=
  { w with heap := fun k => if k = r then p else w.heap k }

def World.setCtx (w : World) (c : CtxRef) (x : Context) : World :=
  { w with ctxs := fun k => if k = c then x else w.ctxs k }

def World.setBuilder (w : World) (b : Nat) (x : Trooba) : World :=
  { w with builders := fun k => if k = b then x else w.builders k }

/-- Lookup `ctx.$points[id]._messageHandlers[type]` (`undefined` is `none`). -/
def Context.hook (x : Context) (id : Nat) (type : String) : Option Hook :=
  match x.points with
  | none => none
  | some reg =>
    match reg id with
    | none => none
    | some m => m type

def World.hook (w : World) (c : CtxRef) (id : Nat) (type : String) : Option Hook :=
  (w.ctxs c).hook id type

/-! ## Chain builder -/

/-- The `handler` and `config` the constructor `PipePoint(handler)` assigns: `this.handler =
handler`, and `handler.handler`, `handler.config` instead when `handler` is truthy and not a
function. -/
def stageOf (handler : Value) : Value × Value :=
  if handler.truthy && !handler.isFunction then (handler.handlerProp, handler.configProp)
  else (handler, .undefined)

/-- The statement `PipePoint.instanceCounter++` on the counter value `c`.  The counter is a
JavaScript number: it starts at `0`, is changed only by `++`, and stops increasing at `2^53`,
where `c + 1` is not representable and rounds back to `c`. -/
def incrementCounter (c : Nat) : Nat := if c < 9007199254740992 then c + 1 else c

/-- The constructor `new PipePoint(handler)`. -/
def PipePoint.new (handler : Value) (w : World) : PipePoint × World :=
  ({ handler := (stageOf handler).1, config := (stageOf handler).2,
     _id := w.instanceCounter, next := none, prev := none, context := none,
     oid := w.objCount },
   { w with instanceCounter := incrementCounter w.instanceCounter, objCount := w.objCount + 1,
            streamClosed := fun k => if k = w.objCount then false else w.streamClosed k })

/-- The function `createPipePoint(handler, next)`: returns the reference of the new point. -/
def createPipePoint (handler : Value) (next : Option Ref) (w : World) : Ref × World :=
  let (point, w1) := PipePoint.new handler w
  let r := w1.heapSize
  let w2 := { w1 with heap := fun k => if k = r then { point with next := next } else w1.heap k,
                      heapSize := r + 1 }
  match next with
  | some n => (r, w2.setPoint n { w2.heap n with prev := some r })
  | none => (r, w2)

/-- The function `buildPipe(handlers, target)`. -/
def buildPipe (handlers : List Value) (target : Ref) (w : World) : Ref × World :=
  let (pipe, w1) := handlers.foldl
    (fun (acc : Ref × World) handlerMeta => createPipePoint handlerMeta (some acc.1) acc.2)
    (target, w)
  createPipePoint (.fn .startPipe) (some pipe) w1

/-- The points met from `r` by following `next`, at most `fuel` of them. -/
def walkNext (heap : Ref → PipePoint) : Nat → Ref → List Ref
  | 0, _ => []
  | fuel + 1, r =>
    match (heap r).next with
    | some n => r :: walkNext heap fuel n
    | none => [r]

/-- The points met from `r` by following `prev`, at most `fuel` of them. -/
def walkPrev (heap : Ref → PipePoint) : Nat → Ref → List Ref
  | 0, _ => []
  | fuel + 1, r =>
    match (heap r).prev with
    | some n => r :: walkPrev heap fuel n
    | none => [r]

/-! ## Hook registry -/

/-- Sequencing of calls: an exception or fuel exhaustion ends the sequence. -/
def Res.bind {α β : Type} (r : Res α) (f : α → World → Res β) : Res β :=
  match r.completion with
  | .ok a => f a r.world
  | .thrown t => ⟨r.world, .thrown t⟩
  | .outOfFuel => ⟨r.world, .outOfFuel⟩

/-- The expression `a || b` on optional object references. -/
def orElse (a b : Option CtxRef) : Option CtxRef :=
  match a with
  | some c => some c
  | none => b

/-- The method `handlers(ctx)`.  The returned map object `ctx.$points[this._id]._messageHandlers`
is represented by the reference of the context that holds it; its entries are read with
`World.hook` and written with `World.setHook` at `this._id`. -/
def PipePoint.handlers (this : PipePoint) (ctx : Option CtxRef) (w : World) : Res CtxRef :=
  match orElse ctx this.context with
  | none => ⟨w, .thrown (.error "Context is missing, please make sure context() is used first")⟩
  | some c =>
    let x := w.ctxs c
    let reg : Registry := x.points.getD (fun _ => none)
    let m := (reg this._id).getD (fun _ => none)
    ⟨w.setCtx c { x with points := some (fun k => if k = this._id then some m else reg k) },
     .ok c⟩

/-- Write `messageHandlers[type] = h` (`h = some _`) or `delete messageHandlers[type]`
(`h = none`) on the map of point `id` in context `c`. -/
def World.setHook (w : World) (c : CtxRef) (id : Nat) (type : String) (h : Option Hook) :
    World :=
  let x := w.ctxs c
  match x.points with
  | none => w
  | some reg =>
    match reg id with
    | none => w
    | some m =>
      w.setCtx c { x with points := some (fun k =>
        if k = id then some (fun t => if t = type then h else m t) else reg k) }

/-- The method `on(type, handler)`. -/
def PipePoint.on (this : PipePoint) (type : String) (handler : Hook) (w : World) :
    Res PipePoint :=
  (this.handlers none w).bind fun c w1 =>
    if (w1.hook c this._id type).isSome then
      ⟨w1, .thrown (.error
        ("The hook has already been registered, you can use only one hook for specific event type: "
          ++ type))⟩
    else
      ⟨w1.setHook c this._id type (some handler), .ok this⟩

/-- The method `once(type, handler)`. -/
def PipePoint.once (this : PipePoint) (type : String) (handler : Hook) (w : World) :
    Res PipePoint :=
  (this.on type (.onceFn this type handler) w).bind fun _ w1 => ⟨w1, .ok this⟩

/-- What the caller-supplied hook `name` does when called with `args` (and a completion
callback when `cb`): calling the callback when none was handed over is the call of
`undefined`, a `TypeError`. -/
def hookOutcome (env : Env) (name : Nat) (args : List Value) (cb : Bool) : HookOutcome :=
  match env.hook name args cb with
  | .complete arg => if cb then .complete arg else .raise .typeError
  | outcome => outcome

/-- Call of a registered hook with the arguments `args`, followed by a completion callback
when `cb`.  Returns what was done with the callback. -/
def callHook (env : Env) : Hook → List Value → Bool → World → World × HookOutcome
  | .user name, args, cb, w =>
    ({ w with log := w.log ++ [.hook name args cb] }, hookOutcome env name args cb)
  | .onceFn self type handler, args, cb, w =>
    -- delete self.handlers()[type]; handler.apply(null, arguments)
    match self.handlers none w with
    | ⟨w1, .ok c⟩ => callHook env handler args cb (w1.setHook c self._id type none)
    | ⟨w1, .thrown t⟩ => (w1, .raise t)
    | ⟨w1, .outOfFuel⟩ => (w1, .raise .typeError) -- not reached: `handlers` uses no fuel
  | .responseCb callback, args, cb, w =>
    -- callback(null, res), where res is the first argument received
    match args with
    | res :: _ => callHook env callback [.null, res] false w
    | [] => if cb then callHook env callback [.null] true w
            else callHook env callback [.null, .undefined] false w

/-! ## Dispatcher -/

/-- The method `clone()`. -/
def PipePoint.clone (this : PipePoint) (w : World) : PipePoint × World :=
  let (ret, w1) := PipePoint.new .undefined w
  ({ ret with next := this.next, prev := this.prev, _id := this._id,
              config := this.config, handler := this.handler }, w1)

/-- The calls of a caller-supplied stage or transport function on the point it was handed. -/
def runOps (point : PipePoint) : List StageOp → World → Res Unit
  | [], w => ⟨w, .ok ()⟩
  | .on type hook :: rest, w => (point.on type hook w).bind fun _ w1 => runOps point rest w1
  | .once type hook :: rest, w => (point.once type hook w).bind fun _ w1 => runOps point rest w1
  | .raise t :: _, w => ⟨w, .thrown t⟩

/-- The context object a bound point refers to (`point.context`), an empty one when the
point has none. -/
def World.ctxOf (w : World) (point : PipePoint) : Context :=
  match point.context with
  | some c => w.ctxs c
  | none => {}

/-- The call `f(point, config)` of a function value.  For `injectTransport` this is the body
of that function literal in `Trooba.prototype.create`. -/
def callFunction (env : Env) : Nat → Value → PipePoint → Value → World → Res Unit
  | 0, _, _, _, w => ⟨w, .outOfFuel⟩
  | fuel + 1, f, point, config, w =>
    match f with
    | .fn (.user name) => runOps point (env.stage name point config (w.ctxOf point)) w
    | .fn .startPipe => ⟨w, .ok ()⟩
    | .fn (.injectTransport self) =>
      match point.context with
      | none => ⟨w, .thrown .typeError⟩
      | some c =>
        -- var tr = pipe.context.transport || self._transport
        let tr := (getField (w.ctxs c).fields "transport").or (w.builders self)._transport
        if !tr.truthy then
          ⟨w, .thrown (.error "Transport is not provided")⟩
        else if tr.handlerProp.truthy then
          callFunction env fuel tr.handlerProp point tr.configProp
            { w with log := w.log ++ [.transport tr.handlerProp point tr.configProp] }
        else
          callFunction env fuel tr point .undefined
            { w with log := w.log ++ [.transport tr point .undefined] }
    | _ => ⟨w, .thrown .typeError⟩

/-- The method `send(message)`, with the method `process` of the neighbor passed as `proc`. -/
def sendWith (proc : PipePoint → Message → World → Res Unit)
    (this : PipePoint) (message : Message) (w : World) : Res Unit :=
  -- pick the direction
  let nextPoint := if message.flow = Types.REQUEST then this.next else this.prev
  match nextPoint with
  | some r =>
    if message.context.isNone && this.context.isNone then
      ⟨w, .thrown (.error "Context is missing, make sure context() is used first")⟩
    else
      proc (w.heap r) { message with context := orElse message.context this.context } w
  | none =>
    if message.type = "error" then ⟨w, .thrown (.value message.ref)⟩ else ⟨w, .ok ()⟩

/-- The statement pair `if (processEndEvent()) return; point.send(message)` shared by the
hook-less branch of `process` and by `onComplete`; `c` is the context of `messageHandlers`. -/
def endEventOrSend (env : Env) (proc : PipePoint → Message → World → Res Unit)
    (point : PipePoint) (c : CtxRef) (message : Message) (w : World) : Res Unit :=
  if (message.type = "response:data" || message.type = "request:data")
      && message.ref = .undefined then
    match w.hook c point._id
        (if message.flow = Types.REQUEST then "request:end" else "response:end") with
    | some endHandler =>
      match callHook env endHandler [] true w with
      | (w1, .raise t) => ⟨w1, .thrown t⟩
      | (w1, .suspend) =>
        ⟨{ w1 with pending := w1.pending ++ [⟨point, message, c, true⟩] }, .ok ()⟩
      | (w1, .complete _) => sendWith proc point message w1
    | none => sendWith proc point message w
  else
    sendWith proc point message w

/-- The method `process(message)`. -/
def process (env : Env) : Nat → PipePoint → Message → World → Res Unit
  | 0, _, _, w => ⟨w, .outOfFuel⟩
  | fuel + 1, this, message, w =>
    if message.type = "context" then
      let w1 := (this.clone w).2
      let point := { (this.clone w).1 with context := message.context }
      (callFunction env (fuel + 1) point.handler point point.config
          { w1 with log := w1.log ++ [.handler point.handler point point.config] }).bind
        fun _ w2 => sendWith (process env fuel) point message w2
    else
      (this.handlers message.context w).bind fun c w1 =>
        match w1.hook c this._id message.type with
        | some processMessage =>
          match callHook env processMessage [message.ref] (!message.sync) w1 with
          | (w2, .raise t) => ⟨w2, .thrown t⟩
          | (w2, .suspend) =>
            if message.sync then sendWith (process env fuel) this message w2
            else ⟨{ w2 with pending := w2.pending ++ [⟨this, message, c, false⟩] }, .ok ()⟩
          | (w2, .complete arg) =>
            -- onComplete(ref)
            let message1 := match arg with
              | some ref => { message with ref := ref }
              | none => message
            endEventOrSend env (process env fuel) this c message1 w2
        | none => endEventOrSend env (process env fuel) this c message w1

/-- The method `send(message)`. -/
def PipePoint.send (env : Env) (fuel : Nat) (this : PipePoint) (message : Message) (w : World) :
    Res Unit :=
  sendWith (process env fuel) this message w

/-! ## Context binding and initiation -/

/-- The loop of `create` that copies the properties of the existing context `parent` into the
new context `child`: `if (name.charAt(0) !== '$' && !context[name]) context[name] =
self.context[name]` for every key of `parent`. -/
def inherit (parent child : List (String × Value)) : List (String × Value) :=
  (keys parent).foldl
    (fun context name =>
      if !reserved name && !(getField context name).truthy then
        setField context name (getField parent name)
      else context)
    child

/-- The expression `context || {}`: the given context object, or a new empty one. -/
def orNewContext (context : Option CtxRef) (w : World) : CtxRef × World :=
  match context with
  | some c => (c, w)
  | none => (w.ctxCount, { w.setCtx w.ctxCount {} with ctxCount := w.ctxCount + 1 })

/-- The method `create(context)` of a point (`create$`); `context = none` is a call without
a context object.  The object made by `Object.create(this)` reads the properties it does not
own from `this`: it is represented by a copy of `this` with a new identity, and takes the
value `_streamClosed` has on `this` at that moment. -/
def PipePoint.create (env : Env) (fuel : Nat) (this : PipePoint) (context : Option CtxRef)
    (w : World) : Res PipePoint :=
  -- context = context || {}
  let c := (orNewContext context w).1
  let w1 := (orNewContext context w).2
  let w2 := match this.context with
    | some p =>
      w1.setCtx c { w1.ctxs c with fields := inherit (w1.ctxs p).fields (w1.ctxs c).fields }
    | none => w1
  -- context.$points = undefined
  let w3 := w2.setCtx c { w2.ctxs c with points := none }
  -- var contextualPoint = Object.create(this); contextualPoint.context = context
  let contextualPoint := { this with context := some c, oid := w3.objCount }
  let w4 := { w3 with objCount := w3.objCount + 1,
                      streamClosed := fun k =>
                        if k = w3.objCount then w3.streamClosed this.oid else w3.streamClosed k }
  (contextualPoint.send env fuel { type := "context", flow := Types.REQUEST, ref := .ctxRef c }
      w4).bind
    fun _ w5 => ⟨w5, .ok contextualPoint⟩

/-- The method `throw(err)` (`throw$`). -/
def PipePoint.throw (env : Env) (fuel : Nat) (this : PipePoint) (err : Value) (w : World) :
    Res Unit :=
  this.send env fuel { type := "error", flow := Types.RESPONSE, ref := err } w

/-- The method `respond(response)` (`respond$`). -/
def PipePoint.respond (env : Env) (fuel : Nat) (this : PipePoint) (response : Value)
    (w : World) : Res PipePoint :=
  (this.send env fuel { type := "response", flow := Types.RESPONSE, ref := response } w).bind
    fun _ w1 => ⟨w1, .ok this⟩

/-- The inner function `sendRequest` of `request`, closing over `point` and `request`. -/
def sendRequest (env : Env) (fuel : Nat) (point : PipePoint) (request : Value) (w : World) :
    Res Unit :=
  point.send env fuel { type := "request", flow := Types.REQUEST, ref := request } w

/-- The method `request(request, callback)` (`request$`); `callback = none` is a call
without a callback. -/
def PipePoint.request (env : Env) (fuel : Nat) (this : PipePoint) (request : Value)
    (callback : Option Hook) (w : World) : Res PipePoint :=
  -- if (!point.context) point = point.create({})
  let bound : Res PipePoint := match this.context with
    | some _ => ⟨w, .ok this⟩
    | none =>
      PipePoint.create env fuel this (some w.ctxCount)
        { w.setCtx w.ctxCount {} with ctxCount := w.ctxCount + 1 }
  bound.bind fun point w1 =>
    match callback with
    | some cb =>
      (point.on "error" cb w1).bind fun point1 w2 =>
        (point1.on "response" (.responseCb cb) w2).bind fun _ w3 =>
          (sendRequest env fuel point request w3).bind fun _ w4 => ⟨w4, .ok point⟩
    | none =>
      -- this.context.$requestStream ? sendRequest() : setTimeout(sendRequest, 0)
      match this.context with
      | none => ⟨w1, .thrown .typeError⟩
      | some c =>
        if (getField (w1.ctxs c).fields "$requestStream").truthy then
          (sendRequest env fuel point request w1).bind fun _ w2 => ⟨w2, .ok point⟩
        else
          ⟨{ w1 with timers := w1.timers ++ [(point, request)] }, .ok point⟩

/-! ## Streams, deferred tasks, resumed callbacks -/

/-- The object returned by `createWriteStream(ctx)`; it closes over `ctx.channel` and
`ctx.flow`.  The flag `channel._streamClosed` is `World.streamClosed` at the identity of the
channel. -/
structure WriteStream where
  channel : PipePoint
  flow : Nat
  deriving DecidableEq, Repr

/-- The function `createWriteStream(ctx)`. -/
def createWriteStream (channel : PipePoint) (flow : Nat) : WriteStream := ⟨channel, flow⟩

/-- The inner function `_write(data)` of `createWriteStream`. -/
def WriteStream._write (env : Env) (fuel : Nat) (s : WriteStream) (data : Value) (w : World) :
    Res Unit :=
  if w.streamClosed s.channel.oid then
    ⟨w, .thrown (.error "The stream has been closed already")⟩
  else
    let w1 := if data = .undefined then
        { w with streamClosed := fun k => if k = s.channel.oid then true else w.streamClosed k }
      else w
    s.channel.send env fuel
      { type := if s.flow = Types.REQUEST then "request:data" else "response:data",
        flow := s.flow, ref := data } w1

/-- The method `write(data)` of a stream writer (`write$`). -/
def WriteStream.write (env : Env) (fuel : Nat) (s : WriteStream) (data : Value) (w : World) :
    Res WriteStream :=
  (s._write env fuel data w).bind fun _ w1 => ⟨w1, .ok s⟩

/-- The method `end()` of a stream writer (`end$`): `_write()` without an argument. -/
def WriteStream.end_ (env : Env) (fuel : Nat) (s : WriteStream) (w : World) : Res PipePoint :=
  (s._write env fuel .undefined w).bind fun _ w1 => ⟨w1, .ok s.channel⟩

/-- Property write `context[name] = v` on the context object `c`. -/
def World.setCtxField (w : World) (c : CtxRef) (name : String) (v : Value) : World :=
  w.setCtx c { w.ctxs c with fields := setField (w.ctxs c).fields name v }

/-- The method `streamRequest(request)` (`streamRequest$`). -/
def PipePoint.streamRequest (env : Env) (fuel : Nat) (this : PipePoint) (request : Value)
    (w : World) : Res WriteStream :=
  match this.context with
  | none => ⟨w, .thrown .typeError⟩
  | some c =>
    (this.request env fuel request none (w.setCtxField c "$requestStream" (.bool true))).bind
      fun point w1 => ⟨w1, .ok (createWriteStream point Types.REQUEST)⟩

/-- The method `streamResponse(response)` (`streamResponse$`). -/
def PipePoint.streamResponse (env : Env) (fuel : Nat) (this : PipePoint) (response : Value)
    (w : World) : Res WriteStream :=
  match this.context with
  | none => ⟨w, .thrown .typeError⟩
  | some c =>
    (this.respond env fuel response (w.setCtxField c "$responseStream" (.bool true))).bind
      fun point w1 => ⟨w1, .ok (createWriteStream point Types.RESPONSE)⟩

/-- The scheduler runs the oldest `setTimeout(sendRequest, 0)` task. -/
def runTimer (env : Env) (fuel : Nat) (w : World) : Res Unit :=
  match w.timers with
  | [] => ⟨w, .ok ()⟩
  | (point, request) :: rest => sendRequest env fuel point request { w with timers := rest }

/-- A hook calls the completion callback `k` it kept, with no argument or with one: the body
of `onComplete` in `process`, or of the resume callback in `processEndEvent`. -/
def resume (env : Env) (fuel : Nat) (k : Continuation) (arg : Option Value) (w : World) :
    Res Unit :=
  if k.isEnd then
    k.point.send env fuel k.message w
  else
    let message1 := match arg with
      | some ref => { k.message with ref := ref }
      | none => k.message
    endEventOrSend env (process env fuel) k.point k.ctx message1 w

/-! ## Builder -/

/-- What `Trooba.prototype.create` returns: a context-bound point, or the value returned by
the API wrapper `wrapper` called with `config` and the object `pipeApi` whose `create`
delegates to `pipe`. -/
inductive Created where
  | point (p : PipePoint)
  | api (wrapper : Value) (pipe : PipePoint) (config : Value)
  deriving DecidableEq, Repr

/-- The expression `new Trooba()`: returns the reference of the new builder. -/
def Trooba.new (w : World) : Nat × World :=
  (w.builderCount, { w.setBuilder w.builderCount {} with builderCount := w.builderCount + 1 })

/-- The statement `if (typeof handler === 'string') handler = require(handler)`. -/
def resolveHandler (env : Env) (handler : Value) : Value :=
  match handler with
  | .str name => env.require name
  | h => h

/-- The method `use(handler, config)` of the builder `self`. -/
def Trooba.use (env : Env) (self : Nat) (handler config : Value) (w : World) : World :=
  let handler1 := resolveHandler env handler
  let b := w.builders self
  w.setBuilder self
    { b with _handlers := .handlerMeta handler1 config :: b._handlers, _pipe := none }

/-- The method `transport(transport, config)` of the builder `self`.  The property
`transport.api` is `undefined` on every value represented here, except that reading it from
`undefined` or `null` is a `TypeError`. -/
def Trooba.transport (env : Env) (self : Nat) (transport config : Value) (w : World) :
    Res Unit :=
  let transport1 := resolveHandler env transport
  let w1 := w.setBuilder self { w.builders self with _transport := .handlerMeta transport1 config }
  match transport1 with
  | .undefined => ⟨w1, .thrown .typeError⟩
  | .null => ⟨w1, .thrown .typeError⟩
  | _ => ⟨w1, .ok ()⟩

/-- The method `interface(api, config)` of the builder `self`. -/
def Trooba.interface (self : Nat) (api config : Value) (w : World) : World :=
  w.setBuilder self { w.builders self with _api := .handlerMeta api config }

/-- The method `create(context)` of the builder `self`. -/
def Trooba.create (env : Env) (fuel : Nat) (self : Nat) (context : Option CtxRef) (w : World) :
    Res Created :=
  let b := w.builders self
  -- var pipe = this._pipe = this._pipe || buildPipe(this._handlers, createPipePoint(injectTransport))
  let (pipe, w1) := match b._pipe with
    | some p => (p, w)
    | none =>
      let (target, wa) := createPipePoint (.fn (.injectTransport self)) none w
      buildPipe b._handlers target wa
  let w2 := w1.setBuilder self { w1.builders self with _pipe := some pipe }
  if b._api.truthy then
    -- pipe = context ? pipe.create(context) : pipe
    let bound : Res PipePoint := match context with
      | some c => PipePoint.create env fuel (w2.heap pipe) (some c) w2
      | none => ⟨w2, .ok (w2.heap pipe)⟩
    bound.bind fun p w3 =>
      if b._api.handlerProp.truthy then
        if b._api.handlerProp.isFunction then
          ⟨{ w3 with log := w3.log ++ [.api b._api.handlerProp p b._api.configProp] },
           .ok (.api b._api.handlerProp p b._api.configProp)⟩
        else ⟨w3, .thrown .typeError⟩
      else if b._api.isFunction then
        ⟨{ w3 with log := w3.log ++ [.api b._api p .undefined] },
         .ok (.api b._api p .undefined)⟩
      else ⟨w3, .thrown .typeError⟩
  else
    (PipePoint.create env fuel (w2.heap pipe) context w2).bind fun p w3 => ⟨w3, .ok (.point p)⟩

/-! ## Predicates, invariants and scenarios used in the statements -/

/-- Consecutive entries of `rs` are neighbors of each other: `a.next = b` and `b.prev = a`. -/
def Linked (heap : Nat → PipePoint) : List Nat → Prop
  | [] => True
  | [_] => True
  | a :: b :: rest => (heap a).next = some b ∧ (heap b).prev = some a ∧ Linked heap (b :: rest)

/-- The handler and config of the point at `r`. -/
def stageAt (heap : Nat → PipePoint) (r : Nat) : Value × Value :=
  ((heap r).handler, (heap r).config)

/-- The chain invariant: `rs` is a doubly linked run of distinct allocated points. -/
structure IsChain (w : World) (rs : List Nat) : Prop where
  linked : Linked w.heap rs
  bound : ∀ r ∈ rs, r < w.heapSize
  nodup : rs.Nodup

/-- Everything but the heap and the instance counter is the same in both worlds. -/
def SameState (w w1 : World) : Prop :=
  w1.ctxs = w.ctxs ∧ w1.ctxCount = w.ctxCount ∧ w1.builders = w.builders ∧
  w1.builderCount = w.builderCount ∧ w1.log = w.log ∧ w1.pending = w.pending ∧
  w1.timers = w.timers

/-- The heap with the two links of every point exchanged. -/
def swapLinks (heap : Nat → PipePoint) : Nat → PipePoint :=
  fun r => { heap r with next := (heap r).prev, prev := (heap r).next }

/-- The heap of points and the builders are the same in both worlds. -/
def StaticEq (w w1 : World) : Prop :=
  w1.heap = w.heap ∧ w1.heapSize = w.heapSize ∧ w1.builders = w.builders ∧
  w1.builderCount = w.builderCount

/-- A relation between the world before and after that is kept by the steps of which the
dispatch of a request, response, error or data message is made. -/
structure Kept (E : Event → Prop) (R : World → World → Prop) : Prop where
  same : ∀ w, R w w
  seq : ∀ {a b c : World}, R a b → R b c → R a c
  ensure : ∀ (p : PipePoint) (ctx : Option Nat) (w : World), R w (p.handlers ctx w).world
  del : ∀ (w : World) (c id : Nat) (t : String), R w (w.setHook c id t none)
  logs : ∀ (w : World) (e : Event), E e → R w { w with log := w.log ++ [e] }
  pend : ∀ (w : World) (k : Continuation), R w { w with pending := w.pending ++ [k] }

/-- A relation that is also kept by hook registration and by the creation of point
objects: it is kept by the context-binding pass too. -/
structure KeptAll (E : Event → Prop) (R : World → World → Prop) extends Kept E R : Prop where
  add : ∀ (w : World) (c id : Nat) (t : String) (h : Hook), R w (w.setHook c id t (some h))
  alloc : ∀ (w : World) (ic oc : Nat) (sc : Nat → Bool),
    R w { w with instanceCounter := ic, objCount := oc, streamClosed := sc }

/-- The calls `point.handler(point, point.config)` recorded in a log: the function called, the
point handed over (its object identity left out) and the config. -/
def handlerCalls (log : List Event) : List (Value × PipePoint × Value) :=
  log.filterMap fun e =>
    match e with
    | .handler f point config => some (f, { point with oid := 0 }, config)
    | _ => none

/-- The call expected at the static point `r` under the context `c`: its handler, called with
the point's copy that carries `c` and with the point's config. -/
def boundCopy (heap : Nat → PipePoint) (c : Nat) (r : Nat) : Value × PipePoint × Value :=
  ((heap r).handler, { heap r with context := some c, oid := 0 }, (heap r).config)

/-- The points `rs` are met one after the other by following `next` from a point whose
`next` is `nx`, and the last of them has no `next`. -/
def NextPath (heap : Nat → PipePoint) : Option Nat → List Nat → Prop
  | nx, [] => nx = none
  | nx, r :: rs => nx = some r ∧ NextPath heap (heap r).next rs

/-- A handler that is the transport injection of a builder resolves, under the context `c`, to
a transport that is not again a transport injection. -/
def settles (w : World) (c : Nat) (h : Value) : Prop :=
  match h with
  | .fn (.injectTransport self) =>
    ∀ s, (if ((getField (w.ctxs c).fields "transport").or
              (w.builders self)._transport).handlerProp.truthy
          then ((getField (w.ctxs c).fields "transport").or
              (w.builders self)._transport).handlerProp
          else (getField (w.ctxs c).fields "transport").or (w.builders self)._transport)
        ≠ .fn (.injectTransport s)
  | _ => True

/-- The static chain, the builders and the properties of every context other than `$points`
are the same in both worlds. -/
def Quiet (w w1 : World) : Prop :=
  StaticEq w w1 ∧ ∀ k, (w1.ctxs k).fields = (w.ctxs k).fields

/-- No call `point.handler(point, point.config)` is added to the log. -/
def SameHandlerCalls (w w1 : World) : Prop := handlerCalls w1.log = handlerCalls w.log

/-- The context-bound copy `process` makes of `this`: `clone()` followed by
`point.context = message.context`. -/
def cloneOf (this : PipePoint) (ctx : Option Nat) (w : World) : PipePoint :=
  { this with context := ctx, oid := w.objCount }

/-- The world in which `process` calls the handler of the copy. -/
def afterClone (this : PipePoint) (ctx : Option Nat) (w : World) : World :=
  { w with instanceCounter := incrementCounter w.instanceCounter, objCount := w.objCount + 1,
           streamClosed := fun k => if k = w.objCount then false else w.streamClosed k,
           log := w.log ++ [.handler this.handler (cloneOf this ctx w) this.config] }

/-- A hook closes over no context object other than `c`. -/
def closedIn (c : Nat) : Hook → Prop
  | .user _ => True
  | .onceFn self _ handler => self.context = some c ∧ closedIn c handler
  | .responseCb callback => closedIn c callback

/-- Every hook registered under the context `c` closes over no other context object: this
is what `on` and `once` produce when called with caller-supplied functions. -/
def RegClosed (c : Nat) (w : World) : Prop :=
  ∀ id t h, w.hook c id t = some h → closedIn c h

/-- The result of a call, with the world replaced. -/
def Res.onWorld {α : Type} (f : World → World) (r : Res α) : Res α := ⟨f r.world, r.completion⟩

/-- Registering under one context leaves every lookup unchanged: hooks are only ever
removed from a registry by a dispatch. -/
def NoNewHooks (w w1 : World) : Prop :=
  ∀ c id t h, w1.hook c id t = some h → w.hook c id t = some h

/-- The registry of the context `c` has an entry for the point `id`. -/
def HasEntry (w : World) (c id : Nat) : Prop :=
  ∃ reg m, (w.ctxs c).points = some reg ∧ reg id = some m

/-- The error raised by `on` for a type that already has a hook. -/
def duplicateHook (type : String) : Thrown :=
  .error ("The hook has already been registered, you can use only one hook for specific event type: "
    ++ type)

/-- The log is the same in both worlds. -/
def LogSame (w w1 : World) : Prop := w1.log = w.log

/-- What the rest of `process` does once the hook has been called: `wl` is the world in which
the hook returns. -/
def afterHook (env : Env) (fuel : Nat) (this : PipePoint) (c : Nat) (m : Message)
    (outcome : HookOutcome) (wl : World) : Res Unit :=
  match outcome with
  | .raise t => ⟨wl, .thrown t⟩
  | .suspend =>
    if m.sync then sendWith (process env fuel) this m wl
    else ⟨{ wl with pending := wl.pending ++ [⟨this, m, c, false⟩] }, .ok ()⟩
  | .complete arg =>
    endEventOrSend env (process env fuel) this c
      (match arg with
        | some ref => { m with ref := ref }
        | none => m) wl

/-- The log only grows. -/
def LogGrows (w w1 : World) : Prop := ∃ l, w1.log = w.log ++ l

/-- The type under which the end hook of a data message is registered. -/
def endType (m : Message) : String :=
  if m.flow = Types.REQUEST then "request:end" else "response:end"

/-- The message is a data message that carries the end-of-stream sentinel. -/
def isEndOfStream (m : Message) : Bool :=
  (m.type = "response:data" || m.type = "request:data") && m.ref = .undefined

/-- The points `rs` are met one after the other by following `prev` from a point whose
`prev` is `pv`, and the last of them has no `prev`. -/
def PrevPath (heap : Nat → PipePoint) : Option Nat → List Nat → Prop
  | pv, [] => pv = none
  | pv, r :: rs => pv = some r ∧ PrevPath heap (heap r).prev rs

/-- Entries of the registries are never removed. -/
def EntriesKept (w w1 : World) : Prop := ∀ c id, HasEntry w c id → HasEntry w1 c id

/-- The neighbor `send` picks for a message of the given flow. -/
def nbr (flow : Nat) (p : PipePoint) : Option Nat :=
  if flow = Types.REQUEST then p.next else p.prev

/-- The points `rs` are met one after the other by a message of the given flow that leaves a
point whose neighbor is `x`, and the last of them has no further neighbor. -/
def FlowPath (heap : Nat → PipePoint) (flow : Nat) : Option Nat → List Nat → Prop
  | x, [] => x = none
  | x, r :: rs => x = some r ∧ FlowPath heap flow (nbr flow (heap r)) rs

/-- What a stage does to the messages of one type: nothing (`none`: it has no hook), or a
hook `n` that calls its completion callback with `f payload`. -/
abbrev StageSpec := Option (Nat × (Value → Value))

/-- The payload after the stage. -/
def StageSpec.apply (s : StageSpec) (v : Value) : Value :=
  match s with
  | none => v
  | some (_, f) => f v

/-- The payload after the stages, visited in list order. -/
def relayPayload : List StageSpec → Value → Value
  | [], v => v
  | s :: rest, v => relayPayload rest (s.apply v)

/-- The hook calls made by the stages, visited in list order. -/
def relayEvents : List StageSpec → Value → List Event
  | [], _ => []
  | none :: rest, v => relayEvents rest v
  | some (n, f) :: rest, v => .hook n [v] true :: relayEvents rest (f v)

/-- The stages at the points `refs` behave, for messages of type `ty` under the context `c`,
as their specs say. -/
def StagesOk (env : Env) (w : World) (c : Nat) (ty : String) :
    List Nat → List StageSpec → Prop
  | [], [] => True
  | r :: refs, none :: specs =>
    w.hook c (w.heap r)._id ty = none ∧ StagesOk env w c ty refs specs
  | r :: refs, some (n, f) :: specs =>
    w.hook c (w.heap r)._id ty = some (.user n) ∧
    (∀ v, env.hook n [v] true = .complete (some (f v))) ∧ StagesOk env w c ty refs specs
  | _, _ => False

/-- Upper case of a string payload. -/
def upper (v : Value) : Value :=
  match v with
  | .str s => .str (String.mk (s.data.map Char.toUpper))
  | x => x

/-- The scenario of the specification: stage `1` registers a `request` hook that forwards the
payload unchanged, stage `2` a `response` hook that upper-cases it, the transport `9` a
`request` hook that keeps the request. -/
def pingEnv : Env :=
  { stage := fun name _ _ _ =>
      match name with
      | 1 => [.on "request" (.user 11)]
      | 2 => [.on "response" (.user 12)]
      | 9 => [.on "request" (.user 19)]
      | _ => []
    hook := fun name args _ =>
      match name, args with
      | 11, [v] => .complete (some v)
      | 12, [v] => .complete (some (upper v))
      | _, _ => .suspend
    require := fun _ => .undefined }

/-- The world after `new Trooba().use(stage1).use(stage2).transport(tr)`, `create()` and
`on('response', hook20)` on the bound head. -/
def pingWorld : World :=
  let w1 := (Trooba.new {}).2
  let w2 := Trooba.use pingEnv 0 (.fn (.user 2)) .undefined
    (Trooba.use pingEnv 0 (.fn (.user 1)) .undefined w1)
  let w3 := (Trooba.transport pingEnv 0 (.fn (.user 9)) .undefined w2).world
  let w4 := (Trooba.create pingEnv 5 0 none w3).world
  (({ w4.heap 3 with context := some 0 } : PipePoint).on "response" (.user 20) w4).world

/-- The calls `write(c1)`, ..., `write(cn)` on a stream writer, one after the other. -/
def writeAll (env : Env) (fuel : Nat) (s : WriteStream) : List Value → World → Res Unit
  | [], w => ⟨w, .ok ()⟩
  | v :: rest, w => (s.write env fuel v w).bind fun _ w1 => writeAll env fuel s rest w1

/-- The static points, the stream flags and the hook lookups are the same in both worlds. -/
def StreamBase (w w1 : World) : Prop :=
  w1.heap = w.heap ∧ w1.streamClosed = w.streamClosed ∧
  ∀ c id t, w1.hook c id t = w.hook c id t

/-- A stage `1` that registers only a `request:end` hook, and a transport `9` that registers a
`request:data` hook; both hooks keep their callbacks. -/
def streamEnv : Env :=
  { stage := fun name _ _ _ =>
      match name with
      | 1 => [.on "request:end" (.user 31)]
      | 9 => [.on "request:data" (.user 32)]
      | _ => []
    hook := fun _ _ _ => .suspend
    require := fun _ => .undefined }

/-- The world after `create()` on the head of the chain of the stage `1` and the transport
`9`. -/
def streamWorld : World :=
  let w := (buildPipe [.handlerMeta (.fn (.user 1)) .undefined] 0
    (createPipePoint (.fn (.user 9)) none {}).2).2
  (PipePoint.create streamEnv 4 (w.heap 2) none w).world

/-- The flags `_streamClosed` are the same in both worlds. -/
def ClosedSame (w w1 : World) : Prop := w1.streamClosed = w.streamClosed

/-- The error `_write` raises on a closed channel. -/
def streamClosedError : Thrown := .error "The stream has been closed already"

/-- The calls of a transport recorded in a log: the function called, the point handed over
(its object identity left out) and the config. -/
def transportCalls (log : List Event) : List (Value × PipePoint × Value) :=
  log.filterMap fun e =>
    match e with
    | .transport f point config => some (f, { point with oid := 0 }, config)
    | _ => none

/-- No call of a transport is added to the log. -/
def SameTransportCalls (w w1 : World) : Prop := transportCalls w1.log = transportCalls w.log

/-- The error raised by `injectTransport` when no transport is found. -/
def noTransport : Thrown := .error "Transport is not provided"

/-- The error `e` is thrown by a caller-supplied stage or transport function. -/
def ThrownByUser (env : Env) (e : Thrown) : Prop :=
  ∃ n pt cfg ctx v, (runOps pt (env.stage n pt cfg ctx) v).completion = .thrown e

/-- The function and the config `injectTransport` calls for the transport value `tr`:
`tr.handler(pipe, tr.config)` when `tr.handler` is truthy, else `tr(pipe)`. -/
def transportOf (tr : Value) : Value × Value :=
  if tr.handlerProp.truthy then (tr.handlerProp, tr.configProp) else (tr, .undefined)

/-- The expression `pipe.context.transport || self._transport` of `injectTransport`. -/
def resolveTransport (w : World) (c self : Nat) : Value :=
  (getField (w.ctxs c).fields "transport").or (w.builders self)._transport

/-- The functions called as `point.handler(point, point.config)`, as recorded in a log. -/
def handlerFns (log : List Event) : List Value := (handlerCalls log).map Prod.fst

/-- The handler functions of the stage points of the chain built from the list `hs` of a
builder, in forward chain order. -/
def stageFns (hs : List Value) : List Value := (hs.map fun h => (stageOf h).1).reverse

/-- The transport value `injectTransport` finds when the builder `self` binds `context` (or a
new empty context, when none is given) in the world `w`. -/
def transportFor (context : Option Nat) (w : World) (self : Nat) : Value :=
  resolveTransport (orNewContext context w).2 (orNewContext context w).1 self

/-- A builder with the stage `1` and no transport. -/
def bareBuilder : World :=
  Trooba.use pingEnv 0 (.fn (.user 1)) .undefined (Trooba.new {}).2

/-- A builder with the stage `1` and the transport `9` with config `7`, in a world whose
context `0` carries the transport function `8`. -/
def overrideWorld : World :=
  (Trooba.transport pingEnv 0 (.fn (.user 9)) (.num 7)
    (Trooba.use pingEnv 0 (.fn (.user 1)) .undefined
      (Trooba.new { ctxs := fun _ => { fields := [("transport", .fn (.user 8))] },
                    ctxCount := 1 }).2)).world

/-- The deferred tasks are the same in both worlds. -/
def TimersSame (w w1 : World) : Prop := w1.timers = w.timers

/-- The world after `use(stage1)`, `use(stage2)`, `transport(tr)` and `create()`: the stage `1`
has a `request` hook, the head has no hook. -/
def requestWorld : World :=
  (Trooba.create pingEnv 5 0 none
    (Trooba.transport pingEnv 0 (.fn (.user 9)) .undefined
      (Trooba.use pingEnv 0 (.fn (.user 2)) .undefined
        (Trooba.use pingEnv 0 (.fn (.user 1)) .undefined (Trooba.new {}).2))).world).world

/-- The operations a caller, a stage or a transport performs on points and stream writers,
and the two ways the scheduler or a hook continues a dispatch. -/
inductive Op where
  | create (p : PipePoint) (context : Option Nat)
  | on (p : PipePoint) (type : String) (h : Hook)
  | once (p : PipePoint) (type : String) (h : Hook)
  | request (p : PipePoint) (req : Value) (cb : Option Hook)
  | respond (p : PipePoint) (response : Value)
  | throw (p : PipePoint) (err : Value)
  | streamRequest (p : PipePoint) (req : Value)
  | streamResponse (p : PipePoint) (response : Value)
  | write (s : WriteStream) (data : Value)
  | end_ (s : WriteStream)
  /-- the scheduler runs a deferred `sendRequest` -/
  | timer
  /-- a hook calls the completion callback it kept -/
  | resumed (k : Continuation) (arg : Option Value)

/-- The world after one operation. -/
def Op.run (env : Env) (fuel : Nat) : Op → World → World
  | .create p context, w => (p.create env fuel context w).world
  | .on p type h, w => (p.on type h w).world
  | .once p type h, w => (p.once type h w).world
  | .request p req cb, w => (p.request env fuel req cb w).world
  | .respond p response, w => (p.respond env fuel response w).world
  | .throw p err, w => (p.throw env fuel err w).world
  | .streamRequest p req, w => (p.streamRequest env fuel req w).world
  | .streamResponse p response, w => (p.streamResponse env fuel response w).world
  | .write s data, w => (s.write env fuel data w).world
  | .end_ s, w => (s.end_ env fuel w).world
  | .timer, w => (runTimer env fuel w).world
  | .resumed k arg, w => (resume env fuel k arg w).world

/-- The world after a sequence of operations. -/
def runAll (env : Env) (fuel : Nat) (ops : List Op) (w : World) : World :=
  ops.foldl (fun v op => op.run env fuel v) w

/-- The error `send` raises when neither the message nor the point has a context. -/
def missingContextSend : Thrown :=
  .error "Context is missing, make sure context() is used first"

/-- The error `handlers` raises when neither a context is given nor the point has one. -/
def missingContextHandlers : Thrown :=
  .error "Context is missing, please make sure context() is used first"

/-- The message after the completion callback `onComplete(ref)` (`arg = some ref`) or
`onComplete()` (`arg = none`). -/
def completed (m : Message) (arg : Option Value) : Message :=
  match arg with
  | some ref => { m with ref := ref }
  | none => m

/-- A stage `1` that registers a `request:data` hook, which calls its completion callback
without an argument, and a `request:end` hook, which keeps its resume callback. -/
def bothEnv : Env :=
  { stage := fun name _ _ _ =>
      match name with
      | 1 => [.on "request:data" (.user 41), .on "request:end" (.user 42)]
      | _ => []
    hook := fun name _ _ =>
      match name with
      | 41 => .complete none
      | _ => .suspend
    require := fun _ => .undefined }

/-- The world after `create()` on the head of the chain of the stage `1` and the transport
`9`. -/
def bothWorld : World :=
  (PipePoint.create bothEnv 4
    ((buildPipe [.handlerMeta (.fn (.user 1)) .undefined] 0
      (createPipePoint (.fn (.user 9)) none {}).2).2.heap 2) none
    (buildPipe [.handlerMeta (.fn (.user 1)) .undefined] 0
      (createPipePoint (.fn (.user 9)) none {}).2).2).world


/-- The only registration the hook removes when it is called is the one at the point `id` for
the type `t` under the context `c`: true of every hook registered there by `on` with a
caller-supplied function or by `once` on a point bound to `c`. -/
def ownSlot (c id : Nat) (t : String) : Hook → Prop
  | .user _ => True
  | .onceFn self type handler =>
    self.context = some c ∧ self._id = id ∧ type = t ∧ ownSlot c id t handler
  | .responseCb callback => ownSlot c id t callback

/-- The hook removes no registration when it is called. -/
def onceFree : Hook → Prop
  | .user _ => True
  | .onceFn _ _ _ => False
  | .responseCb callback => onceFree callback

/-- Every registered hook removes at most its own registration: the registrations are those
made by `on` and `once`. -/
def OwnSlots (w : World) : Prop :=
  ∀ c id t h, w.hook c id t = some h → ownSlot c id t h

/-- The hook `h`, which removes no registration, is registered at the point `id` for the type
`t` under the context `c`, in a world whose hooks remove at most their own registration. -/
def Settled (c id : Nat) (t : String) (h : Hook) (w : World) : Prop :=
  OwnSlots w ∧ w.hook c id t = some h

/-- The world after the dispatch of the messages `ds`, one after the other: each is processed
at its point with its fuel. -/
def dispatchAll (env : Env) : List (Nat × PipePoint × Message) → World → World
  | [], w => w
  | (f, p, m) :: rest, w => dispatchAll env rest (process env f p m w).world

/-! ## Chain shape -/

theorem createPipePoint_fst (h : Value) (nx : Option Nat) (w : World) :
    (createPipePoint h nx w).1 = w.heapSize := by
  cases nx <;> simp [createPipePoint, PipePoint.new]

theorem createPipePoint_heapSize (h : Value) (nx : Option Nat) (w : World) :
    (createPipePoint h nx w).2.heapSize = w.heapSize + 1 := by
  cases nx <;> simp [createPipePoint, PipePoint.new, World.setPoint]

theorem createPipePoint_heap_new (h : Value) (nx : Option Nat) (w : World)
    (hn : ∀ n, nx = some n → n < w.heapSize) :
    stageAt (createPipePoint h nx w).2.heap w.heapSize = stageOf h ∧
    ((createPipePoint h nx w).2.heap w.heapSize).next = nx ∧
    ((createPipePoint h nx w).2.heap w.heapSize).prev = none ∧
    ((createPipePoint h nx w).2.heap w.heapSize)._id = w.instanceCounter ∧
    ((createPipePoint h nx w).2.heap w.heapSize).context = none := by
  cases nx with
  | none => simp [createPipePoint, PipePoint.new, stageAt]
  | some n =>
    have hne : w.heapSize ≠ n := Nat.ne_of_gt (hn n rfl)
    simp [createPipePoint, PipePoint.new, stageAt, World.setPoint, hne]

theorem createPipePoint_heap_old (h : Value) (nx : Option Nat) (w : World) (k : Nat)
    (hk : k ≠ w.heapSize) :
    ((createPipePoint h nx w).2.heap k).next = (w.heap k).next ∧
    stageAt (createPipePoint h nx w).2.heap k = stageAt w.heap k ∧
    ((createPipePoint h nx w).2.heap k)._id = (w.heap k)._id ∧
    ((createPipePoint h nx w).2.heap k).context = (w.heap k).context ∧
    (nx ≠ some k → ((createPipePoint h nx w).2.heap k).prev = (w.heap k).prev) ∧
    (nx = some k → ((createPipePoint h nx w).2.heap k).prev = some w.heapSize) := by
  cases nx with
  | none => simp [createPipePoint, PipePoint.new, stageAt, hk]
  | some n =>
    by_cases hkn : k = n
    · subst hkn
      simp [createPipePoint, PipePoint.new, stageAt, World.setPoint, hk]
    · have : n ≠ k := fun h => hkn h.symm
      simp [createPipePoint, PipePoint.new, stageAt, World.setPoint, hk, hkn, this]

theorem sameState_same (w : World) : SameState w w := by
  simp [SameState]

theorem sameState_seq {a b c : World} (h1 : SameState a b) (h2 : SameState b c) :
    SameState a c := by
  obtain ⟨p1, p2, p3, p4, p5, p6, p7⟩ := h1
  obtain ⟨q1, q2, q3, q4, q5, q6, q7⟩ := h2
  exact ⟨q1.trans p1, q2.trans p2, q3.trans p3, q4.trans p4, q5.trans p5, q6.trans p6,
    q7.trans p7⟩

theorem createPipePoint_same (h : Value) (nx : Option Nat) (w : World) :
    SameState w (createPipePoint h nx w).2 ∧
    (createPipePoint h nx w).2.instanceCounter = incrementCounter w.instanceCounter := by
  cases nx <;> simp [createPipePoint, PipePoint.new, World.setPoint, SameState]

theorem Linked.tail {heap : Nat → PipePoint} {a : Nat} {rs : List Nat}
    (h : Linked heap (a :: rs)) : Linked heap rs := by
  cases rs with
  | nil => trivial
  | cons b rest => exact h.2.2

theorem Linked.congr {h1 h2 : Nat → PipePoint} :
    ∀ rs : List Nat, (∀ x ∈ rs, (h2 x).next = (h1 x).next) →
      (∀ x ∈ rs.tail, (h2 x).prev = (h1 x).prev) → Linked h1 rs → Linked h2 rs
  | [], _, _, _ => trivial
  | [_], _, _, _ => trivial
  | a :: b :: rest, hn, hp, hl => by
    refine ⟨?_, ?_, ?_⟩
    · rw [hn a (by simp)]; exact hl.1
    · rw [hp b (by simp)]; exact hl.2.1
    · refine Linked.congr (b :: rest) (fun x hx => hn x (List.mem_cons_of_mem _ hx)) ?_ hl.2.2
      intro x hx
      exact hp x (List.mem_cons_of_mem _ (by simpa using hx))

/-- Putting a new point in front of a chain with `createPipePoint` gives a chain. -/
theorem IsChain.step {w : World} {cur : Nat} {rest : List Nat} (hc : IsChain w (cur :: rest))
    (h : Value) : IsChain (createPipePoint h (some cur) w).2 (w.heapSize :: cur :: rest) := by
  have hcur : cur < w.heapSize := hc.bound cur (by simp)
  have hnew := createPipePoint_heap_new h (some cur) w (by intro n hn; cases hn; exact hcur)
  have hold := fun k hk => createPipePoint_heap_old h (some cur) w k hk
  refine ⟨⟨hnew.2.1, ?_, ?_⟩, ?_, ?_⟩
  · exact (hold cur (Nat.ne_of_lt hcur)).2.2.2.2.2 rfl
  · refine Linked.congr (cur :: rest) ?_ ?_ hc.linked
    · intro x hx
      exact (hold x (Nat.ne_of_lt (hc.bound x hx))).1
    · intro x hx
      have hx1 : x ∈ rest := by simpa using hx
      have hxb : x < w.heapSize := hc.bound x (List.mem_cons_of_mem _ hx1)
      refine (hold x (Nat.ne_of_lt hxb)).2.2.2.2.1 ?_
      intro he
      have : cur = x := by simpa using he
      subst this
      exact (List.nodup_cons.mp hc.nodup).1 hx1
  · intro r hr
    rw [createPipePoint_heapSize]
    rcases List.mem_cons.mp hr with rfl | hr
    · exact Nat.lt_succ_self _
    · exact Nat.lt_succ_of_lt (hc.bound r hr)
  · refine List.nodup_cons.mpr ⟨?_, hc.nodup⟩
    intro hmem
    exact Nat.lt_irrefl _ (hc.bound _ hmem)

/-- The fold of `buildPipe`: the new points are allocated in list order, each in front of the
previous one, so the chain reads them in reverse list order. -/
theorem foldl_chain : ∀ (hs : List Value) (cur : Nat) (rs : List Nat) (w : World),
    IsChain w (cur :: rs) →
    let res := hs.foldl
      (fun (acc : Nat × World) handlerMeta => createPipePoint handlerMeta (some acc.1) acc.2)
      (cur, w)
    let full := (List.range' w.heapSize hs.length).reverse ++ cur :: rs
    full.head? = some res.1 ∧ IsChain res.2 full ∧
    full.map (stageAt res.2.heap) = (hs.map stageOf).reverse ++ (cur :: rs).map (stageAt w.heap) ∧
    (hs ≠ [] → (res.2.heap res.1).prev = none) ∧
    (hs = [] → res = (cur, w)) ∧
    (∀ x, x < w.heapSize → (res.2.heap x).next = (w.heap x).next ∧
      (res.2.heap x)._id = (w.heap x)._id ∧ (res.2.heap x).context = (w.heap x).context) ∧
    (∀ i, i < hs.length →
      (res.2.heap (w.heapSize + i))._id = incrementCounter^[i] w.instanceCounter ∧
      (res.2.heap (w.heapSize + i)).context = none) ∧
    res.2.heapSize = w.heapSize + hs.length ∧
    res.2.instanceCounter = incrementCounter^[hs.length] w.instanceCounter ∧
    SameState w res.2
  | [], cur, rs, w, hc => by
    simp [hc, sameState_same]
  | h :: hs, cur, rs, w, hc => by
    have hcur : cur < w.heapSize := hc.bound cur (by simp)
    have hstep := hc.step h
    have hnew := createPipePoint_heap_new h (some cur) w (by intro n hn; cases hn; exact hcur)
    have hold := fun k hk => createPipePoint_heap_old h (some cur) w k hk
    have hsame := createPipePoint_same h (some cur) w
    have ih := foldl_chain hs w.heapSize (cur :: rs) (createPipePoint h (some cur) w).2 hstep
    simp only [createPipePoint_heapSize] at ih
    obtain ⟨i1, i2, i3, i4, i5, i6, i7, i8, i9, i10⟩ := ih
    have hfull : (List.range' w.heapSize (h :: hs).length).reverse ++ cur :: rs
        = (List.range' (w.heapSize + 1) hs.length).reverse ++ w.heapSize :: cur :: rs := by
      simp [List.range'_succ]
    simp only [List.foldl_cons, createPipePoint_fst]
    rw [hfull]
    have hfst : (createPipePoint h (some cur) w) = (w.heapSize, (createPipePoint h (some cur) w).2) := by
      rw [← createPipePoint_fst h (some cur) w]
    rw [hfst]
    refine ⟨i1, i2, ?_, ?_, by simp, ?_, ?_, ?_, ?_, sameState_seq hsame.1 i10⟩
    · have hmap : (cur :: rs).map (stageAt (createPipePoint h (some cur) w).2.heap)
          = (cur :: rs).map (stageAt w.heap) :=
        List.map_congr_left (fun x hx => (hold x (Nat.ne_of_lt (hc.bound x hx))).2.1)
      rw [i3, List.map_cons, hnew.1, hmap]
      simp
    · intro _
      by_cases hhs : hs = []
      · subst hhs
        simpa using hnew.2.2.1
      · exact i4 hhs
    · intro x hx
      have h1 := i6 x (Nat.lt_succ_of_lt hx)
      have h2 := hold x (Nat.ne_of_lt hx)
      exact ⟨h1.1.trans h2.1, h1.2.1.trans h2.2.2.1, h1.2.2.trans h2.2.2.2.1⟩
    · intro i hi
      cases i with
      | zero =>
        have h1 := i6 w.heapSize (Nat.lt_succ_self _)
        exact ⟨h1.2.1.trans hnew.2.2.2.1, h1.2.2.trans hnew.2.2.2.2⟩
      | succ j =>
        have h1 := i7 j (by simpa using hi)
        rw [hsame.2] at h1
        have e1 : w.heapSize + (j + 1) = w.heapSize + 1 + j := by omega
        rw [e1, Function.iterate_succ_apply]
        exact h1
    · rw [i8]; simp; omega
    · rw [i9, hsame.2, List.length_cons, Function.iterate_succ_apply]

/-- The chain built by `buildPipe`: the new head, the new stage points in reverse list order,
then the target. -/
theorem buildPipe_chain (hs : List Value) (t : Nat) (w : World) (ht : t < w.heapSize) :
    let res := buildPipe hs t w
    let full := (w.heapSize + hs.length) :: ((List.range' w.heapSize hs.length).reverse ++ [t])
    res.1 = w.heapSize + hs.length ∧ IsChain res.2 full ∧
    full.map (stageAt res.2.heap)
      = (.fn .startPipe, .undefined) :: ((hs.map stageOf).reverse ++ [stageAt w.heap t]) ∧
    (res.2.heap (w.heapSize + hs.length)).prev = none ∧
    (res.2.heap t).next = (w.heap t).next ∧
    (∀ x, x < w.heapSize → (res.2.heap x)._id = (w.heap x)._id ∧
      (res.2.heap x).context = (w.heap x).context) ∧
    (∀ i, i ≤ hs.length →
      (res.2.heap (w.heapSize + i))._id = incrementCounter^[i] w.instanceCounter ∧
      (res.2.heap (w.heapSize + i)).context = none) ∧
    res.2.heapSize = w.heapSize + hs.length + 1 ∧
    res.2.instanceCounter = incrementCounter^[hs.length + 1] w.instanceCounter ∧
    SameState w res.2 := by
  have h0 : IsChain w [t] := ⟨trivial, by simpa using ht, by simp⟩
  obtain ⟨f1, f2, f3, -, -, f6, f7, f8, f9, f10⟩ := foldl_chain hs t [] w h0
  generalize hres : hs.foldl
      (fun (acc : Nat × World) handlerMeta => createPipePoint handlerMeta (some acc.1) acc.2)
      (t, w) = res0 at f1 f2 f3 f6 f7 f8 f9 f10
  obtain ⟨tl, htl⟩ : ∃ tl, (List.range' w.heapSize hs.length).reverse ++ [t] = res0.1 :: tl := by
    cases hl : (List.range' w.heapSize hs.length).reverse ++ [t] with
    | nil => simp at hl
    | cons a tl =>
      rw [hl] at f1
      exact ⟨tl, by simpa using f1⟩
  have hb : buildPipe hs t w = createPipePoint (.fn .startPipe) (some res0.1) res0.2 := by
    simp only [buildPipe, hres]
  have hcur : res0.1 < res0.2.heapSize := by
    rw [htl] at f2
    exact f2.bound _ (by simp)
  have hnew := createPipePoint_heap_new (.fn .startPipe) (some res0.1) res0.2
    (by intro n hn; cases hn; exact hcur)
  have hold := fun k hk => createPipePoint_heap_old (.fn .startPipe) (some res0.1) res0.2 k hk
  have hsame := createPipePoint_same (.fn .startPipe) (some res0.1) res0.2
  have hstep : IsChain (createPipePoint (.fn .startPipe) (some res0.1) res0.2).2
      (res0.2.heapSize :: res0.1 :: tl) := by
    rw [htl] at f2
    exact f2.step _
  simp only [hb, createPipePoint_fst, createPipePoint_heapSize]
  rw [f8] at hnew hold hstep ⊢
  refine ⟨rfl, ?_, ?_, hnew.2.2.1, ?_, ?_, ?_, rfl, ?_, sameState_seq f10 hsame.1⟩
  · rw [htl]; exact hstep
  · have hmap : ((List.range' w.heapSize hs.length).reverse ++ [t]).map
          (stageAt (createPipePoint (.fn .startPipe) (some res0.1) res0.2).2.heap)
        = ((List.range' w.heapSize hs.length).reverse ++ [t]).map (stageAt res0.2.heap) := by
      refine List.map_congr_left (fun x hx => (hold x ?_).2.1)
      have := f2.bound x hx
      rw [f8] at this
      exact Nat.ne_of_lt this
    rw [List.map_cons, hnew.1, hmap, f3]
    simp [stageOf, Value.truthy, Value.isFunction]
  · have h1 := hold t (by omega)
    exact h1.1.trans (f6 t ht).1
  · intro x hx
    have h1 := hold x (by omega)
    exact ⟨h1.2.2.1.trans (f6 x hx).2.1, h1.2.2.2.1.trans (f6 x hx).2.2⟩
  · intro i hi
    rcases Nat.lt_or_eq_of_le hi with hlt | heq
    · have h1 := hold (w.heapSize + i) (by omega)
      exact ⟨h1.2.2.1.trans (f7 i hlt).1, h1.2.2.2.1.trans (f7 i hlt).2⟩
    · subst heq
      exact ⟨hnew.2.2.2.1.trans f9, hnew.2.2.2.2⟩
  · rw [hsame.2, f9, Function.iterate_succ_apply']

theorem walkNext_linked {heap : Nat → PipePoint} :
    ∀ (rs : List Nat) (a : Nat), Linked heap (a :: rs) →
      walkNext heap (rs.length + 1) a = a :: rs
  | [], a, _ => by
    simp only [walkNext, List.length_nil]
    split <;> rfl
  | b :: rest, a, h => by
    rw [List.length_cons, walkNext, h.1]
    simp only
    rw [walkNext_linked rest b h.2.2]

/-- A chain whose last point has no `next` is the whole forward walk, whatever the fuel. -/
theorem walkNext_linked_end {heap : Nat → PipePoint} :
    ∀ (rs : List Nat) (a : Nat), Linked heap (a :: rs) →
      (∀ z, (a :: rs).getLast? = some z → (heap z).next = none) →
      ∀ k, rs.length + 1 ≤ k → walkNext heap k a = a :: rs
  | [], a, _, hend, k, hk => by
    obtain ⟨j, rfl⟩ : ∃ j, k = j + 1 := ⟨k - 1, by simp at hk; omega⟩
    simp [walkNext, hend a (by simp)]
  | b :: rest, a, h, hend, k, hk => by
    obtain ⟨j, rfl⟩ : ∃ j, k = j + 1 := ⟨k - 1, by simp at hk; omega⟩
    rw [walkNext, h.1]
    simp only
    rw [walkNext_linked_end rest b h.2.2 (fun z hz => hend z (by simpa using hz)) j
      (by simp at hk ⊢; omega)]

theorem walkPrev_eq_walkNext_swap (heap : Nat → PipePoint) :
    ∀ (k : Nat) (r : Nat), walkPrev heap k r = walkNext (swapLinks heap) k r
  | 0, _ => rfl
  | k + 1, r => by
    simp only [walkPrev, walkNext, swapLinks]
    cases h : (heap r).prev with
    | none => rfl
    | some n =>
      simp only
      rw [walkPrev_eq_walkNext_swap heap k n]

theorem Linked.snoc {g : Nat → PipePoint} :
    ∀ (xs : List Nat) (y z : Nat), Linked g (xs ++ [y]) → (g y).next = some z →
      (g z).prev = some y → Linked g (xs ++ [y, z])
  | [], _, _, _, hn, hp => ⟨hn, hp, trivial⟩
  | [a], _, _, h, hn, hp => ⟨h.1, h.2.1, hn, hp, trivial⟩
  | a :: b :: rest, y, z, h, hn, hp =>
    ⟨h.1, h.2.1, Linked.snoc (b :: rest) y z h.2.2 hn hp⟩

theorem Linked.reverse {heap : Nat → PipePoint} :
    ∀ rs : List Nat, Linked heap rs → Linked (swapLinks heap) rs.reverse
  | [], _ => trivial
  | [_], _ => trivial
  | a :: b :: rest, h => by
    have ih := Linked.reverse (b :: rest) h.2.2
    have : (a :: b :: rest).reverse = rest.reverse ++ [b, a] := by simp
    rw [this]
    refine Linked.snoc rest.reverse b a (by simpa using ih) ?_ ?_
    · simpa [swapLinks] using h.2.1
    · simpa [swapLinks] using h.1

/-- A chain whose first point has no `prev` is, reversed, the whole backward walk from
its last point. -/
theorem walkPrev_linked_end {heap : Nat → PipePoint} (rs : List Nat) (a z : Nat)
    (h : Linked heap (a :: rs)) (hz : (a :: rs).getLast? = some z)
    (hp : (heap a).prev = none) (k : Nat) (hk : rs.length + 1 ≤ k) :
    walkPrev heap k z = (a :: rs).reverse := by
  rw [walkPrev_eq_walkNext_swap]
  have hr := Linked.reverse (a :: rs) h
  obtain ⟨tl, htl⟩ : ∃ tl, (a :: rs).reverse = z :: tl := by
    have : (a :: rs).reverse.head? = some z := by rw [List.head?_reverse]; exact hz
    cases hl : (a :: rs).reverse with
    | nil => simp at hl
    | cons x tl =>
      rw [hl] at this
      have hx : x = z := by simpa using this
      exact ⟨tl, by rw [hx]⟩
  rw [htl] at hr ⊢
  have hlen : tl.length = rs.length := by
    have := congrArg List.length htl
    simpa using this.symm
  refine walkNext_linked_end tl z hr ?_ k (by omega)
  intro y hy
  have : (z :: tl).getLast? = some a := by
    rw [← htl, List.getLast?_reverse]; rfl
  rw [this] at hy
  cases hy
  simpa [swapLinks] using hp

/-! ## Relations kept by every step of the dispatcher -/

theorem bind_kept {E : Event → Prop} {R : World → World → Prop} (hR : Kept E R) {α β : Type} {w : World}
    {r : Res α} {f : α → World → Res β}
    (h1 : R w r.world) (h2 : ∀ a w1, R w w1 → R w (f a w1).world) :
    R w (r.bind f).world := by
  unfold Res.bind
  split
  · exact h2 _ _ h1
  · exact h1
  · exact h1

theorem on_kept {E : Event → Prop} {R : World → World → Prop} (hR : KeptAll E R) (this : PipePoint) (type : String)
    (h : Hook) (w : World) : R w (this.on type h w).world := by
  unfold PipePoint.on
  refine bind_kept hR.toKept (hR.ensure _ _ _) ?_
  intro c w1 h1
  split
  · exact h1
  · exact hR.seq h1 (hR.add _ _ _ _ _)

theorem once_kept {E : Event → Prop} {R : World → World → Prop} (hR : KeptAll E R) (this : PipePoint)
    (type : String) (h : Hook) (w : World) : R w (this.once type h w).world := by
  unfold PipePoint.once
  exact bind_kept hR.toKept (on_kept hR _ _ _ _) (fun _ _ h1 => h1)

theorem callHook_kept {E : Event → Prop} {R : World → World → Prop} (hR : Kept E R)
    (hE : ∀ n a c, E (.hook n a c)) (env : Env) :
    ∀ (hook : Hook) (args : List Value) (cb : Bool) (w : World),
      R w (callHook env hook args cb w).1
  | .user name, args, cb, w => by
    simp only [callHook]
    exact hR.logs _ _ (hE _ _ _)
  | .onceFn self type handler, args, cb, w => by
    simp only [callHook]
    have h0 := hR.ensure self none w
    split
    · rename_i w1 c heq
      rw [heq] at h0
      exact hR.seq (hR.seq h0 (hR.del _ _ _ _)) (callHook_kept hR hE env handler _ _ _)
    · rename_i w1 t heq
      rw [heq] at h0
      exact h0
    · rename_i w1 heq
      rw [heq] at h0
      exact h0
  | .responseCb callback, args, cb, w => by
    simp only [callHook]
    split
    · exact callHook_kept hR hE env callback _ _ _
    · split <;> exact callHook_kept hR hE env callback _ _ _

theorem runOps_kept {E : Event → Prop} {R : World → World → Prop} (hR : KeptAll E R) (point : PipePoint) :
    ∀ (ops : List StageOp) (w : World), R w (runOps point ops w).world
  | [], w => hR.same w
  | .on type hook :: rest, w => by
    simp only [runOps]
    exact bind_kept hR.toKept (on_kept hR _ _ _ _)
      (fun _ w1 h1 => hR.seq h1 (runOps_kept hR point rest w1))
  | .once type hook :: rest, w => by
    simp only [runOps]
    exact bind_kept hR.toKept (once_kept hR _ _ _ _)
      (fun _ w1 h1 => hR.seq h1 (runOps_kept hR point rest w1))
  | .raise t :: _, w => hR.same w

theorem callFunction_kept {E : Event → Prop} {R : World → World → Prop} (hR : KeptAll E R)
    (hE : ∀ f p c, E (.transport f p c)) (env : Env) :
    ∀ (fuel : Nat) (f : Value) (point : PipePoint) (config : Value) (w : World),
      R w (callFunction env fuel f point config w).world
  | 0, _, _, _, w => hR.same w
  | fuel + 1, f, point, config, w => by
    unfold callFunction
    split
    · exact runOps_kept hR _ _ _
    · exact hR.same w
    · split
      · exact hR.same w
      · simp only
        split
        · exact hR.same w
        · split
          · exact hR.seq (hR.logs _ _ (hE _ _ _)) (callFunction_kept hR hE env fuel _ _ _ _)
          · exact hR.seq (hR.logs _ _ (hE _ _ _)) (callFunction_kept hR hE env fuel _ _ _ _)
    · exact hR.same w

theorem sendWith_kept {E : Event → Prop} {R : World → World → Prop} (hR : Kept E R)
    {proc : PipePoint → Message → World → Res Unit} {P : Message → Prop}
    (hP : ∀ (m : Message) (c : Option Nat), P m → P { m with context := c })
    (hp : ∀ p m w, P m → R w (proc p m w).world)
    (this : PipePoint) (message : Message) (hm : P message) (w : World) :
    R w (sendWith proc this message w).world := by
  unfold sendWith
  simp only
  split
  · split
    · exact hR.same w
    · exact hp _ _ _ (hP _ _ hm)
  · split <;> exact hR.same w

theorem endEventOrSend_kept {E : Event → Prop} {R : World → World → Prop} (hR : Kept E R)
    (hE : ∀ n a c, E (.hook n a c)) (env : Env)
    {proc : PipePoint → Message → World → Res Unit} {P : Message → Prop}
    (hP : ∀ (m : Message) (c : Option Nat), P m → P { m with context := c })
    (hp : ∀ p m w, P m → R w (proc p m w).world)
    (point : PipePoint) (c : Nat) (message : Message) (hm : P message) (w : World) :
    R w (endEventOrSend env proc point c message w).world := by
  unfold endEventOrSend
  split
  · split
    · rename_i endHandler _
      have h0 := callHook_kept hR hE env endHandler [] true w
      split
      · rename_i w1 t heq
        rw [heq] at h0; exact h0
      · rename_i w1 heq
        rw [heq] at h0; exact hR.seq h0 (hR.pend _ _)
      · rename_i w1 a heq
        rw [heq] at h0; exact hR.seq h0 (sendWith_kept hR hP hp _ _ hm _)
    · exact sendWith_kept hR hP hp _ _ hm _
  · exact sendWith_kept hR hP hp _ _ hm _

/-- The hook branch of `process` keeps every `Kept` relation. -/
theorem hookBranch_kept {E : Event → Prop} {R : World → World → Prop} (hR : Kept E R)
    (hE : ∀ n a c, E (.hook n a c)) (env : Env) (fuel : Nat)
    (ih : ∀ p m w, m.type ≠ "context" → R w (process env fuel p m w).world)
    (this : PipePoint) (message : Message) (hm : message.type ≠ "context") (w : World) :
    R w ((this.handlers message.context w).bind fun c w1 =>
        match w1.hook c this._id message.type with
        | some processMessage =>
          match callHook env processMessage [message.ref] (!message.sync) w1 with
          | (w2, .raise t) => ⟨w2, .thrown t⟩
          | (w2, .suspend) =>
            if message.sync then sendWith (process env fuel) this message w2
            else ⟨{ w2 with pending := w2.pending ++ [⟨this, message, c, false⟩] }, .ok ()⟩
          | (w2, .complete arg) =>
            endEventOrSend env (process env fuel) this c
              (match arg with
                | some ref => { message with ref := ref }
                | none => message) w2
        | none => endEventOrSend env (process env fuel) this c message w1).world := by
  have hP : ∀ (m : Message) (c : Option Nat), m.type ≠ "context" →
      ({ m with context := c } : Message).type ≠ "context" := fun _ _ h => h
  refine bind_kept hR (hR.ensure _ _ _) ?_
  intro c w1 h1
  split
  · rename_i processMessage _
    have h0 := callHook_kept hR hE env processMessage [message.ref] (!message.sync) w1
    split
    · rename_i w2 t heq
      rw [heq] at h0; exact hR.seq h1 h0
    · rename_i w2 heq
      rw [heq] at h0
      split
      · exact hR.seq (hR.seq h1 h0) (sendWith_kept hR hP ih _ _ hm _)
      · exact hR.seq (hR.seq h1 h0) (hR.pend _ _)
    · rename_i w2 arg heq
      rw [heq] at h0
      refine hR.seq (hR.seq h1 h0) (endEventOrSend_kept hR hE env hP ih _ _ _ ?_ _)
      cases arg <;> exact hm
  · exact hR.seq h1 (endEventOrSend_kept hR hE env hP ih _ _ _ hm _)

/-- The dispatch of a message other than the context message keeps every `Kept` relation. -/
theorem dispatch_kept {E : Event → Prop} {R : World → World → Prop} (hR : Kept E R)
    (hE : ∀ n a c, E (.hook n a c)) (env : Env) :
    ∀ (fuel : Nat) (this : PipePoint) (message : Message) (w : World),
      message.type ≠ "context" → R w (process env fuel this message w).world
  | 0, _, _, w, _ => hR.same w
  | fuel + 1, this, message, w, hm => by
    have ih := fun p m w h => dispatch_kept hR hE env fuel p m w h
    unfold process
    rw [if_neg hm]
    exact hookBranch_kept hR hE env fuel ih this message hm w

/-- Every dispatch, the context-binding pass included, keeps every `KeptAll` relation. -/
theorem process_kept {E : Event → Prop} {R : World → World → Prop} (hR : KeptAll E R)
    (hE : ∀ e, E e) (env : Env) :
    ∀ (fuel : Nat) (this : PipePoint) (message : Message) (w : World),
      R w (process env fuel this message w).world
  | 0, _, _, w => hR.same w
  | fuel + 1, this, message, w => by
    have ih := fun p m w => process_kept hR hE env fuel p m w
    unfold process
    split
    · have h1 : R w (this.clone w).2 := hR.alloc w _ _ _
      refine bind_kept hR.toKept (hR.seq (hR.seq h1 (hR.logs _ _ (hE _)))
        (callFunction_kept hR (fun _ _ _ => hE _) _ _ _ _ _ _)) ?_
      intro _ w2 h2
      exact hR.seq h2 (sendWith_kept (P := fun _ => True) hR.toKept (fun _ _ h => h)
        (fun p m w _ => ih p m w) _ _ trivial _)
    · rename_i hm
      exact hookBranch_kept hR.toKept (fun _ _ _ => hE _) env fuel (fun p m w _ => ih p m w)
        this message hm w

theorem send_kept {E : Event → Prop} {R : World → World → Prop} (hR : KeptAll E R)
    (hE : ∀ e, E e) (env : Env) (fuel : Nat)
    (this : PipePoint) (message : Message) (w : World) :
    R w (this.send env fuel message w).world :=
  sendWith_kept (P := fun _ => True) hR.toKept (fun _ _ h => h)
    (fun p m w _ => process_kept hR hE env fuel p m w) _ _ trivial _

/-! ## The static chain is never written after it is built -/

theorem staticEq_kept : KeptAll (fun _ => True) StaticEq where
  same := fun _ => ⟨rfl, rfl, rfl, rfl⟩
  seq := fun h1 h2 =>
    ⟨h2.1.trans h1.1, h2.2.1.trans h1.2.1, h2.2.2.1.trans h1.2.2.1, h2.2.2.2.trans h1.2.2.2⟩
  ensure := by
    intro p ctx w
    unfold PipePoint.handlers
    split <;> exact ⟨rfl, rfl, rfl, rfl⟩
  del := by
    intro w c id t
    unfold World.setHook
    simp only
    split
    · exact ⟨rfl, rfl, rfl, rfl⟩
    · split <;> exact ⟨rfl, rfl, rfl, rfl⟩
  logs := fun _ _ _ => ⟨rfl, rfl, rfl, rfl⟩
  pend := fun _ _ => ⟨rfl, rfl, rfl, rfl⟩
  add := by
    intro w c id t h
    unfold World.setHook
    simp only
    split
    · exact ⟨rfl, rfl, rfl, rfl⟩
    · split <;> exact ⟨rfl, rfl, rfl, rfl⟩
  alloc := fun _ _ _ _ => ⟨rfl, rfl, rfl, rfl⟩

theorem send_static (env : Env) (fuel : Nat) (this : PipePoint) (message : Message)
    (w : World) : StaticEq w (this.send env fuel message w).world :=
  send_kept staticEq_kept (fun _ => trivial) env fuel this message w

theorem bind_static {α β : Type} {w : World} {r : Res α} {f : α → World → Res β}
    (h1 : StaticEq w r.world) (h2 : ∀ a w1, StaticEq w w1 → StaticEq w (f a w1).world) :
    StaticEq w (r.bind f).world :=
  bind_kept staticEq_kept.toKept h1 h2

theorem create_static (env : Env) (fuel : Nat) (this : PipePoint) (context : Option Nat)
    (w : World) : StaticEq w (PipePoint.create env fuel this context w).world := by
  cases context <;> cases hc : this.context <;>
    simp only [PipePoint.create, hc, orNewContext] <;>
    exact bind_static (staticEq_kept.seq ⟨rfl, rfl, rfl, rfl⟩ (send_static env fuel _ _ _))
      (fun _ _ h => h)

/-! ## Builder -/

theorem use_foldl (env : Env) (self : Nat) :
    ∀ (stages : List (Value × Value)) (w : World),
      let w1 := stages.foldl (fun acc s => Trooba.use env self s.1 s.2 acc) w
      (w1.builders self)._handlers
        = (stages.map (fun s => Value.handlerMeta (resolveHandler env s.1) s.2)).reverse
            ++ (w.builders self)._handlers ∧
      ((w.builders self)._pipe = none → (w1.builders self)._pipe = none) ∧
      (w1.builders self)._api = (w.builders self)._api ∧
      (w1.builders self)._transport = (w.builders self)._transport ∧
      w1.heap = w.heap ∧ w1.heapSize = w.heapSize ∧ w1.instanceCounter = w.instanceCounter
  | [], w => by simp
  | s :: rest, w => by
    have ih := use_foldl env self rest (Trooba.use env self s.1 s.2 w)
    simp only [List.foldl_cons]
    obtain ⟨i1, i2, i3, i4, i5, i6, i7⟩ := ih
    refine ⟨?_, ?_, ?_, ?_, ?_, ?_, ?_⟩
    · rw [i1]; simp [Trooba.use, World.setBuilder]
    · intro _; exact i2 (by simp [Trooba.use, World.setBuilder])
    · rw [i3]; simp [Trooba.use, World.setBuilder]
    · rw [i4]; simp [Trooba.use, World.setBuilder]
    · rw [i5]; simp [Trooba.use, World.setBuilder]
    · rw [i6]; simp [Trooba.use, World.setBuilder]
    · rw [i7]; simp [Trooba.use, World.setBuilder]

/-- The world in which `Trooba.prototype.create` binds the context, when no pipe is cached. -/
theorem Trooba_create_static (env : Env) (fuel self : Nat) (context : Option Nat) (w : World)
    (hp : (w.builders self)._pipe = none) :
    let wa := (createPipePoint (.fn (.injectTransport self)) none w).2
    let res := buildPipe (w.builders self)._handlers w.heapSize wa
    StaticEq (res.2.setBuilder self { res.2.builders self with _pipe := some res.1 })
      (Trooba.create env fuel self context w).world := by
  intro wa res
  unfold Trooba.create
  simp only [hp, createPipePoint_fst]
  split
  · refine bind_static ?_ ?_
    · cases context with
      | none => exact staticEq_kept.same _
      | some c => exact create_static _ _ _ _ _
    · intro p w3 h3
      split
      · split
        · exact staticEq_kept.seq h3 ⟨rfl, rfl, rfl, rfl⟩
        · exact h3
      · split
        · exact staticEq_kept.seq h3 ⟨rfl, rfl, rfl, rfl⟩
        · exact h3
  · exact bind_static (create_static _ _ _ _ _) (fun _ _ h => h)

/-! ## C1, C2: order of the built chain -/

theorem getLast?_cons_snoc (a t : Nat) (xs : List Nat) :
    (a :: (xs ++ [t])).getLast? = some t := by
  rw [← List.cons_append]
  exact List.getLast?_concat _

/-- C1: after `use(h1)`, ..., `use(hN)` on a builder without stages and `create`, the forward
walk from the head of the built chain visits the no-op head, the points of `h1`, ..., `hN` in
declared order and then the transport-injection point; the backward walk from the
transport-injection point visits the same points in reverse order. -/
theorem C1_declared_order (env : Env) (fuel self : Nat) (stages : List (Value × Value))
    (context : Option Nat) (w : World)
    (hfresh : (w.builders self)._handlers = [] ∧ (w.builders self)._pipe = none) :
    let w1 := stages.foldl (fun acc s => Trooba.use env self s.1 s.2 acc) w
    let w2 := (Trooba.create env fuel self context w1).world
    let head := w.heapSize + 1 + stages.length
    let points := head :: ((List.range' (w.heapSize + 1) stages.length).reverse ++ [w.heapSize])
    (w2.builders self)._pipe = some head ∧
    (∀ k, stages.length + 2 ≤ k → walkNext w2.heap k head = points) ∧
    (∀ k, stages.length + 2 ≤ k → walkPrev w2.heap k w.heapSize = points.reverse) ∧
    points.map (stageAt w2.heap)
      = (Value.fn .startPipe, Value.undefined) ::
          (stages.map (fun s => (resolveHandler env s.1, s.2))
            ++ [(Value.fn (.injectTransport self), Value.undefined)]) := by
  intro w1 w2 head points
  obtain ⟨u1, u2, -, -, u5, u6, u7⟩ := use_foldl env self stages w
  have hpipe : (w1.builders self)._pipe = none := u2 hfresh.2
  have hst := Trooba_create_static env fuel self context w1 hpipe
  have hnewT := createPipePoint_heap_new (.fn (.injectTransport self)) none w1 (by simp)
  have hsz := createPipePoint_heapSize (.fn (.injectTransport self)) none w1
  have hb := buildPipe_chain (w1.builders self)._handlers w1.heapSize
    (createPipePoint (.fn (.injectTransport self)) none w1).2 (by rw [hsz]; exact Nat.lt_succ_self _)
  simp only [hsz] at hb
  have hlen : (w1.builders self)._handlers.length = stages.length := by
    have := congrArg List.length u1
    simpa [hfresh.1] using this
  rw [hlen] at hb
  have h6 : w1.heapSize = w.heapSize := u6
  rw [h6] at hb hnewT
  obtain ⟨b1, b2, b3, b4, b5, -, -, -, -, -⟩ := hb
  have hheap : w2.heap = (buildPipe (w1.builders self)._handlers w.heapSize
      (createPipePoint (.fn (.injectTransport self)) none w1).2).2.heap := by
    have := hst.1
    rw [h6] at this
    exact this
  have hbuild : w2.builders = _ := hst.2.2.1
  refine ⟨?_, ?_, ?_, ?_⟩
  · rw [hbuild, h6, b1]
    simp [World.setBuilder, head]
  · intro k hk
    rw [hheap]
    refine walkNext_linked_end _ _ b2.linked ?_ k (by simp; omega)
    intro z hz
    rw [getLast?_cons_snoc] at hz
    have : z = w.heapSize := by simpa using hz.symm
    subst this
    rw [b5]
    exact hnewT.2.1
  · intro k hk
    rw [hheap]
    exact walkPrev_linked_end _ _ _ b2.linked (getLast?_cons_snoc _ _ _) b4 k (by simp; omega)
  · rw [hheap]
    show List.map _ ((w.heapSize + 1 + stages.length) :: _) = _
    rw [b3, u1, hfresh.1, hnewT.1]
    simp [stageOf, Value.truthy, Value.isFunction, Value.handlerProp, Value.configProp,
      Function.comp_def]

/-- Witness of C1: one stage on a new builder. -/
theorem C1_declared_order_witness :
    let env : Env := ⟨fun _ _ _ _ => [], fun _ _ _ => .suspend, fun _ => .undefined⟩
    let w : World := {}
    let w2 := (Trooba.create env 5 0 none
      ([(Value.fn (.user 7), Value.num 1)].foldl
        (fun acc s => Trooba.use env 0 s.1 s.2 acc) w)).world
    (w2.builders 0)._pipe = some 2 ∧
    (∀ k, 3 ≤ k → walkNext w2.heap k 2 = [2, 1, 0]) ∧
    (∀ k, 3 ≤ k → walkPrev w2.heap k 0 = [0, 1, 2]) ∧
    [2, 1, 0].map (stageAt w2.heap)
      = [(Value.fn .startPipe, Value.undefined), (Value.fn (.user 7), Value.num 1),
         (Value.fn (.injectTransport 0), Value.undefined)] :=
  C1_declared_order ⟨fun _ _ _ _ => [], fun _ _ _ => .suspend, fun _ => .undefined⟩ 5 0
    [(Value.fn (.user 7), Value.num 1)] none {} ⟨rfl, rfl⟩

/-- C2 fails as stated: for the list `[A, B]` the forward walk from the head returned by
`buildPipe` meets the point of `B` before the point of `A`. -/
theorem C2_counterexample :
    ¬ (let w0 := (createPipePoint (.fn (.user 9)) none {}).2
       let handlers := [Value.handlerMeta (.fn (.user 1)) .undefined,
         Value.handlerMeta (.fn (.user 2)) .undefined]
       let res := buildPipe handlers 0 w0
       (walkNext res.2.heap 4 res.1).map (stageAt res.2.heap)
        = (Value.fn .startPipe, Value.undefined) ::
            (handlers.map stageOf ++ [stageAt w0.heap 0])) := by
  decide

/-- C2 amended: the forward walk from the head returned by `buildPipe(handlers, target)` visits
the head, then the points of the list in reverse list order, then the target. -/
theorem C2_reverse_list_order (hs : List Value) (t : Nat) (w : World) (ht : t < w.heapSize) :
    let res := buildPipe hs t w
    walkNext res.2.heap (hs.length + 2) res.1
      = (w.heapSize + hs.length) :: ((List.range' w.heapSize hs.length).reverse ++ [t]) ∧
    (walkNext res.2.heap (hs.length + 2) res.1).map (stageAt res.2.heap)
      = (Value.fn .startPipe, Value.undefined) ::
          ((hs.map stageOf).reverse ++ [stageAt w.heap t]) := by
  intro res
  obtain ⟨b1, b2, b3, -⟩ := buildPipe_chain hs t w ht
  have hw : walkNext res.2.heap (hs.length + 2) res.1
      = (w.heapSize + hs.length) :: ((List.range' w.heapSize hs.length).reverse ++ [t]) := by
    have := @walkNext_linked res.2.heap _ _ b2.linked
    simp only [List.length_append, List.length_reverse, List.length_range', List.length_singleton]
      at this
    rw [show res.1 = w.heapSize + hs.length from b1]
    exact this
  exact ⟨hw, by rw [hw]; exact b3⟩

/-- Witness of C2 amended: two stages in front of an existing target. -/
theorem C2_reverse_list_order_witness :
    (let w0 := (createPipePoint (.fn (.user 9)) none {}).2
     let res := buildPipe [.handlerMeta (.fn (.user 1)) .undefined,
       .handlerMeta (.fn (.user 2)) .undefined] 0 w0
     walkNext res.2.heap 4 res.1 = [3, 2, 1, 0] ∧
     (walkNext res.2.heap 4 res.1).map (stageAt res.2.heap)
      = [(Value.fn .startPipe, Value.undefined), (Value.fn (.user 2), Value.undefined),
         (Value.fn (.user 1), Value.undefined), (Value.fn (.user 9), Value.undefined)]) :=
  C2_reverse_list_order [.handlerMeta (.fn (.user 1)) .undefined,
    .handlerMeta (.fn (.user 2)) .undefined] 0 (createPipePoint (.fn (.user 9)) none {}).2
    (by decide)

/-! ## C3: the context-binding pass -/

theorem handlers_fields (p : PipePoint) (ctx : Option Nat) (w : World) (k : Nat) :
    ((p.handlers ctx w).world.ctxs k).fields = (w.ctxs k).fields := by
  unfold PipePoint.handlers
  split
  · rfl
  · simp only [World.setCtx]
    split
    · rename_i h; rw [h]
    · rfl

theorem setHook_fields (w : World) (c id : Nat) (t : String) (h : Option Hook) (k : Nat) :
    ((w.setHook c id t h).ctxs k).fields = (w.ctxs k).fields := by
  unfold World.setHook
  simp only
  split
  · rfl
  · split
    · rfl
    · simp only [World.setCtx]
      split
      · rename_i h; rw [h]
      · rfl

theorem quiet_kept : KeptAll (fun _ => True) Quiet where
  same := fun w => ⟨staticEq_kept.same w, fun _ => rfl⟩
  seq := fun h1 h2 => ⟨staticEq_kept.seq h1.1 h2.1, fun k => (h2.2 k).trans (h1.2 k)⟩
  ensure := fun p ctx w => ⟨staticEq_kept.ensure p ctx w, handlers_fields p ctx w⟩
  del := fun w c id t => ⟨staticEq_kept.del w c id t, setHook_fields w c id t none⟩
  logs := fun _ _ _ => ⟨⟨rfl, rfl, rfl, rfl⟩, fun _ => rfl⟩
  pend := fun _ _ => ⟨⟨rfl, rfl, rfl, rfl⟩, fun _ => rfl⟩
  add := fun w c id t h => ⟨staticEq_kept.add w c id t h, setHook_fields w c id t (some h)⟩
  alloc := fun _ _ _ _ => ⟨⟨rfl, rfl, rfl, rfl⟩, fun _ => rfl⟩

theorem sameHandlerCalls_kept :
    KeptAll (fun e => ∀ f p c, e ≠ .handler f p c) SameHandlerCalls where
  same := fun _ => rfl
  seq := fun h1 h2 => Eq.trans h2 h1
  ensure := by
    intro p ctx w
    unfold PipePoint.handlers
    split <;> rfl
  del := by
    intro w c id t
    unfold World.setHook
    simp only
    split
    · rfl
    · split <;> rfl
  logs := by
    intro w e he
    cases e with
    | handler f p c => exact absurd rfl (he f p c)
    | transport f p c => simp [SameHandlerCalls, handlerCalls]
    | api f p c => simp [SameHandlerCalls, handlerCalls]
    | hook n a c => simp [SameHandlerCalls, handlerCalls]
  pend := fun _ _ => rfl
  add := by
    intro w c id t h
    unfold World.setHook
    simp only
    split
    · rfl
    · split <;> rfl
  alloc := fun _ _ _ _ => rfl

theorem bind_completion_ok {α β : Type} {r : Res α} {f : α → World → Res β} {b : β}
    (h : (r.bind f).completion = .ok b) :
    ∃ a, r.completion = .ok a ∧ (f a r.world).completion = .ok b := by
  unfold Res.bind at h
  split at h
  · rename_i a ha
    exact ⟨a, ha, h⟩
  · cases h
  · cases h

theorem handlers_done (p : PipePoint) (ctx : Option Nat) (w : World) :
    (p.handlers ctx w).completion ≠ .outOfFuel := by
  unfold PipePoint.handlers
  split <;> simp

theorem bind_done {α β : Type} {r : Res α} {f : α → World → Res β}
    (h1 : r.completion ≠ .outOfFuel) (h2 : ∀ a w, (f a w).completion ≠ .outOfFuel) :
    (r.bind f).completion ≠ .outOfFuel := by
  unfold Res.bind
  split
  · exact h2 _ _
  · simp
  · rename_i h; exact absurd h h1

theorem on_done (p : PipePoint) (t : String) (h : Hook) (w : World) :
    (p.on t h w).completion ≠ .outOfFuel := by
  unfold PipePoint.on
  refine bind_done (handlers_done _ _ _) ?_
  intro c w1
  split <;> simp

theorem once_done (p : PipePoint) (t : String) (h : Hook) (w : World) :
    (p.once t h w).completion ≠ .outOfFuel := by
  unfold PipePoint.once
  exact bind_done (on_done _ _ _ _) (fun _ _ => by simp)

theorem runOps_done (p : PipePoint) :
    ∀ (ops : List StageOp) (w : World), (runOps p ops w).completion ≠ .outOfFuel
  | [], w => by simp [runOps]
  | .on t h :: rest, w => by
    simp only [runOps]
    exact bind_done (on_done _ _ _ _) (fun _ w1 => runOps_done p rest w1)
  | .once t h :: rest, w => by
    simp only [runOps]
    exact bind_done (once_done _ _ _ _) (fun _ w1 => runOps_done p rest w1)
  | .raise t :: _, w => by simp [runOps]

theorem callFunction_plain_done (env : Env) (fuel : Nat) (f : Value) (p : PipePoint)
    (cfg : Value) (w : World) (hf : ∀ s, f ≠ .fn (.injectTransport s)) :
    (callFunction env (fuel + 1) f p cfg w).completion ≠ .outOfFuel := by
  unfold callFunction
  split
  · exact runOps_done _ _ _
  · simp
  · rename_i self
    exact absurd rfl (hf self)
  · simp

theorem callFunction_done (env : Env) (fuel : Nat) (f : Value) (p : PipePoint) (c : Nat)
    (cfg : Value) (w : World) (hp : p.context = some c) (hf : settles w c f) :
    (callFunction env (fuel + 2) f p cfg w).completion ≠ .outOfFuel := by
  unfold callFunction
  split
  · exact runOps_done _ _ _
  · simp
  · rename_i self
    simp only [hp]
    simp only [settles] at hf
    split
    · simp
    · split
      · rename_i h1
        rw [if_pos h1] at hf
        exact callFunction_plain_done env fuel _ _ _ _ hf
      · rename_i h1
        rw [if_neg h1] at hf
        exact callFunction_plain_done env fuel _ _ _ _ hf
  · simp

theorem settles_quiet {w w1 : World} (hq : Quiet w w1) (c : Nat) (h : Value) :
    settles w1 c h ↔ settles w c h := by
  unfold settles
  rw [hq.2 c, hq.1.2.2.1]

theorem nextPath_congr {h1 h2 : Nat → PipePoint} (he : h2 = h1) (nx : Option Nat)
    (rs : List Nat) : NextPath h2 nx rs ↔ NextPath h1 nx rs := by
  rw [he]

theorem process_context (env : Env) (fuel : Nat) (this : PipePoint) (m : Message) (w : World)
    (ht : m.type = "context") :
    process env (fuel + 1) this m w
      = (callFunction env (fuel + 1) this.handler (cloneOf this m.context w) this.config
          (afterClone this m.context w)).bind
          fun _ w2 => sendWith (process env fuel) (cloneOf this m.context w) m w2 := by
  rw [process]
  simp only [ht, if_true]
  rfl

/-- The context message sent from `p` runs the handlers of the points after `p` in forward
order, each once, until one of them throws. -/
theorem ctx_walk (env : Env) (c : Nat) :
    ∀ (rs : List Nat) (fuel : Nat) (p : PipePoint) (m : Message) (w : World),
      m.type = "context" → m.flow = Types.REQUEST → m.context = some c →
      NextPath w.heap p.next rs → rs.length + 1 ≤ fuel →
      ∃ k, k ≤ rs.length ∧
        handlerCalls (sendWith (process env fuel) p m w).world.log
          = handlerCalls w.log ++ (rs.take k).map (boundCopy w.heap c) ∧
        ((sendWith (process env fuel) p m w).completion = .ok () → k = rs.length) ∧
        ((∀ r ∈ rs, settles w c (w.heap r).handler) →
          (sendWith (process env fuel) p m w).completion ≠ .outOfFuel) ∧
        Quiet w (sendWith (process env fuel) p m w).world
  | [], fuel, p, m, w, ht, hf, hc, hpath, hfuel => by
    have hn : p.next = none := hpath
    have hs : sendWith (process env fuel) p m w = ⟨w, .ok ()⟩ := by
      simp [sendWith, hf, hn, ht]
    rw [hs]
    exact ⟨0, Nat.le_refl _, by simp, fun _ => rfl, fun _ => by simp, quiet_kept.same w⟩
  | r :: rs, fuel, p, m, w, ht, hf, hc, hpath, hfuel => by
    obtain ⟨f, rfl⟩ : ∃ f, fuel = f + 1 := ⟨fuel - 1, by simp at hfuel; omega⟩
    have hn : p.next = some r := hpath.1
    have hrest : NextPath w.heap (w.heap r).next rs := hpath.2
    have hm : ({ m with context := orElse m.context p.context } : Message) = m := by
      cases m; simp only [orElse] at hc ⊢; simp [hc]
    have hs : sendWith (process env (f + 1)) p m w = process env (f + 1) (w.heap r) m w := by
      unfold sendWith
      rw [hm]
      simp [hf, hn, hc]
    rw [hs, process_context env f _ m w ht, hc]
    generalize hpt : cloneOf (w.heap r) (some c) w = point
    generalize hw1 : afterClone (w.heap r) (some c) w = w1
    have hpx : point.context = some c := by rw [← hpt]; rfl
    have hpn : point.next = (w.heap r).next := by rw [← hpt]; rfl
    have hq1 : Quiet w w1 := by
      rw [← hw1]
      exact ⟨⟨rfl, rfl, rfl, rfl⟩, fun _ => rfl⟩
    have hl1 : handlerCalls w1.log = handlerCalls w.log ++ [boundCopy w.heap c r] := by
      rw [← hw1]
      simp [handlerCalls, boundCopy, afterClone, cloneOf, List.filterMap_append]
    have hqc : Quiet w1 (callFunction env (f + 1) (w.heap r).handler point (w.heap r).config
        w1).world :=
      callFunction_kept quiet_kept (fun _ _ _ => trivial) env _ _ _ _ _
    have hlc : handlerCalls (callFunction env (f + 1) (w.heap r).handler point
        (w.heap r).config w1).world.log = handlerCalls w1.log :=
      callFunction_kept sameHandlerCalls_kept (fun _ _ _ _ _ _ h => by cases h) env _ _ _ _ _
    have hdone : settles w c (w.heap r).handler →
        (callFunction env (f + 1) (w.heap r).handler point (w.heap r).config w1).completion
          ≠ .outOfFuel := by
      intro hst
      obtain ⟨g, rfl⟩ : ∃ g, f = g + 1 := ⟨f - 1, by simp at hfuel; omega⟩
      exact callFunction_done env g _ _ c _ _ hpx ((settles_quiet hq1 c _).mpr hst)
    cases hcomp : (callFunction env (f + 1) (w.heap r).handler point (w.heap r).config
        w1).completion with
    | ok u =>
      generalize hw2 : (callFunction env (f + 1) (w.heap r).handler point (w.heap r).config
        w1).world = w2 at hqc hlc
      have hq2 : Quiet w w2 := quiet_kept.seq hq1 hqc
      have hheap : w2.heap = w.heap := hq2.1.1
      have ih := ctx_walk env c rs f point m w2 ht hf hc
        (by rw [hpn, hheap]; exact hrest) (by simp at hfuel; omega)
      obtain ⟨k, hk, hlog, hok, hdn, hq3⟩ := ih
      have hb : ((callFunction env (f + 1) (w.heap r).handler point (w.heap r).config w1).bind
            fun _ w2 => sendWith (process env f) point m w2)
          = sendWith (process env f) point m w2 := by
        simp [Res.bind, hcomp, hw2]
      rw [hb]
      refine ⟨k + 1, by simp; omega, ?_, ?_, ?_, quiet_kept.seq hq2 hq3⟩
      · rw [hlog, hlc, hl1, hheap]
        simp
      · intro h
        simp [hok h]
      · intro hall
        refine hdn ?_
        intro x hx
        rw [hheap]
        exact (settles_quiet hq2 c _).mpr (hall x (List.mem_cons_of_mem _ hx))
    | thrown t =>
      have hb : ((callFunction env (f + 1) (w.heap r).handler point (w.heap r).config w1).bind
            fun _ w2 => sendWith (process env f) point m w2)
          = ⟨(callFunction env (f + 1) (w.heap r).handler point (w.heap r).config w1).world,
              .thrown t⟩ := by
        simp [Res.bind, hcomp]
      rw [hb]
      refine ⟨1, by simp, ?_, by simp, by simp, quiet_kept.seq hq1 hqc⟩
      simp only
      rw [hlc, hl1]
      simp
    | outOfFuel =>
      have hb : ((callFunction env (f + 1) (w.heap r).handler point (w.heap r).config w1).bind
            fun _ w2 => sendWith (process env f) point m w2)
          = ⟨(callFunction env (f + 1) (w.heap r).handler point (w.heap r).config w1).world,
              .outOfFuel⟩ := by
        simp [Res.bind, hcomp]
      rw [hb]
      refine ⟨1, by simp, ?_, by simp, ?_, quiet_kept.seq hq1 hqc⟩
      · simp only
        rw [hlc, hl1]
        simp
      · intro hall
        exact absurd hcomp (hdone (hall r (by simp)))

theorem nextPath_of_linked {heap : Nat → PipePoint} :
    ∀ (rs : List Nat) (a : Nat), Linked heap (a :: rs) →
      (∀ z, (a :: rs).getLast? = some z → (heap z).next = none) →
      NextPath heap (heap a).next rs
  | [], a, _, hend => hend a rfl
  | b :: rest, a, h, hend =>
    ⟨h.1, nextPath_of_linked rest b h.2.2 (fun z hz => hend z (by simpa using hz))⟩

theorem sendWith_attach (proc : PipePoint → Message → World → Res Unit) (p : PipePoint)
    (m : Message) (w : World) (c : Nat) (hm : m.context = none) (hp : p.context = some c) :
    sendWith proc p m w = sendWith proc p { m with context := some c } w := by
  unfold sendWith
  simp [hm, hp, orElse]

/-- The binding pass of `create` on a point without context whose forward neighbors are
`rs`. -/
theorem create_walk (env : Env) (rs : List Nat) (fuel : Nat) (this : PipePoint)
    (context : Option Nat) (w : World) (hthis : this.context = none)
    (hpath : NextPath w.heap this.next rs) (hfuel : rs.length + 1 ≤ fuel) :
    ∃ k, k ≤ rs.length ∧
      handlerCalls (PipePoint.create env fuel this context w).world.log
        = handlerCalls w.log ++ (rs.take k).map (boundCopy w.heap (orNewContext context w).1) ∧
      (∀ p, (PipePoint.create env fuel this context w).completion = .ok p →
        k = rs.length ∧
        p = { this with context := some (orNewContext context w).1, oid := w.objCount }) ∧
      ((∀ r ∈ rs, settles (orNewContext context w).2 (orNewContext context w).1
          (w.heap r).handler) →
        (PipePoint.create env fuel this context w).completion ≠ .outOfFuel) := by
  generalize hc : (orNewContext context w).1 = c
  generalize hw1 : (orNewContext context w).2 = w1
  have hq1 : StaticEq w w1 ∧ w1.log = w.log ∧ w1.objCount = w.objCount := by
    rw [← hw1]
    cases context <;> exact ⟨⟨rfl, rfl, rfl, rfl⟩, rfl, rfl⟩
  generalize hw4 : ({ w1.setCtx c { w1.ctxs c with points := none } with
      objCount := w1.objCount + 1,
      streamClosed := fun k =>
        if k = w1.objCount then w1.streamClosed this.oid else w1.streamClosed k } : World) = w4
  generalize hcp : ({ this with context := some c, oid := w1.objCount } : PipePoint) = cp
  have hcreate : PipePoint.create env fuel this context w
      = (sendWith (process env fuel) cp
          { type := "context", flow := Types.REQUEST, ref := .ctxRef c, context := some c }
          w4).bind fun _ w5 => ⟨w5, .ok cp⟩ := by
    unfold PipePoint.create
    simp only [hthis, hc, hw1]
    rw [← hw4, ← hcp]
    unfold PipePoint.send
    rw [sendWith_attach _ _ _ _ c rfl rfl]
    rfl
  have hheap4 : w4.heap = w.heap := by rw [← hw4]; exact hq1.1.1
  have hlog4 : w4.log = w.log := by rw [← hw4]; exact hq1.2.1
  have hfields4 : ∀ k, (w4.ctxs k).fields = (w1.ctxs k).fields := by
    intro k
    rw [← hw4]
    simp only [World.setCtx]
    split
    · rename_i h; rw [h]
    · rfl
  have hbuild4 : w4.builders = w1.builders := by rw [← hw4]; rfl
  have hwalk := ctx_walk env c rs fuel cp
    { type := "context", flow := Types.REQUEST, ref := .ctxRef c, context := some c } w4
    rfl rfl rfl (by rw [hheap4, ← hcp]; exact hpath) hfuel
  obtain ⟨k, hk, hlog, hok, hdn, -⟩ := hwalk
  rw [hcreate]
  refine ⟨k, hk, ?_, ?_, ?_⟩
  · rw [hlog4, hheap4] at hlog
    unfold Res.bind
    split <;> exact hlog
  · intro p hp
    obtain ⟨u, hu, hcomp⟩ := bind_completion_ok hp
    refine ⟨hok hu, ?_⟩
    simp only [Completion.ok.injEq] at hcomp
    rw [← hcomp, ← hcp, hq1.2.2]
  · intro hall
    refine bind_done (hdn ?_) (fun _ _ => by simp)
    intro r hr
    have := hall r hr
    rw [hheap4]
    unfold settles at this ⊢
    rw [hfields4 c, hbuild4]
    exact this

/-- C3: on a chain built by `buildPipe` from `N` stages and a terminal point, `create(context)`
on the head calls the handlers of the `N` stage points in forward chain order and then the
handler of the terminal point, each exactly once, each with a copy of its point that carries
the bound context and with the config of its point; the head's own handler is not called.
The calls stop only where a handler throws (then `create` throws too); when `create`
returns, all `N + 1` calls were made and the returned point carries the bound context.
The pass never runs out of fuel: it terminates on every chain (provided a transport
injection among the handlers resolves to a transport that is not again an injection). -/
theorem C3_binding_pass (env : Env) (hs : List Value) (t : Nat) (w0 : World)
    (ht : t < w0.heapSize) (hterm : (w0.heap t).next = none)
    (w : World) (hheap : w.heap = (buildPipe hs t w0).2.heap)
    (context : Option Nat) (fuel : Nat) (hfuel : hs.length + 2 ≤ fuel) :
    let head := (buildPipe hs t w0).1
    let points := (List.range' w0.heapSize hs.length).reverse ++ [t]
    let c := (orNewContext context w).1
    let res := PipePoint.create env fuel (w.heap head) context w
    walkNext w.heap (hs.length + 2) head = head :: points ∧
    points.map (stageAt w.heap) = (hs.map stageOf).reverse ++ [stageAt w0.heap t] ∧
    ∃ k, k ≤ hs.length + 1 ∧
      handlerCalls res.world.log
        = handlerCalls w.log ++ (points.take k).map (boundCopy w.heap c) ∧
      (∀ p, res.completion = .ok p →
        k = hs.length + 1 ∧ p = { w.heap head with context := some c, oid := w.objCount }) ∧
      ((∀ r ∈ points, settles (orNewContext context w).2 c (w.heap r).handler) →
        res.completion ≠ .outOfFuel) := by
  intro head points c res
  obtain ⟨b1, b2, b3, b4, b5, b6, b7, -⟩ := buildPipe_chain hs t w0 ht
  have hhead : head = w0.heapSize + hs.length := b1
  have hwalk := (C2_reverse_list_order hs t w0 ht).1
  have hl := b2.linked
  rw [← hheap] at hl b3 b5 b7 hwalk
  have hpath : NextPath w.heap (w.heap head).next points := by
    rw [hhead]
    refine nextPath_of_linked _ _ hl ?_
    intro z hz
    rw [getLast?_cons_snoc] at hz
    cases hz
    rw [b5]; exact hterm
  have hctx : (w.heap head).context = none := by
    rw [hhead]; exact (b7 hs.length (Nat.le_refl _)).2
  have hlen : points.length = hs.length + 1 := by simp [points]
  have hcw := create_walk env points fuel (w.heap head) context w hctx hpath (by omega)
  rw [hlen] at hcw
  refine ⟨?_, ?_, hcw⟩
  · rw [b1] at hwalk
    rw [hhead]; exact hwalk
  · have := b3
    simp only [List.map_cons, List.cons.injEq] at this
    exact this.2

/-- Witness of C3: one stage whose handler registers a hook, in front of a terminal point;
`create()` returns and both handlers were called, in forward order. -/
theorem C3_binding_pass_witness :
    let env : Env := ⟨fun _ _ _ _ => [.on "request" (.user 3)], fun _ _ _ => .suspend,
      fun _ => .undefined⟩
    let w0 := (createPipePoint (.fn (.user 9)) none {}).2
    let hs := [Value.handlerMeta (.fn (.user 1)) (.num 5)]
    let w := (buildPipe hs 0 w0).2
    let res := PipePoint.create env 3 (w.heap 2) none w
    (walkNext w.heap 3 2 = [2, 1, 0] ∧
     [1, 0].map (stageAt w.heap) = [(Value.fn (.user 1), Value.num 5),
       (Value.fn (.user 9), Value.undefined)] ∧
     ∃ k, k ≤ 2 ∧
      handlerCalls res.world.log = handlerCalls w.log ++ ([1, 0].take k).map (boundCopy w.heap 0) ∧
      (∀ p, res.completion = .ok p → k = 2 ∧ p = { w.heap 2 with context := some 0, oid := 3 }) ∧
      ((∀ r ∈ [1, 0], settles (orNewContext none w).2 0 (w.heap r).handler) →
        res.completion ≠ .outOfFuel)) ∧
    (∃ p, res.completion = .ok p) :=
  ⟨C3_binding_pass ⟨fun _ _ _ _ => [.on "request" (.user 3)], fun _ _ _ => .suspend,
      fun _ => .undefined⟩ [Value.handlerMeta (.fn (.user 1)) (.num 5)] 0
      (createPipePoint (.fn (.user 9)) none {}).2 (by decide) (by decide) _ rfl none 3 (by decide),
   ⟨_, rfl⟩⟩

/-! ## C4: inheritance of context properties -/

theorem getField_setField_same (fs : List (String × Value)) (k : String) (v : Value) :
    getField (setField fs k v) k = v := by
  induction fs with
  | nil => simp [setField, getField]
  | cons a rest ih =>
    obtain ⟨x, y⟩ := a
    by_cases h : x = k
    · simp [setField, getField, h]
    · simp [setField, getField, h, ih]

theorem getField_setField_other (fs : List (String × Value)) (k n : String) (v : Value)
    (h : k ≠ n) : getField (setField fs n v) k = getField fs k := by
  induction fs with
  | nil =>
    have : n ≠ k := fun e => h e.symm
    simp [setField, getField, this]
  | cons a rest ih =>
    obtain ⟨x, y⟩ := a
    by_cases hx : x = n
    · subst hx
      have : x ≠ k := fun e => h e.symm
      simp [setField, getField, this]
    · by_cases hk : x = k
      · subst hk
        simp [setField, getField, hx]
      · simp [setField, getField, hx, hk, ih]

/-- What the inheritance loop of `create` leaves in the new context under the key `k`. -/
theorem inherit_get (parent : List (String × Value)) (k : String) :
    ∀ (ks : List String) (child : List (String × Value)),
      getField (ks.foldl
        (fun context name =>
          if !reserved name && !(getField context name).truthy then
            setField context name (getField parent name)
          else context) child) k
      = if k ∈ ks ∧ reserved k = false ∧ (getField child k).truthy = false
        then getField parent k else getField child k
  | [], child => by simp
  | n :: ks, child => by
    rw [List.foldl_cons, inherit_get parent k ks]
    by_cases hkn : k = n
    · subst hkn
      by_cases hc : reserved k = false ∧ (getField child k).truthy = false
      · simp [hc.1, hc.2, getField_setField_same]
      · have : (!reserved k && !(getField child k).truthy) = false := by
          rcases Bool.eq_false_or_eq_true (reserved k) with h1 | h1
          · simp [h1]
          · rcases Bool.eq_false_or_eq_true (getField child k).truthy with h2 | h2
            · simp [h2]
            · exact absurd ⟨h1, h2⟩ hc
        simp only [this]
        have hc2 : ¬ (k ∈ ks ∧ reserved k = false ∧ (getField child k).truthy = false) :=
          fun h => hc h.2
        have hc3 : ¬ (k ∈ k :: ks ∧ reserved k = false ∧ (getField child k).truthy = false) :=
          fun h => hc h.2
        simp only [Bool.false_eq_true, if_false]
        rw [if_neg hc2, if_neg hc3]
    · have hmem : k ∈ n :: ks ↔ k ∈ ks := by simp [hkn]
      split
      · rw [getField_setField_other _ _ _ _ hkn]
        simp only [hmem]
      · simp only [hmem]

/-- C4 (the code departs from the claim): what nested binding leaves under a key `k`: the
value of the new context when that value is truthy; otherwise the value of the existing
context when `k` is one of its keys and does not start with `$`; otherwise the value of the
new context.  So a key present in the new context with a falsy value (`0`, `false`, `''`,
`null`) is overwritten: with `{a: 5}` on the point and `create({a: 0})`, the bound context
has `a = 5`. -/
theorem C4_falsy_value_overwritten :
    (∀ (parent child : List (String × Value)) (k : String),
      getField (inherit parent child) k
        = if k ∈ keys parent ∧ reserved k = false ∧ (getField child k).truthy = false
          then getField parent k else getField child k) ∧
    (let env : Env := ⟨fun _ _ _ _ => [], fun _ _ _ => .suspend, fun _ => .undefined⟩
     let w : World :=
       { ctxs := fun k => if k = 0 then { fields := [("a", .num 5)] }
                          else { fields := [("a", .num 0)] },
         ctxCount := 2 }
     let this : PipePoint :=
       { handler := .fn .startPipe, config := .undefined, _id := 0, next := none, prev := none,
         context := some 0 }
     getField (w.ctxs 1).fields "a" = .num 0 ∧
     getField ((PipePoint.create env 1 this (some 1) w).world.ctxs 1).fields "a" = .num 5) := by
  refine ⟨fun parent child k => inherit_get parent k (keys parent) child, ?_⟩
  decide

/-! ## C5: isolation of contexts -/

theorem setCtx_comm (w : World) (c1 c : Nat) (x y : Context) (h : c ≠ c1) :
    (w.setCtx c1 x).setCtx c y = (w.setCtx c y).setCtx c1 x := by
  simp only [World.setCtx]
  congr 1
  funext k
  by_cases h1 : k = c
  · subst h1; simp [h]
  · simp [h1]

theorem setCtx_read (w : World) (c1 c : Nat) (x : Context) (h : c ≠ c1) :
    (w.setCtx c1 x).ctxs c = w.ctxs c := by
  simp [World.setCtx, h]

theorem handlers_comm (p : PipePoint) (ctx : Option Nat) (w : World) (c1 : Nat) (x : Context)
    (h : orElse ctx p.context ≠ some c1) :
    p.handlers ctx (w.setCtx c1 x) = (p.handlers ctx w).onWorld (fun v => v.setCtx c1 x) := by
  unfold PipePoint.handlers
  cases hc : orElse ctx p.context with
  | none => rfl
  | some c =>
    have hne : c ≠ c1 := fun e => h (by rw [hc, e])
    simp only [Res.onWorld, setCtx_read _ _ _ _ hne]
    rw [setCtx_comm _ _ _ _ _ hne]

theorem handlers_ok_ctx (p : PipePoint) (ctx : Option Nat) (w : World) (c : Nat)
    (h : (p.handlers ctx w).completion = .ok c) : orElse ctx p.context = some c := by
  unfold PipePoint.handlers at h
  split at h
  · cases h
  · rename_i c0 hc
    simp only [Completion.ok.injEq] at h
    rw [hc, h]

theorem setHook_comm (w : World) (c1 c id : Nat) (t : String) (h : Option Hook) (x : Context)
    (hne : c ≠ c1) :
    (w.setCtx c1 x).setHook c id t h = (w.setHook c id t h).setCtx c1 x := by
  unfold World.setHook
  simp only [setCtx_read _ _ _ _ hne]
  split
  · rfl
  · split
    · rfl
    · exact setCtx_comm _ _ _ _ _ hne

theorem hook_read (w : World) (c1 c id : Nat) (t : String) (x : Context) (hne : c ≠ c1) :
    (w.setCtx c1 x).hook c id t = w.hook c id t := by
  simp [World.hook, setCtx_read _ _ _ _ hne]

/-- A hook that closes over `c` only neither reads nor writes another context `c1`. -/
theorem callHook_comm (env : Env) (c c1 : Nat) (x : Context) (hne : c ≠ c1) :
    ∀ (hook : Hook) (args : List Value) (cb : Bool) (w : World), closedIn c hook →
      callHook env hook args cb (w.setCtx c1 x)
        = ((callHook env hook args cb w).1.setCtx c1 x, (callHook env hook args cb w).2)
  | .user name, args, cb, w, _ => rfl
  | .onceFn self type handler, args, cb, w, hcl => by
    have hself : orElse none self.context ≠ some c1 := by
      simp only [orElse, hcl.1]
      intro e
      exact hne (by simpa using e)
    simp only [callHook]
    rw [handlers_comm self none w c1 x hself]
    cases hh : self.handlers none w with
    | mk w1 comp =>
      cases comp with
      | ok c0 =>
        have hc0 : c0 = c := by
          have := handlers_ok_ctx self none w c0 (by rw [hh])
          simp only [orElse, hcl.1] at this
          exact (Option.some.inj this).symm
        subst hc0
        simp only [Res.onWorld]
        rw [setHook_comm _ _ _ _ _ _ _ hne]
        exact callHook_comm env c0 c1 x hne handler args cb _ hcl.2
      | thrown t => rfl
      | outOfFuel => rfl
  | .responseCb callback, args, cb, w, hcl => by
    simp only [callHook]
    split
    · exact callHook_comm env c c1 x hne callback _ _ _ hcl
    · split <;> exact callHook_comm env c c1 x hne callback _ _ _ hcl

theorem handlers_hook (p : PipePoint) (ctx : Option Nat) (w : World) (c id : Nat)
    (t : String) : (p.handlers ctx w).world.hook c id t = w.hook c id t := by
  unfold PipePoint.handlers
  split
  · rfl
  · rename_i c0 _
    simp only [World.hook, World.setCtx, Context.hook]
    by_cases hc : c = c0
    · subst hc
      simp only [if_true]
      cases hp : (w.ctxs c).points with
      | none =>
        by_cases hid : id = p._id <;> simp [hid]
      | some reg =>
        by_cases hid : id = p._id
        · rw [hid]
          cases hr : reg p._id <;> simp [hr]
        · simp [hid]
    · simp [hc]

theorem handlers_entry (p : PipePoint) (ctx : Option Nat) (w : World) (c : Nat)
    (h : (p.handlers ctx w).completion = .ok c) : HasEntry (p.handlers ctx w).world c p._id := by
  unfold PipePoint.handlers at h ⊢
  split at h
  · cases h
  · rename_i c0 hc
    simp only [Completion.ok.injEq] at h
    subst h
    simp only [hc]
    refine ⟨fun k => if k = p._id then
        some (((w.ctxs c0).points.getD (fun _ => none) p._id).getD fun _ => none)
      else (w.ctxs c0).points.getD (fun _ => none) k,
      ((w.ctxs c0).points.getD (fun _ => none) p._id).getD (fun _ => none), ?_, ?_⟩
    · simp [World.setCtx]
    · simp only [if_true]

theorem setHook_entry (w : World) (c id : Nat) (t : String) (h : Option Hook)
    (reg : Registry) (m : String → Option Hook) (hp : (w.ctxs c).points = some reg)
    (hr : reg id = some m) :
    w.setHook c id t h = w.setCtx c { w.ctxs c with points := some (fun k =>
        if k = id then some (fun t1 => if t1 = t then h else m t1) else reg k) } := by
  unfold World.setHook
  simp only [hp, hr]

theorem setHook_noEntry (w : World) (c id : Nat) (t : String) (h : Option Hook)
    (he : ¬ HasEntry w c id) : w.setHook c id t h = w := by
  unfold World.setHook
  simp only
  cases hp : (w.ctxs c).points with
  | none => rfl
  | some reg =>
    cases hr : reg id with
    | none => simp only [hr]
    | some m => exact absurd ⟨reg, m, hp, hr⟩ he

theorem setHook_hook_same (w : World) (c id : Nat) (t : String) (h : Option Hook)
    (he : HasEntry w c id) : (w.setHook c id t h).hook c id t = h := by
  obtain ⟨reg, m, hp, hr⟩ := he
  rw [setHook_entry w c id t h reg m hp hr]
  simp [World.hook, World.setCtx, Context.hook]

theorem setHook_hook_other (w : World) (c0 id0 : Nat) (t0 : String) (h : Option Hook)
    (c id : Nat) (t : String) (hne : ¬ (c = c0 ∧ id = id0 ∧ t = t0)) :
    (w.setHook c0 id0 t0 h).hook c id t = w.hook c id t := by
  by_cases he : HasEntry w c0 id0
  · obtain ⟨reg, m, hp, hr⟩ := he
    rw [setHook_entry w c0 id0 t0 h reg m hp hr]
    simp only [World.hook, World.setCtx, Context.hook]
    by_cases hc : c = c0
    · subst hc
      by_cases hid : id = id0
      · subst hid
        have ht : t ≠ t0 := fun e => hne ⟨rfl, rfl, e⟩
        simp [ht, hp, hr]
      · simp [hid, hp]
    · simp [hc]
  · rw [setHook_noEntry w c0 id0 t0 h he]

theorem setHook_hook_cases (w : World) (c0 id0 : Nat) (t0 : String) (h : Option Hook)
    (c id : Nat) (t : String) :
    (w.setHook c0 id0 t0 h).hook c id t = w.hook c id t ∨
      (w.setHook c0 id0 t0 h).hook c id t = h := by
  by_cases hne : c = c0 ∧ id = id0 ∧ t = t0
  · obtain ⟨rfl, rfl, rfl⟩ := hne
    by_cases he : HasEntry w c id
    · exact Or.inr (setHook_hook_same w c id t h he)
    · rw [setHook_noEntry w c id t h he]
      exact Or.inl rfl
  · exact Or.inl (setHook_hook_other w c0 id0 t0 h c id t hne)

theorem noNewHooks_kept : Kept (fun _ => True) NoNewHooks where
  same := fun _ _ _ _ _ h => h
  seq := fun h1 h2 c id t h hh => h1 c id t h (h2 c id t h hh)
  ensure := by
    intro p ctx w c id t h hh
    rw [handlers_hook] at hh
    exact hh
  del := by
    intro w c0 id0 t0 c id t h hh
    rcases setHook_hook_cases w c0 id0 t0 none c id t with h1 | h1
    · rw [h1] at hh; exact hh
    · rw [h1] at hh; cases hh
  logs := fun _ _ _ _ _ _ _ h => h
  pend := fun _ _ _ _ _ _ h => h

theorem regClosed_of_noNew {c : Nat} {w w1 : World} (h : NoNewHooks w w1)
    (hc : RegClosed c w) : RegClosed c w1 :=
  fun id t hk hh => hc id t hk (h c id t hk hh)

theorem sendWith_comm (c c1 : Nat) (x : Context)
    (proc : PipePoint → Message → World → Res Unit) (this : PipePoint) (m : Message)
    (w : World) (hm : m.context = some c)
    (ih : ∀ p (m1 : Message), m1.context = some c → m1.type = m.type →
      proc p m1 (w.setCtx c1 x) = (proc p m1 w).onWorld (fun v => v.setCtx c1 x)) :
    sendWith proc this m (w.setCtx c1 x)
      = (sendWith proc this m w).onWorld (fun v => v.setCtx c1 x) := by
  unfold sendWith
  simp only [hm, Option.isNone_some, Bool.false_and, orElse]
  split
  · exact ih _ _ rfl rfl
  · split <;> rfl

theorem endEventOrSend_comm (env : Env) (c c1 : Nat) (x : Context) (hne : c ≠ c1)
    (proc : PipePoint → Message → World → Res Unit) (this : PipePoint) (m : Message)
    (w : World) (hm : m.context = some c) (hcl : RegClosed c w)
    (ih : ∀ p (m1 : Message) (v : World), m1.context = some c → m1.type = m.type →
      RegClosed c v →
      proc p m1 (v.setCtx c1 x) = (proc p m1 v).onWorld (fun v => v.setCtx c1 x)) :
    endEventOrSend env proc this c m (w.setCtx c1 x)
      = (endEventOrSend env proc this c m w).onWorld (fun v => v.setCtx c1 x) := by
  unfold endEventOrSend
  rw [hook_read _ _ _ _ _ _ hne]
  split
  · cases hh : w.hook c this._id (if m.flow = Types.REQUEST then "request:end"
        else "response:end") with
    | none =>
      exact sendWith_comm c c1 x proc this m w hm (fun p m1 h1 h2 => ih p m1 w h1 h2 hcl)
    | some endHandler =>
      simp only
      rw [callHook_comm env c c1 x hne endHandler [] true w (hcl _ _ _ hh)]
      have hk : NoNewHooks w (callHook env endHandler [] true w).1 :=
        callHook_kept noNewHooks_kept (fun _ _ _ => trivial) env _ _ _ _
      cases hr : callHook env endHandler [] true w with
      | mk w1 outcome =>
        rw [hr] at hk
        cases outcome with
        | suspend => rfl
        | raise t => rfl
        | complete a =>
          exact sendWith_comm c c1 x proc this m w1 hm
            (fun p m1 h1 h2 => ih p m1 w1 h1 h2 (regClosed_of_noNew hk hcl))
  · exact sendWith_comm c c1 x proc this m w hm (fun p m1 h1 h2 => ih p m1 w h1 h2 hcl)

theorem handlers_some (this : PipePoint) (c : Nat) (w : World) :
    (this.handlers (some c) w).completion = .ok c := by
  simp [PipePoint.handlers, orElse]

/-- Dispatching a message under the context `c` neither reads nor writes another context
`c1`: replacing `c1` before the dispatch or after it gives the same result. -/
theorem dispatch_comm (env : Env) (c c1 : Nat) (x : Context) (hne : c ≠ c1) :
    ∀ (fuel : Nat) (this : PipePoint) (m : Message) (w : World),
      m.context = some c → m.type ≠ "context" → RegClosed c w →
      process env fuel this m (w.setCtx c1 x)
        = (process env fuel this m w).onWorld (fun v => v.setCtx c1 x)
  | 0, _, _, _, _, _, _ => rfl
  | fuel + 1, this, m, w, hm, ht, hcl => by
    have ih : ∀ p (m1 : Message) (v : World), m1.context = some c → m1.type = m.type →
        RegClosed c v →
        process env fuel p m1 (v.setCtx c1 x)
          = (process env fuel p m1 v).onWorld (fun v => v.setCtx c1 x) :=
      fun p m1 v h1 h2 h3 => dispatch_comm env c c1 x hne fuel p m1 v h1 (by rw [h2]; exact ht) h3
    rw [process, process, if_neg ht, if_neg ht, hm]
    rw [handlers_comm this (some c) w c1 x (by simp only [orElse]; intro e; exact hne (by simpa using e))]
    have hok := handlers_some this c w
    have hk1 : NoNewHooks w (this.handlers (some c) w).world :=
      noNewHooks_kept.ensure this (some c) w
    cases hh : this.handlers (some c) w with
    | mk w1 comp =>
      rw [hh] at hok hk1
      simp only at hok hk1
      subst hok
      have hcl1 : RegClosed c w1 := regClosed_of_noNew hk1 hcl
      simp only [Res.onWorld, Res.bind]
      rw [hook_read _ _ _ _ _ _ hne]
      cases hhook : w1.hook c this._id m.type with
      | none =>
        simp only
        exact endEventOrSend_comm env c c1 x hne _ this m w1 hm hcl1 ih
      | some processMessage =>
        simp only
        rw [callHook_comm env c c1 x hne processMessage [m.ref] (!m.sync) w1 (hcl1 _ _ _ hhook)]
        have hk : NoNewHooks w1 (callHook env processMessage [m.ref] (!m.sync) w1).1 :=
          callHook_kept noNewHooks_kept (fun _ _ _ => trivial) env _ _ _ _
        cases hr : callHook env processMessage [m.ref] (!m.sync) w1 with
        | mk w2 outcome =>
          rw [hr] at hk
          have hcl2 : RegClosed c w2 := regClosed_of_noNew hk hcl1
          cases outcome with
          | raise t => rfl
          | suspend =>
            simp only
            split
            · exact sendWith_comm c c1 x _ this m w2 hm (fun p m1 h1 h2 => ih p m1 w2 h1 h2 hcl2)
            · rfl
          | complete arg =>
            simp only
            cases arg with
            | none => exact endEventOrSend_comm env c c1 x hne _ this m w2 hm hcl2 ih
            | some ref =>
              exact endEventOrSend_comm env c c1 x hne _ this
                { m with ref := ref, context := some c } w2 rfl hcl2 ih

theorem setCtx_setCtx (w : World) (c : Nat) (x y : Context) :
    (w.setCtx c x).setCtx c y = w.setCtx c y := by
  simp only [World.setCtx]
  congr 1
  funext k
  by_cases h : k = c <;> simp [h]

theorem handlers_world (p : PipePoint) (w : World) (c1 : Nat) (hp : p.context = some c1) :
    (p.handlers none w).completion = .ok c1 ∧
    ∃ x, (p.handlers none w).world = w.setCtx c1 x := by
  constructor
  · simp [PipePoint.handlers, orElse, hp]
  · simp only [PipePoint.handlers, orElse, hp]
    exact ⟨_, rfl⟩

theorem setHook_world (w : World) (c id : Nat) (t : String) (h : Option Hook) (he : HasEntry w c id) :
    ∃ x, w.setHook c id t h = w.setCtx c x := by
  obtain ⟨reg, m, hp, hr⟩ := he
  exact ⟨_, setHook_entry w c id t h reg m hp hr⟩

/-- The method `on` writes the context of its point only. -/
theorem on_world (p : PipePoint) (type : String) (h : Hook) (w : World) (c1 : Nat)
    (hp : p.context = some c1) : ∃ x, (p.on type h w).world = w.setCtx c1 x := by
  obtain ⟨hok, x, hx⟩ := handlers_world p w c1 hp
  have he := handlers_entry p none w c1 hok
  unfold PipePoint.on Res.bind
  rw [hok]
  simp only
  split
  · exact ⟨x, hx⟩
  · obtain ⟨y, hy⟩ := setHook_world _ c1 p._id type (some h) he
    rw [hy, hx, setCtx_setCtx]
    exact ⟨y, rfl⟩

theorem once_world (p : PipePoint) (type : String) (h : Hook) (w : World) (c1 : Nat)
    (hp : p.context = some c1) : ∃ x, (p.once type h w).world = w.setCtx c1 x := by
  obtain ⟨x, hx⟩ := on_world p type (.onceFn p type h) w c1 hp
  refine ⟨x, ?_⟩
  rw [← hx]
  unfold PipePoint.once Res.bind
  split <;> rfl

theorem send_comm (env : Env) (fuel : Nat) (c c1 : Nat) (x : Context) (hne : c ≠ c1)
    (p : PipePoint) (m : Message) (w : World) (hp : p.context = some c)
    (hm : m.context = none) (ht : m.type ≠ "context") (hcl : RegClosed c w) :
    p.send env fuel m (w.setCtx c1 x)
      = (p.send env fuel m w).onWorld (fun v => v.setCtx c1 x) := by
  unfold PipePoint.send
  rw [sendWith_attach _ p m _ c hm hp, sendWith_attach _ p m _ c hm hp]
  exact sendWith_comm c c1 x _ p _ w rfl
    (fun q m1 h1 h2 => dispatch_comm env c c1 x hne fuel q m1 w h1 (by rw [h2]; exact ht) hcl)

/-- C5: a hook registered with `on` or `once` on a point bound to the context `c1` leaves the
context `c2 ≠ c1` as it was, so every lookup of a hook under `c2` is unchanged; and a message
dispatched under `c2` ends the same way and makes the same calls of hooks whether or not the
registration under `c1` took place: it neither reads nor writes `c1`. -/
theorem C5_isolation (env : Env) (fuel : Nat) (w : World) (c1 c2 : Nat) (hne : c1 ≠ c2)
    (p1 p2 : PipePoint) (h1 : p1.context = some c1) (h2 : p2.context = some c2)
    (type : String) (hook : Hook) (viaOnce : Bool) :
    let w1 := if viaOnce then (p1.once type hook w).world else (p1.on type hook w).world
    w1.ctxs c2 = w.ctxs c2 ∧
    (∀ id t, w1.hook c2 id t = w.hook c2 id t) ∧
    (∀ m : Message, m.context = none → m.type ≠ "context" → RegClosed c2 w →
      (p2.send env fuel m w1).completion = (p2.send env fuel m w).completion ∧
      (p2.send env fuel m w1).world.log = (p2.send env fuel m w).world.log ∧
      (p2.send env fuel m w1).world
        = (p2.send env fuel m w).world.setCtx c1 (w1.ctxs c1)) := by
  intro w1
  have hw : ∃ x, w1 = w.setCtx c1 x := by
    cases viaOnce
    · exact on_world p1 type hook w c1 h1
    · exact once_world p1 type hook w c1 h1
  obtain ⟨x, hx⟩ := hw
  have hne2 : c2 ≠ c1 := fun e => hne e.symm
  have hx1 : w1.ctxs c1 = x := by rw [hx]; simp [World.setCtx]
  refine ⟨?_, ?_, ?_⟩
  · rw [hx]; exact setCtx_read _ _ _ _ hne2
  · intro id t
    rw [hx]; exact hook_read _ _ _ _ _ _ hne2
  · intro m hm ht hcl
    rw [hx1, hx, send_comm env fuel c2 c1 x hne2 p2 m w h2 hm ht hcl]
    exact ⟨rfl, rfl, rfl⟩

/-- Witness of C5: a hook registered under context `0`; a response sent under context `1`,
where another hook is registered at the head. -/
theorem C5_isolation_witness :
    let env : Env := ⟨fun _ _ _ _ => [], fun _ _ _ => .suspend, fun _ => .undefined⟩
    let w0 : World := (buildPipe [] 0 (createPipePoint (.fn (.user 9)) none {}).2).2
    let p1 : PipePoint := { w0.heap 0 with context := some 0 }
    let p2 : PipePoint := { w0.heap 0 with context := some 1 }
    let w : World := (({ w0.heap 1 with context := some 1 } : PipePoint).on "response"
      (.user 4) w0).world
    let w1 := (p1.on "response" (.user 5) w).world
    (w1.ctxs 1 = w.ctxs 1 ∧
     (∀ id t, w1.hook 1 id t = w.hook 1 id t) ∧
     (∀ m : Message, m.context = none → m.type ≠ "context" → RegClosed 1 w →
      (p2.send env 3 m w1).completion = (p2.send env 3 m w).completion ∧
      (p2.send env 3 m w1).world.log = (p2.send env 3 m w).world.log ∧
      (p2.send env 3 m w1).world = (p2.send env 3 m w).world.setCtx 0 (w1.ctxs 0))) ∧
    (p2.send env 3 { type := "response", flow := Types.RESPONSE, ref := .str "r" } w1).world.log
      = [.hook 4 [.str "r"] true] :=
  ⟨C5_isolation ⟨fun _ _ _ _ => [], fun _ _ _ => .suspend, fun _ => .undefined⟩ 3 _ 0 1
      (by decide) _ _ rfl rfl "response" (.user 5) false,
   by decide⟩

/-! ## C6: one hook per point, context and type -/

/-- The method `on` on a bound point, when the type already has a hook: it throws and no
lookup changes. -/
theorem on_fail (p : PipePoint) (c : Nat) (hp : p.context = some c) (t : String) (h h0 : Hook)
    (w : World) (hreg : w.hook c p._id t = some h0) :
    (p.on t h w).completion = .thrown (duplicateHook t) ∧
    ∀ c1 id t1, (p.on t h w).world.hook c1 id t1 = w.hook c1 id t1 := by
  obtain ⟨hok, -⟩ := handlers_world p w c hp
  have hh := handlers_hook p none w
  unfold PipePoint.on Res.bind
  rw [hok]
  simp only [hh, hreg, Option.isSome_some, if_true]
  exact ⟨rfl, fun _ _ _ => trivial⟩

/-- The method `on` on a bound point, when the type has no hook yet: it returns the point,
the hook is registered, and no other lookup changes. -/
theorem on_succ (p : PipePoint) (c : Nat) (hp : p.context = some c) (t : String) (h : Hook)
    (w : World) (hreg : w.hook c p._id t = none) :
    (p.on t h w).completion = .ok p ∧
    (p.on t h w).world.hook c p._id t = some h ∧
    ∀ c1 id t1, ¬ (c1 = c ∧ id = p._id ∧ t1 = t) →
      (p.on t h w).world.hook c1 id t1 = w.hook c1 id t1 := by
  obtain ⟨hok, -⟩ := handlers_world p w c hp
  have hh := handlers_hook p none w
  have he := handlers_entry p none w c hok
  unfold PipePoint.on Res.bind
  rw [hok]
  simp only [hh, hreg, Option.isSome_none, Bool.false_eq_true, if_false]
  refine ⟨trivial, setHook_hook_same _ _ _ _ _ he, ?_⟩
  intro c1 id t1 hne
  rw [setHook_hook_other _ _ _ _ _ _ _ _ hne, hh]

theorem on_ok_unregistered (p : PipePoint) (c : Nat) (hp : p.context = some c) (t : String)
    (h : Hook) (w : World) (q : PipePoint) (hok : (p.on t h w).completion = .ok q) :
    w.hook c p._id t = none := by
  cases hreg : w.hook c p._id t with
  | none => rfl
  | some h0 =>
    rw [(on_fail p c hp t h h0 w hreg).1] at hok
    cases hok

/-- C6: once `on(t, h1)` has succeeded on a context-bound point, a second `on(t, h2)` on the
same point and context throws and the registry still maps `t` to `h1`; `on(t', h2)` for
another type `t'` without a hook, and `on(t, h2)` on a point with another identity in the same
context without a hook for `t`, succeed (and leave `h1` registered). -/
theorem C6_one_hook_per_type (w : World) (p : PipePoint) (c : Nat) (hp : p.context = some c)
    (t : String) (h1 h2 : Hook) (q0 : PipePoint)
    (hok : (p.on t h1 w).completion = .ok q0) :
    let w1 := (p.on t h1 w).world
    w1.hook c p._id t = some h1 ∧
    (p.on t h2 w1).completion = .thrown (duplicateHook t) ∧
    (p.on t h2 w1).world.hook c p._id t = some h1 ∧
    (∀ t1, t1 ≠ t → w1.hook c p._id t1 = none →
      (p.on t1 h2 w1).completion = .ok p ∧
      (p.on t1 h2 w1).world.hook c p._id t1 = some h2 ∧
      (p.on t1 h2 w1).world.hook c p._id t = some h1) ∧
    (∀ q : PipePoint, q.context = some c → q._id ≠ p._id → w1.hook c q._id t = none →
      (q.on t h2 w1).completion = .ok q ∧
      (q.on t h2 w1).world.hook c q._id t = some h2 ∧
      (q.on t h2 w1).world.hook c p._id t = some h1) := by
  intro w1
  have hun := on_ok_unregistered p c hp t h1 w q0 hok
  obtain ⟨-, hreg, -⟩ := on_succ p c hp t h1 w hun
  have hf := on_fail p c hp t h2 h1 w1 hreg
  refine ⟨hreg, hf.1, by rw [hf.2]; exact hreg, ?_, ?_⟩
  · intro t1 hne hnone
    obtain ⟨a, b, c3⟩ := on_succ p c hp t1 h2 w1 hnone
    refine ⟨a, b, ?_⟩
    rw [c3 c p._id t (fun e => hne e.2.2.symm)]
    exact hreg
  · intro q hq hid hnone
    obtain ⟨a, b, c3⟩ := on_succ q c hq t h2 w1 hnone
    refine ⟨a, b, ?_⟩
    rw [c3 c p._id t (fun e => hid e.2.1.symm)]
    exact hreg

/-- Witness of C6: a first `on('request', h1)` on a bound point in an empty context. -/
theorem C6_one_hook_per_type_witness :
    let p : PipePoint :=
      { handler := .fn (.user 1), config := .undefined, _id := 7, next := none, prev := none,
        context := some 0 }
    let w : World := {}
    let w1 := (p.on "request" (.user 1) w).world
    w1.hook 0 7 "request" = some (.user 1) ∧
    (p.on "request" (.user 2) w1).completion = .thrown (duplicateHook "request") ∧
    (p.on "request" (.user 2) w1).world.hook 0 7 "request" = some (.user 1) ∧
    (∀ t1, t1 ≠ "request" → w1.hook 0 7 t1 = none →
      (p.on t1 (.user 2) w1).completion = .ok p ∧
      (p.on t1 (.user 2) w1).world.hook 0 7 t1 = some (.user 2) ∧
      (p.on t1 (.user 2) w1).world.hook 0 7 "request" = some (.user 1)) ∧
    (∀ q : PipePoint, q.context = some 0 → q._id ≠ 7 → w1.hook 0 q._id "request" = none →
      (q.on "request" (.user 2) w1).completion = .ok q ∧
      (q.on "request" (.user 2) w1).world.hook 0 q._id "request" = some (.user 2) ∧
      (q.on "request" (.user 2) w1).world.hook 0 7 "request" = some (.user 1)) :=
  C6_one_hook_per_type {}
    { handler := .fn (.user 1), config := .undefined, _id := 7, next := none, prev := none,
      context := some 0 }
    0 rfl "request" (.user 1) (.user 2) _ rfl

/-! ## C7: `once` -/

theorem logSame_kept : KeptAll (fun _ => False) LogSame where
  same := fun _ => rfl
  seq := fun h1 h2 => Eq.trans h2 h1
  ensure := by
    intro p ctx w
    unfold PipePoint.handlers
    split <;> rfl
  del := by
    intro w c id t
    unfold World.setHook
    simp only
    split
    · rfl
    · split <;> rfl
  logs := fun _ _ h => h.elim
  pend := fun _ _ => rfl
  add := by
    intro w c id t h
    unfold World.setHook
    simp only
    split
    · rfl
    · split <;> rfl
  alloc := fun _ _ _ _ => rfl

/-- One step of `process` at a point that has no hook for the type of the message. -/
theorem process_nohook (env : Env) (fuel : Nat) (this : PipePoint) (m : Message) (w : World)
    (c : Nat) (hm : m.context = some c) (ht : m.type ≠ "context")
    (hh : w.hook c this._id m.type = none) :
    process env (fuel + 1) this m w
      = endEventOrSend env (process env fuel) this c m (this.handlers (some c) w).world := by
  rw [process, if_neg ht, hm]
  unfold Res.bind
  rw [handlers_some]
  simp only [handlers_hook, hh]

/-- One step of `process` at a point that has a hook for the type of the message. -/
theorem process_hook (env : Env) (fuel : Nat) (this : PipePoint) (m : Message) (w : World)
    (c : Nat) (hm : m.context = some c) (ht : m.type ≠ "context") (hook : Hook)
    (hh : w.hook c this._id m.type = some hook) :
    process env (fuel + 1) this m w
      = match callHook env hook [m.ref] (!m.sync) (this.handlers (some c) w).world with
        | (w2, .raise t) => ⟨w2, .thrown t⟩
        | (w2, .suspend) =>
          if m.sync then sendWith (process env fuel) this m w2
          else ⟨{ w2 with pending := w2.pending ++ [⟨this, m, c, false⟩] }, .ok ()⟩
        | (w2, .complete arg) =>
          endEventOrSend env (process env fuel) this c
            (match arg with
              | some ref => { m with ref := ref }
              | none => m) w2 := by
  rw [process, if_neg ht, hm]
  unfold Res.bind
  rw [handlers_some]
  simp only [handlers_hook, hh]

theorem afterHook_kept {E : Event → Prop} {R : World → World → Prop} (hR : Kept E R)
    (hE : ∀ n a c, E (.hook n a c)) (env : Env) (fuel : Nat) (this : PipePoint) (c : Nat)
    (m : Message) (hm : m.type ≠ "context") (outcome : HookOutcome) (wl : World) :
    R wl (afterHook env fuel this c m outcome wl).world := by
  have hP : ∀ (m : Message) (c : Option Nat), m.type ≠ "context" →
      ({ m with context := c } : Message).type ≠ "context" := fun _ _ h => h
  have ih := fun p m w h => dispatch_kept hR hE env fuel p m w h
  unfold afterHook
  split
  · exact hR.same _
  · split
    · exact sendWith_kept hR hP ih _ _ hm _
    · exact hR.pend _ _
  · rename_i arg
    refine endEventOrSend_kept hR hE env hP ih _ _ _ ?_ _
    cases arg <;> exact hm

theorem logGrows_kept : Kept (fun _ => True) LogGrows where
  same := fun _ => ⟨[], by simp⟩
  seq := by
    rintro a b c ⟨l1, h1⟩ ⟨l2, h2⟩
    exact ⟨l1 ++ l2, by rw [h2, h1, List.append_assoc]⟩
  ensure := by
    intro p ctx w
    unfold PipePoint.handlers
    split <;> exact ⟨[], by simp [World.setCtx]⟩
  del := by
    intro w c id t
    unfold World.setHook
    simp only
    split
    · exact ⟨[], by simp⟩
    · split <;> exact ⟨[], by simp [World.setCtx]⟩
  logs := fun w e _ => ⟨[e], rfl⟩
  pend := fun _ _ => ⟨[], by simp⟩

/-- The first message of type `t ≠ 'context'` at a point where `once(t, h)` registered the
caller-supplied function `h`: the registration is removed, `h` is called once with the
payload, and the rest of `process` runs in the world `wl` in which `h` returns. -/
theorem process_once (env : Env) (fuel : Nat) (w : World) (p this : PipePoint) (c : Nat)
    (hp : p.context = some c) (hid : this._id = p._id) (n : Nat) (m : Message)
    (ht : m.type ≠ "context") (hm : m.context = some c)
    (hreg : w.hook c p._id m.type = some (.onceFn p m.type (.user n))) :
    ∃ wl : World,
      wl.log = w.log ++ [.hook n [m.ref] (!m.sync)] ∧
      wl.hook c p._id m.type = none ∧
      (∀ c1 id t1, ¬ (c1 = c ∧ id = p._id ∧ t1 = m.type) → wl.hook c1 id t1 = w.hook c1 id t1) ∧
      process env (fuel + 1) this m w
        = afterHook env fuel this c m (hookOutcome env n [m.ref] (!m.sync)) wl := by
  have hreg2 : w.hook c this._id m.type = some (.onceFn p m.type (.user n)) := by
    rw [hid]; exact hreg
  obtain ⟨hok, -⟩ := handlers_world p (this.handlers (some c) w).world c hp
  have he := handlers_entry p none (this.handlers (some c) w).world c hok
  refine ⟨{ ((p.handlers none (this.handlers (some c) w).world).world.setHook c p._id m.type
      none) with
      log := w.log ++ [.hook n [m.ref] (!m.sync)] }, rfl, ?_, ?_, ?_⟩
  · exact setHook_hook_same _ _ _ _ _ he
  · intro c1 id t1 hne
    have := setHook_hook_other (p.handlers none (this.handlers (some c) w).world).world
      c p._id m.type none c1 id t1 hne
    rw [handlers_hook, handlers_hook] at this
    exact this
  · rw [process_hook env fuel this m w c hm ht _ hreg2]
    have hlog : ((p.handlers none (this.handlers (some c) w).world).world.setHook c p._id
        m.type none).log = w.log :=
      ((logSame_kept.del _ _ _ _).trans ((logSame_kept.ensure _ _ _).trans
        (logSame_kept.ensure _ _ _)))
    simp only [callHook]
    cases hh : p.handlers none (this.handlers (some c) w).world with
    | mk w1 comp =>
      rw [hh] at hok hlog
      simp only at hok hlog
      subst hok
      simp only [callHook, hlog]
      unfold afterHook
      cases hookOutcome env n [m.ref] (!m.sync) <;> rfl

theorem endEventOrSend_pass (env : Env) (proc : PipePoint → Message → World → Res Unit)
    (this : PipePoint) (c : Nat) (m : Message) (w : World)
    (h : isEndOfStream m = false ∨ w.hook c this._id (endType m) = none) :
    endEventOrSend env proc this c m w = sendWith proc this m w := by
  unfold endEventOrSend
  rcases h with h | h
  · unfold isEndOfStream at h
    rw [if_neg (by rw [h]; simp)]
  · unfold endType at h
    split
    · rw [h]
    · rfl

theorem once_registers (p : PipePoint) (c : Nat) (hp : p.context = some c) (t : String)
    (h : Hook) (w : World) (q : PipePoint) (hok : (p.once t h w).completion = .ok q) :
    (p.once t h w).world.hook c p._id t = some (.onceFn p t h) ∧
    (p.once t h w).world.log = w.log := by
  have hon : ∃ q1, (p.on t (.onceFn p t h) w).completion = .ok q1 := by
    unfold PipePoint.once at hok
    obtain ⟨a, ha, -⟩ := bind_completion_ok hok
    exact ⟨a, ha⟩
  obtain ⟨q1, hq1⟩ := hon
  have hun := on_ok_unregistered p c hp t _ w q1 hq1
  obtain ⟨h1, h2, -⟩ := on_succ p c hp t (.onceFn p t h) w hun
  have hw : (p.once t h w).world = (p.on t (.onceFn p t h) w).world := by
    unfold PipePoint.once Res.bind
    rw [h1]
  rw [hw]
  exact ⟨h2, on_kept logSame_kept _ _ _ _⟩

/-- C7 fails as stated, in two places.  A hook registered with `once('context', h)` is not
called by a context message processed at its point and stays registered.  And after a
`once('request:data', h)` hook has fired, a second `request:data` message that carries the
end-of-stream sentinel is handed to the `request:end` hook of the point and kept there: it
does not pass through to the neighbor (the neighbor's hook is not called). -/
theorem C7_counterexample :
    (let env : Env := ⟨fun _ _ _ _ => [], fun _ _ _ => .suspend, fun _ => .undefined⟩
     let w0 : World := (buildPipe [.handlerMeta (.fn (.user 1)) .undefined] 0
       (createPipePoint (.fn (.user 9)) none {}).2).2
     let p : PipePoint := { w0.heap 1 with context := some 0 }
     let w := (p.once "context" (.user 5) w0).world
     let res := process env 3 (w0.heap 1)
       { type := "context", flow := Types.REQUEST, ref := .ctxRef 0, context := some 0 } w
     res.completion = .ok () ∧
     res.world.log.filter (fun e => e matches .hook _ _ _) = [] ∧
     res.world.hook 0 (w0.heap 1)._id "context" = some (.onceFn p "context" (.user 5))) ∧
    (let env : Env := ⟨fun _ _ _ _ => [], fun _ _ _ => .suspend, fun _ => .undefined⟩
     let w0 : World := (buildPipe [.handlerMeta (.fn (.user 1)) .undefined] 0
       (createPipePoint (.fn (.user 9)) none {}).2).2
     let p : PipePoint := { w0.heap 1 with context := some 0 }
     let q : PipePoint := { w0.heap 0 with context := some 0 }
     let w := (q.on "request:data" (.user 8)
       (p.on "request:end" (.user 6) (p.once "request:data" (.user 5) w0).world).world).world
     let first := process env 3 (w0.heap 1)
       { type := "request:data", flow := Types.REQUEST, ref := .str "a", context := some 0 } w
     let second := process env 3 (w0.heap 1)
       { type := "request:data", flow := Types.REQUEST, ref := .undefined, context := some 0 }
       first.world
     first.world.log = [.hook 5 [.str "a"] true] ∧
     second.world.log = [.hook 5 [.str "a"] true, .hook 6 [] true]) := by
  decide

/-- C7 amended: for a type `t` other than `'context'` and a caller-supplied function `h`
registered with `once(t, h)` on a context-bound point, the first message of type `t`
processed at that point under that context removes the registration and calls `h` once with
the payload of the message, and `process` goes on from the world in which `h` returns.
Afterwards the registry has no hook for `t` at that point, so a later `on(t, h1)` succeeds,
and a second message of type `t` is passed to the neighbor without a call of `h`, unless it
is a data message with the end-of-stream sentinel for which the point has an end hook. -/
theorem C7_once_fires_once (env : Env) (w0 : World) (p this : PipePoint) (c : Nat)
    (hp : p.context = some c) (hid : this._id = p._id) (t : String) (ht : t ≠ "context")
    (n : Nat) (q : PipePoint) (hok : (p.once t (.user n) w0).completion = .ok q)
    (m : Message) (fuel : Nat) (hmt : m.type = t) (hmc : m.context = some c) :
    let w := (p.once t (.user n) w0).world
    let res := process env (fuel + 1) this m w
    (∃ wl : World, wl.log = w0.log ++ [.hook n [m.ref] (!m.sync)] ∧
      wl.hook c p._id t = none ∧
      res = afterHook env fuel this c m (hookOutcome env n [m.ref] (!m.sync)) wl) ∧
    (∃ l, res.world.log = w0.log ++ .hook n [m.ref] (!m.sync) :: l) ∧
    res.world.hook c p._id t = none ∧
    (∀ (p1 : PipePoint) (h1 : Hook), p1.context = some c → p1._id = p._id →
      (p1.on t h1 res.world).completion = .ok p1) ∧
    (∀ (m2 : Message) (fuel2 : Nat), m2.type = t → m2.context = some c →
      (isEndOfStream m2 = false ∨ res.world.hook c p._id (endType m2) = none) →
      process env (fuel2 + 1) this m2 res.world
        = sendWith (process env fuel2) this m2 (this.handlers (some c) res.world).world) := by
  intro w res
  subst hmt
  obtain ⟨hreg, hlog0⟩ := once_registers p c hp m.type (.user n) w0 q hok
  obtain ⟨wl, hl1, hl2, -, hl4⟩ := process_once env fuel w p this c hp hid n m ht hmc hreg
  rw [hlog0] at hl1
  have hnn : NoNewHooks wl res.world := by
    show NoNewHooks wl (process env (fuel + 1) this m w).world
    rw [hl4]
    exact afterHook_kept noNewHooks_kept (fun _ _ _ => trivial) env fuel this c m ht _ wl
  have hlg : LogGrows wl res.world := by
    show LogGrows wl (process env (fuel + 1) this m w).world
    rw [hl4]
    exact afterHook_kept logGrows_kept (fun _ _ _ => trivial) env fuel this c m ht _ wl
  have hnone : res.world.hook c p._id m.type = none := by
    cases hh : res.world.hook c p._id m.type with
    | none => rfl
    | some h0 =>
      have := hnn c p._id m.type h0 hh
      rw [hl2] at this
      cases this
  refine ⟨⟨wl, hl1, hl2, hl4⟩, ?_, hnone, ?_, ?_⟩
  · obtain ⟨l, hl⟩ := hlg
    exact ⟨l, by rw [hl, hl1]; simp⟩
  · intro p1 h1 hp1 hid1
    have := hnone
    rw [← hid1] at this
    exact (on_succ p1 c hp1 m.type h1 res.world this).1
  · intro m2 fuel2 hm2 hmc2 hcond
    have hno2 : res.world.hook c this._id m2.type = none := by
      rw [hm2, hid]; exact hnone
    rw [process_nohook env fuel2 this m2 res.world c hmc2 (by rw [hm2]; exact ht) hno2]
    refine endEventOrSend_pass env _ this c m2 _ ?_
    rcases hcond with h | h
    · exact Or.inl h
    · right
      rw [handlers_hook, hid]
      exact h

/-- Witness of C7 amended: `once('request', h)` on a stage point of a built chain, and a
request message processed there. -/
theorem C7_once_fires_once_witness :
    let env : Env := ⟨fun _ _ _ _ => [], fun _ _ _ => .suspend, fun _ => .undefined⟩
    let w0 : World := (buildPipe [.handlerMeta (.fn (.user 1)) .undefined] 0
       (createPipePoint (.fn (.user 9)) none {}).2).2
    let p : PipePoint := { w0.heap 1 with context := some 0 }
    let m : Message :=
      { type := "request", flow := Types.REQUEST, ref := .str "a", context := some 0 }
    let w := (p.once "request" (.user 5) w0).world
    let res := process env 3 (w0.heap 1) m w
    (∃ wl : World, wl.log = w0.log ++ [.hook 5 [m.ref] (!m.sync)] ∧
      wl.hook 0 p._id "request" = none ∧
      res = afterHook env 2 (w0.heap 1) 0 m (hookOutcome env 5 [m.ref] (!m.sync)) wl) ∧
    (∃ l, res.world.log = w0.log ++ .hook 5 [m.ref] (!m.sync) :: l) ∧
    res.world.hook 0 p._id "request" = none ∧
    (∀ (p1 : PipePoint) (h1 : Hook), p1.context = some 0 → p1._id = p._id →
      (p1.on "request" h1 res.world).completion = .ok p1) ∧
    (∀ (m2 : Message) (fuel2 : Nat), m2.type = "request" → m2.context = some 0 →
      (isEndOfStream m2 = false ∨ res.world.hook 0 p._id (endType m2) = none) →
      process env (fuel2 + 1) (w0.heap 1) m2 res.world
        = sendWith (process env fuel2) (w0.heap 1) m2
            ((w0.heap 1).handlers (some 0) res.world).world) :=
  C7_once_fires_once ⟨fun _ _ _ _ => [], fun _ _ _ => .suspend, fun _ => .undefined⟩
    (buildPipe [.handlerMeta (.fn (.user 1)) .undefined] 0
       (createPipePoint (.fn (.user 9)) none {}).2).2
    { (buildPipe [.handlerMeta (.fn (.user 1)) .undefined] 0
       (createPipePoint (.fn (.user 9)) none {}).2).2.heap 1 with context := some 0 }
    ((buildPipe [.handlerMeta (.fn (.user 1)) .undefined] 0
       (createPipePoint (.fn (.user 9)) none {}).2).2.heap 1)
    0 rfl rfl "request" (by decide) 5
    { (buildPipe [.handlerMeta (.fn (.user 1)) .undefined] 0
       (createPipePoint (.fn (.user 9)) none {}).2).2.heap 1 with context := some 0 }
    rfl
    { type := "request", flow := Types.REQUEST, ref := .str "a", context := some 0 } 2 rfl rfl

/-! ## C8, C9: `request` -/

theorem bind_ok {α β : Type} (r : Res α) (f : α → World → Res β) (a : α)
    (h : r.completion = .ok a) : r.bind f = f a r.world := by
  unfold Res.bind
  rw [h]

theorem bind_thrown {α β : Type} (r : Res α) (f : α → World → Res β) (t : Thrown)
    (h : r.completion = .thrown t) : r.bind f = ⟨r.world, .thrown t⟩ := by
  unfold Res.bind
  rw [h]

/-- The method `request` with a callback on a bound point that has no `error` and no
`response` hook yet: both hooks are registered with `on`, then the request is sent. -/
theorem request_registers (env : Env) (fuel : Nat) (p : PipePoint) (c : Nat)
    (hp : p.context = some c) (request : Value) (cb : Hook) (w : World)
    (hnoE : w.hook c p._id "error" = none) (hnoR : w.hook c p._id "response" = none) :
    ∃ w3 : World,
      w3.hook c p._id "error" = some cb ∧
      w3.hook c p._id "response" = some (.responseCb cb) ∧
      w3.log = w.log ∧
      p.request env fuel request (some cb) w
        = (sendRequest env fuel p request w3).bind fun _ w4 => ⟨w4, .ok p⟩ := by
  obtain ⟨a1, a2, a3⟩ := on_succ p c hp "error" cb w hnoE
  have hnoR2 : (p.on "error" cb w).world.hook c p._id "response" = none := by
    rw [a3 c p._id "response" (fun e => absurd e.2.2 (by decide))]; exact hnoR
  obtain ⟨b1, b2, b3⟩ := on_succ p c hp "response" (.responseCb cb) _ hnoR2
  refine ⟨(p.on "response" (.responseCb cb) (p.on "error" cb w).world).world, ?_, b2, ?_, ?_⟩
  · rw [b3 c p._id "error" (fun e => absurd e.2.2 (by decide))]; exact a2
  · exact (on_kept logSame_kept _ _ _ _).trans (on_kept logSame_kept _ _ _ _)
  · unfold PipePoint.request
    simp only [hp]
    rw [bind_ok ⟨w, .ok p⟩ _ p rfl]
    simp only
    rw [bind_ok _ _ p a1, bind_ok _ _ p b1]

/-- The method `request` with a callback on a bound point that already has an `error`
hook: it throws the duplicate-hook error and sends nothing. -/
theorem request_again (env : Env) (fuel : Nat) (p : PipePoint) (c : Nat)
    (hp : p.context = some c) (request : Value) (cb h0 : Hook) (w : World)
    (hE : w.hook c p._id "error" = some h0) :
    (p.request env fuel request (some cb) w).completion = .thrown (duplicateHook "error") ∧
    (p.request env fuel request (some cb) w).world.log = w.log := by
  obtain ⟨a1, -⟩ := on_fail p c hp "error" cb h0 w hE
  unfold PipePoint.request
  simp only [hp]
  rw [bind_ok ⟨w, .ok p⟩ _ p rfl]
  simp only
  rw [bind_thrown _ _ _ a1]
  exact ⟨rfl, on_kept logSame_kept _ _ _ _⟩

/-- A response message at a point without `prev` whose `response` hook is the wrapper that
`request` registered: the callback is called with `(null, payload)` and the wrapper stays
registered. -/
theorem response_delivered (env : Env) (fuel : Nat) (this : PipePoint) (c : Nat) (n : Nat)
    (m : Message) (w : World) (hprev : this.prev = none) (hmt : m.type = "response")
    (hmf : m.flow = Types.RESPONSE) (hmc : m.context = some c)
    (hreg : w.hook c this._id "response" = some (.responseCb (.user n))) :
    (process env (fuel + 1) this m w).world.log = w.log ++ [.hook n [.null, m.ref] false] ∧
    (process env (fuel + 1) this m w).world.hook c this._id "response"
      = some (.responseCb (.user n)) ∧
    (process env (fuel + 1) this m w).completion ≠ .outOfFuel := by
  have ht : m.type ≠ "context" := by rw [hmt]; decide
  have hlog : (this.handlers (some c) w).world.log = w.log := logSame_kept.ensure _ _ _
  have hhk : (this.handlers (some c) w).world.hook c this._id "response"
      = some (.responseCb (.user n)) := by rw [handlers_hook]; exact hreg
  rw [process_hook env fuel this m w c hmc ht _ (by rw [hmt]; exact hreg)]
  have hsend : ∀ v : World, sendWith (process env fuel) this m v = ⟨v, .ok ()⟩ := by
    intro v
    unfold sendWith
    have : m.flow ≠ Types.REQUEST := by rw [hmf]; decide
    simp [this, hprev, hmt]
  simp only [callHook]
  have hout : hookOutcome env n [.null, m.ref] false = .suspend ∨
      ∃ t, hookOutcome env n [.null, m.ref] false = .raise t := by
    unfold hookOutcome
    cases env.hook n [.null, m.ref] false with
    | suspend => exact Or.inl rfl
    | complete a => exact Or.inr ⟨_, rfl⟩
    | raise t => exact Or.inr ⟨t, rfl⟩
  rcases hout with ho | ⟨t, ho⟩
  · rw [ho]
    simp only
    split
    · rw [hsend]
      exact ⟨by simp [hlog], hhk, by simp⟩
    · exact ⟨by simp [hlog], hhk, by simp⟩
  · rw [ho]
    exact ⟨by simp [hlog], hhk, by simp⟩

/-- One step of `process` at a point whose hook for the type of the message is the
caller-supplied function `n`: the function is called with the payload and a completion
callback. -/
theorem process_user (env : Env) (fuel : Nat) (this : PipePoint) (m : Message) (w : World)
    (c : Nat) (hm : m.context = some c) (ht : m.type ≠ "context") (n : Nat)
    (hh : w.hook c this._id m.type = some (.user n)) (hsync : m.sync = false) :
    process env (fuel + 1) this m w
      = afterHook env fuel this c m (hookOutcome env n [m.ref] true)
          { (this.handlers (some c) w).world with
            log := (this.handlers (some c) w).world.log ++ [.hook n [m.ref] true] } := by
  rw [process_hook env fuel this m w c hm ht _ hh]
  have hcb : (!m.sync) = true := by rw [hsync]; rfl
  simp only [callHook, hcb]
  unfold afterHook
  cases hookOutcome env n [m.ref] true <;> rfl

theorem bind_ret {α β : Type} (r : Res α) (b : β) :
    (r.bind fun _ w1 => ⟨w1, .ok b⟩).world = r.world ∧
    (r.completion ≠ .outOfFuel → (r.bind fun _ w1 => ⟨w1, Completion.ok b⟩).completion ≠ .outOfFuel) := by
  unfold Res.bind
  split
  · exact ⟨rfl, fun _ => by simp⟩
  · exact ⟨rfl, fun _ => by simp⟩
  · rename_i h; exact ⟨rfl, fun h1 => absurd h h1⟩

theorem callHook_hooks_onceFree (env : Env) :
    ∀ (h : Hook) (args : List Value) (cb : Bool) (w : World), onceFree h →
      ∀ c id t, (callHook env h args cb w).1.hook c id t = w.hook c id t
  | .user _, _, _, _, _, _, _, _ => rfl
  | .onceFn _ _ _, _, _, _, hf, _, _, _ => hf.elim
  | .responseCb callback, args, cb, w, hf, c, id, t => by
    simp only [callHook]
    split
    · exact callHook_hooks_onceFree env callback _ _ _ hf c id t
    · split <;> exact callHook_hooks_onceFree env callback _ _ _ hf c id t

theorem callHook_hooks_own (env : Env) (c0 id0 : Nat) (t0 : String) :
    ∀ (h : Hook) (args : List Value) (cb : Bool) (w : World), ownSlot c0 id0 t0 h →
      ∀ c id t, ¬ (c = c0 ∧ id = id0 ∧ t = t0) →
        (callHook env h args cb w).1.hook c id t = w.hook c id t
  | .user _, _, _, _, _, _, _, _, _ => rfl
  | .onceFn self type handler, args, cb, w, ho, c, id, t, hne => by
    obtain ⟨h1, h2, h3, h4⟩ := ho
    obtain ⟨hok, -⟩ := handlers_world self w c0 h1
    have hhk := handlers_hook self none w c id t
    simp only [callHook]
    cases hh : self.handlers none w with
    | mk w1 comp =>
      rw [hh] at hok hhk
      simp only at hok hhk
      subst hok
      simp only
      rw [callHook_hooks_own env c0 id0 t0 handler _ _ _ h4 c id t hne, h2, h3,
        setHook_hook_other _ _ _ _ _ _ _ _ hne, hhk]
  | .responseCb callback, args, cb, w, ho, c, id, t, hne => by
    simp only [callHook]
    split
    · exact callHook_hooks_own env c0 id0 t0 callback _ _ _ ho c id t hne
    · split <;> exact callHook_hooks_own env c0 id0 t0 callback _ _ _ ho c id t hne

theorem ownSlots_of_noNew {w w1 : World} (h : NoNewHooks w w1) (ho : OwnSlots w) :
    OwnSlots w1 :=
  fun c id t hk hh => ho c id t hk (h c id t hk hh)

/-- Calling a registered hook leaves a registration that removes nothing in place. -/
theorem callHook_settled (env : Env) {c0 id0 : Nat} {t0 : String} {h0 : Hook}
    (hfree : onceFree h0) (h : Hook) (args : List Value) (cb : Bool) (w : World)
    (c id : Nat) (t : String) (hreg : w.hook c id t = some h)
    (hs : Settled c0 id0 t0 h0 w) : Settled c0 id0 t0 h0 (callHook env h args cb w).1 := by
  refine ⟨ownSlots_of_noNew (callHook_kept noNewHooks_kept (fun _ _ _ => trivial) env h args
    cb w) hs.1, ?_⟩
  by_cases heq : c0 = c ∧ id0 = id ∧ t0 = t
  · obtain ⟨rfl, rfl, rfl⟩ := heq
    have hh : h = h0 := by
      have := hs.2
      rw [hreg] at this
      exact Option.some.inj this
    rw [hh, callHook_hooks_onceFree env h0 args cb w hfree]
    exact hs.2
  · rw [callHook_hooks_own env c id t h args cb w (hs.1 c id t h hreg) c0 id0 t0 heq]
    exact hs.2

theorem bind_pred {α β : Type} {P : World → Prop} {r : Res α} {f : α → World → Res β}
    (h1 : P r.world) (h2 : ∀ a w1, P w1 → P (f a w1).world) : P (r.bind f).world := by
  unfold Res.bind
  split
  · exact h2 _ _ h1
  · exact h1
  · exact h1

theorem handlers_settled {c0 id0 : Nat} {t0 : String} {h0 : Hook} (p : PipePoint)
    (ctx : Option Nat) (w : World) (hs : Settled c0 id0 t0 h0 w) :
    Settled c0 id0 t0 h0 (p.handlers ctx w).world :=
  ⟨fun c id t h hh => hs.1 c id t h (by rw [handlers_hook] at hh; exact hh),
   by rw [handlers_hook]; exact hs.2⟩

theorem sendWith_settled {c0 id0 : Nat} {t0 : String} {h0 : Hook}
    {proc : PipePoint → Message → World → Res Unit}
    (ih : ∀ p (m : Message) w, m.type ≠ "context" → Settled c0 id0 t0 h0 w →
      Settled c0 id0 t0 h0 (proc p m w).world)
    (this : PipePoint) (m : Message) (hm : m.type ≠ "context") (w : World)
    (hs : Settled c0 id0 t0 h0 w) : Settled c0 id0 t0 h0 (sendWith proc this m w).world := by
  unfold sendWith
  simp only
  split
  · split
    · exact hs
    · exact ih _ _ _ hm hs
  · split <;> exact hs

theorem endEventOrSend_settled (env : Env) {c0 id0 : Nat} {t0 : String} {h0 : Hook}
    (hfree : onceFree h0) {proc : PipePoint → Message → World → Res Unit}
    (ih : ∀ p (m : Message) w, m.type ≠ "context" → Settled c0 id0 t0 h0 w →
      Settled c0 id0 t0 h0 (proc p m w).world)
    (point : PipePoint) (c : Nat) (m : Message) (hm : m.type ≠ "context") (w : World)
    (hs : Settled c0 id0 t0 h0 w) :
    Settled c0 id0 t0 h0 (endEventOrSend env proc point c m w).world := by
  unfold endEventOrSend
  split
  · split
    · rename_i endHandler hreg
      have h1 := callHook_settled env hfree endHandler [] true w _ _ _ hreg hs
      split
      · rename_i w1 t heq
        rw [heq] at h1; exact h1
      · rename_i w1 heq
        rw [heq] at h1; exact h1
      · rename_i w1 a heq
        rw [heq] at h1; exact sendWith_settled ih _ _ hm _ h1
    · exact sendWith_settled ih _ _ hm _ hs
  · exact sendWith_settled ih _ _ hm _ hs

/-- A registration that removes nothing stays in place through the dispatch of any message
other than the context message, at any point. -/
theorem process_settled (env : Env) {c0 id0 : Nat} {t0 : String} {h0 : Hook}
    (hfree : onceFree h0) :
    ∀ (fuel : Nat) (this : PipePoint) (m : Message) (w : World), m.type ≠ "context" →
      Settled c0 id0 t0 h0 w → Settled c0 id0 t0 h0 (process env fuel this m w).world
  | 0, _, _, _, _, hs => hs
  | fuel + 1, this, m, w, hm, hs => by
    have ih : ∀ p (m1 : Message) w1, m1.type ≠ "context" → Settled c0 id0 t0 h0 w1 →
        Settled c0 id0 t0 h0 (process env fuel p m1 w1).world :=
      fun p m1 w1 h1 h2 => process_settled env hfree fuel p m1 w1 h1 h2
    unfold process
    rw [if_neg hm]
    refine bind_pred (P := Settled c0 id0 t0 h0) (handlers_settled _ _ _ hs) ?_
    intro c w1 hs1
    split
    · rename_i processMessage hreg
      have h1 := callHook_settled env hfree processMessage [m.ref] (!m.sync) w1 _ _ _ hreg hs1
      split
      · rename_i w2 t heq
        rw [heq] at h1; exact h1
      · rename_i w2 heq
        rw [heq] at h1
        split
        · exact sendWith_settled ih _ _ hm _ h1
        · exact h1
      · rename_i w2 arg heq
        rw [heq] at h1
        refine endEventOrSend_settled env hfree ih _ _ _ ?_ _ h1
        cases arg <;> exact hm
    · exact endEventOrSend_settled env hfree ih _ _ _ hm _ hs1

theorem send_settled (env : Env) {c0 id0 : Nat} {t0 : String} {h0 : Hook}
    (hfree : onceFree h0) (fuel : Nat) (this : PipePoint) (m : Message) (w : World)
    (hm : m.type ≠ "context") (hs : Settled c0 id0 t0 h0 w) :
    Settled c0 id0 t0 h0 (this.send env fuel m w).world := by
  have ih : ∀ p (m1 : Message) w1, m1.type ≠ "context" → Settled c0 id0 t0 h0 w1 →
      Settled c0 id0 t0 h0 (process env fuel p m1 w1).world :=
    fun p m1 w1 h1 h2 => process_settled env hfree fuel p m1 w1 h1 h2
  exact sendWith_settled ih this m hm w hs

/-- Registering with `on` a hook that removes at most its own registration. -/
theorem on_ownSlots (p : PipePoint) (c : Nat) (hp : p.context = some c) (t : String)
    (h : Hook) (w : World) (hreg : w.hook c p._id t = none) (ho : OwnSlots w)
    (hh : ownSlot c p._id t h) : OwnSlots (p.on t h w).world := by
  obtain ⟨-, a2, a3⟩ := on_succ p c hp t h w hreg
  intro c1 id t1 h1 hk
  by_cases heq : c1 = c ∧ id = p._id ∧ t1 = t
  · obtain ⟨rfl, rfl, rfl⟩ := heq
    rw [a2] at hk
    cases hk
    exact hh
  · rw [a3 c1 id t1 heq] at hk
    exact ho c1 id t1 h1 hk

/-- C8 fails as stated: on a chain of a head and a transport point, after `request('a', cb)`
on the bound head and a response `'r'` delivered to `cb`, the `response` and `error` hooks are
still registered, and a second `request('b', cb2)` on the same bound point raises the
duplicate-hook error. -/
theorem C8_counterexample :
    (let env : Env := ⟨fun _ _ _ _ => [], fun _ _ _ => .suspend, fun _ => .undefined⟩
     let w0 : World := (buildPipe [] 0 (createPipePoint (.fn (.user 9)) none {}).2).2
     let p : PipePoint := { w0.heap 1 with context := some 0, oid := 2 }
     let tp : PipePoint := { w0.heap 0 with context := some 0 }
     let bound := PipePoint.create env 5 (w0.heap 1) none w0
     let first := p.request env 5 (.str "a") (some (.user 3)) bound.world
     let reply := tp.respond env 5 (.str "r") first.world
     let second := p.request env 5 (.str "b") (some (.user 4)) reply.world
     bound.completion = .ok p ∧
     first.completion = .ok p ∧
     reply.world.log = bound.world.log ++ [.hook 3 [.null, .str "r"] false] ∧
     reply.world.hook 0 p._id "response" = some (.responseCb (.user 3)) ∧
     reply.world.hook 0 p._id "error" = some (.user 3) ∧
     second.completion = .thrown (duplicateHook "error")) := by
  decide

/-- A response message at a point whose `response` hook is the wrapper that `request`
registered: the callback is called once, as `callback(null, payload)`, without a completion
callback, and the message goes no further. -/
theorem response_reaches (env : Env) (fuel : Nat) (this : PipePoint) (c n : Nat)
    (m : Message) (w : World) (hmt : m.type = "response") (hmc : m.context = some c)
    (hsync : m.sync = false)
    (hreg : w.hook c this._id "response" = some (.responseCb (.user n))) :
    (process env (fuel + 1) this m w).world.log = w.log ++ [.hook n [.null, m.ref] false] := by
  have ht : m.type ≠ "context" := by rw [hmt]; decide
  have hlog : (this.handlers (some c) w).world.log = w.log := logSame_kept.ensure _ _ _
  rw [process_hook env fuel this m w c hmc ht _ (by rw [hmt]; exact hreg)]
  simp only [callHook]
  have hout : hookOutcome env n [.null, m.ref] false = .suspend ∨
      ∃ t, hookOutcome env n [.null, m.ref] false = .raise t := by
    unfold hookOutcome
    cases env.hook n [.null, m.ref] false with
    | suspend => exact Or.inl rfl
    | complete a => exact Or.inr ⟨_, rfl⟩
    | raise t => exact Or.inr ⟨t, rfl⟩
  rcases hout with ho | ⟨t, ho⟩
  · rw [ho]
    simp [hsync, hlog]
  · rw [ho]
    simp [hlog]

theorem dispatchAll_settled (env : Env) {c0 id0 : Nat} {t0 : String} {h0 : Hook}
    (hfree : onceFree h0) :
    ∀ (ds : List (Nat × PipePoint × Message)) (w : World),
      (∀ d ∈ ds, d.2.2.type ≠ "context") → Settled c0 id0 t0 h0 w →
      Settled c0 id0 t0 h0 (dispatchAll env ds w)
  | [], _, _, hs => hs
  | (f, p, m) :: rest, w, hd, hs =>
    dispatchAll_settled env hfree rest _ (fun d hm => hd d (List.mem_cons_of_mem _ hm))
      (process_settled env hfree f p m w (hd (f, p, m) (List.mem_cons_self _ _)) hs)

/-- C8 amended: `request(payload, cb)` on a context-bound point without `error` and
`response` hooks registers `cb` as `error` hook and its wrapper as `response` hook with `on`,
before the request message is sent.  Both stay registered: when `request` returns, and after
any later dispatches of messages other than the context message, at any points.  In each of
these worlds a response that reaches the point calls `cb` once, as `cb(null, payload)`; an
error that reaches the point calls `cb` once, with the error and the completion callback of
the dispatcher; and a further `request(payload2, cb2)` on the same context-bound point raises
the duplicate-hook error and sends nothing.  (The registered hooks of the world are those
`on` and `once` make: each removes at most its own registration.) -/
theorem C8_request_hooks_persist (env : Env) (fuel : Nat) (p : PipePoint) (c : Nat)
    (hp : p.context = some c) (request : Value) (n : Nat) (w : World)
    (hnoE : w.hook c p._id "error" = none) (hnoR : w.hook c p._id "response" = none)
    (hown : OwnSlots w) :
    (∃ w3 : World,
      w3.hook c p._id "error" = some (.user n) ∧
      w3.hook c p._id "response" = some (.responseCb (.user n)) ∧
      w3.log = w.log ∧
      p.request env fuel request (some (.user n)) w
        = (sendRequest env fuel p request w3).bind fun _ w4 => ⟨w4, .ok p⟩) ∧
    (∀ ds : List (Nat × PipePoint × Message), (∀ d ∈ ds, d.2.2.type ≠ "context") →
      (dispatchAll env ds (p.request env fuel request (some (.user n)) w).world).hook
          c p._id "error" = some (.user n) ∧
      (dispatchAll env ds (p.request env fuel request (some (.user n)) w).world).hook
          c p._id "response" = some (.responseCb (.user n)) ∧
      (∀ (this : PipePoint) (m : Message) (f : Nat), this._id = p._id →
        m.type = "response" → m.context = some c → m.sync = false →
        (process env (f + 1) this m
            (dispatchAll env ds (p.request env fuel request (some (.user n)) w).world)).world.log
          = (dispatchAll env ds (p.request env fuel request (some (.user n)) w).world).log
              ++ [.hook n [.null, m.ref] false]) ∧
      (∀ (this : PipePoint) (m : Message) (f : Nat), this._id = p._id →
        m.type = "error" → m.context = some c → m.sync = false →
        ∃ wl : World,
          wl.log = (dispatchAll env ds (p.request env fuel request (some (.user n)) w).world).log
            ++ [.hook n [m.ref] true] ∧
          process env (f + 1) this m
              (dispatchAll env ds (p.request env fuel request (some (.user n)) w).world)
            = afterHook env f this c m (hookOutcome env n [m.ref] true) wl) ∧
      (∀ (request2 : Value) (cb2 : Hook) (fuel2 : Nat),
        (p.request env fuel2 request2 (some cb2)
            (dispatchAll env ds (p.request env fuel request (some (.user n)) w).world)).completion
          = .thrown (duplicateHook "error") ∧
        (p.request env fuel2 request2 (some cb2)
            (dispatchAll env ds (p.request env fuel request (some (.user n)) w).world)).world.log
          = (dispatchAll env ds (p.request env fuel request (some (.user n)) w).world).log)) := by
  have hreg := request_registers env fuel p c hp request (.user n) w hnoE hnoR
  have hset : Settled c p._id "error" (.user n)
        (p.request env fuel request (some (.user n)) w).world ∧
      Settled c p._id "response" (.responseCb (.user n))
        (p.request env fuel request (some (.user n)) w).world := by
    obtain ⟨a1, a2, a3⟩ := on_succ p c hp "error" (.user n) w hnoE
    have hnoR2 : (p.on "error" (.user n) w).world.hook c p._id "response" = none := by
      rw [a3 c p._id "response" (fun e => absurd e.2.2 (by decide))]; exact hnoR
    obtain ⟨b1, b2, b3⟩ := on_succ p c hp "response" (.responseCb (.user n)) _ hnoR2
    have ho1 : OwnSlots (p.on "error" (.user n) w).world :=
      on_ownSlots p c hp "error" (.user n) w hnoE hown trivial
    have ho2 : OwnSlots (p.on "response" (.responseCb (.user n))
        (p.on "error" (.user n) w).world).world :=
      on_ownSlots p c hp "response" (.responseCb (.user n)) _ hnoR2 ho1 trivial
    have hE : (p.on "response" (.responseCb (.user n))
        (p.on "error" (.user n) w).world).world.hook c p._id "error" = some (.user n) := by
      rw [b3 c p._id "error" (fun e => absurd e.2.2 (by decide))]; exact a2
    have heq : p.request env fuel request (some (.user n)) w
        = (sendRequest env fuel p request (p.on "response" (.responseCb (.user n))
            (p.on "error" (.user n) w).world).world).bind fun _ w4 => ⟨w4, .ok p⟩ := by
      unfold PipePoint.request
      simp only [hp]
      rw [bind_ok ⟨w, .ok p⟩ _ p rfl]
      simp only
      rw [bind_ok _ _ p a1, bind_ok _ _ p b1]
    generalize hw3 : (p.on "response" (.responseCb (.user n))
        (p.on "error" (.user n) w).world).world = w3 at ho2 hE b2 heq
    have hb := (bind_ret (sendRequest env fuel p request w3) p).1
    rw [heq, hb]
    have ht : ({ type := "request", flow := Types.REQUEST, ref := request } : Message).type
        ≠ "context" := show "request" ≠ "context" by decide
    exact ⟨@send_settled env c p._id "error" (.user n) trivial fuel p _ w3 ht ⟨ho2, hE⟩,
      @send_settled env c p._id "response" (.responseCb (.user n)) trivial fuel p _ w3 ht
        ⟨ho2, b2⟩⟩
  refine ⟨hreg, ?_⟩
  intro ds hds
  have hE := @dispatchAll_settled env c p._id "error" (.user n) trivial ds _ hds hset.1
  have hR := @dispatchAll_settled env c p._id "response" (.responseCb (.user n)) trivial ds _
    hds hset.2
  generalize dispatchAll env ds (p.request env fuel request (some (.user n)) w).world = v
    at hE hR ⊢
  refine ⟨hE.2, hR.2, ?_, ?_, ?_⟩
  · intro this m f hid hmt hmc hsync
    exact response_reaches env f this c n m v hmt hmc hsync (by rw [hid]; exact hR.2)
  · intro this m f hid hmt hmc hsync
    refine ⟨_, ?_, process_user env f this m v c hmc (by rw [hmt]; decide) n
      (by rw [hid, hmt]; exact hE.2) hsync⟩
    show (this.handlers (some c) v).world.log ++ _ = _
    rw [logSame_kept.ensure _ _ _]
  · intro request2 cb2 fuel2
    exact request_again env fuel2 p c hp request2 cb2 _ v hE.2

/-- Witness of C8 amended: the bound head of a chain of a head and a transport point; the
request, then a response delivered at the head, then a second request. -/
theorem C8_request_hooks_persist_witness :
    let env : Env := ⟨fun _ _ _ _ => [], fun _ _ _ => .suspend, fun _ => .undefined⟩
    let w : World := (buildPipe [] 0 (createPipePoint (.fn (.user 9)) none {}).2).2
    let p : PipePoint := { w.heap 1 with context := some 0 }
    let m : Message :=
      { type := "response", flow := Types.RESPONSE, ref := .str "r", context := some 0 }
    let v := dispatchAll env [(3, w.heap 1, m)]
      (p.request env 5 (.str "a") (some (.user 3)) w).world
    v.hook 0 p._id "error" = some (.user 3) ∧
    v.hook 0 p._id "response" = some (.responseCb (.user 3)) ∧
    (p.request env 5 (.str "b") (some (.user 4)) v).completion
      = .thrown (duplicateHook "error") :=
  ⟨((C8_request_hooks_persist ⟨fun _ _ _ _ => [], fun _ _ _ => .suspend, fun _ => .undefined⟩ 5
      { (buildPipe [] 0 (createPipePoint (.fn (.user 9)) none {}).2).2.heap 1 with
        context := some 0 }
      0 rfl (.str "a") 3 (buildPipe [] 0 (createPipePoint (.fn (.user 9)) none {}).2).2 rfl rfl
      (fun _ _ _ _ hh => nomatch hh)).2
      [(3, (buildPipe [] 0 (createPipePoint (.fn (.user 9)) none {}).2).2.heap 1,
        { type := "response", flow := Types.RESPONSE, ref := .str "r", context := some 0 })]
      (by decide)).1,
   ((C8_request_hooks_persist ⟨fun _ _ _ _ => [], fun _ _ _ => .suspend, fun _ => .undefined⟩ 5
      { (buildPipe [] 0 (createPipePoint (.fn (.user 9)) none {}).2).2.heap 1 with
        context := some 0 }
      0 rfl (.str "a") 3 (buildPipe [] 0 (createPipePoint (.fn (.user 9)) none {}).2).2 rfl rfl
      (fun _ _ _ _ hh => nomatch hh)).2
      [(3, (buildPipe [] 0 (createPipePoint (.fn (.user 9)) none {}).2).2.heap 1,
        { type := "response", flow := Types.RESPONSE, ref := .str "r", context := some 0 })]
      (by decide)).2.1,
   (((C8_request_hooks_persist ⟨fun _ _ _ _ => [], fun _ _ _ => .suspend, fun _ => .undefined⟩ 5
      { (buildPipe [] 0 (createPipePoint (.fn (.user 9)) none {}).2).2.heap 1 with
        context := some 0 }
      0 rfl (.str "a") 3 (buildPipe [] 0 (createPipePoint (.fn (.user 9)) none {}).2).2 rfl rfl
      (fun _ _ _ _ hh => nomatch hh)).2
      [(3, (buildPipe [] 0 (createPipePoint (.fn (.user 9)) none {}).2).2.heap 1,
        { type := "response", flow := Types.RESPONSE, ref := .str "r", context := some 0 })]
      (by decide)).2.2.2.2 (.str "b") (.user 4) 5).1⟩

/-- C9 (the code departs from the claim): `request(payload)` without a callback on a point
that carries no context never returns: after binding the new context it reads
`this.context.$requestStream` on the point that has no context, a `TypeError`.  On the head
of a built chain the call throws that `TypeError`, while `request(payload, callback)` on the
same head returns the bound point, whose context is the new, empty context object. -/
theorem C9_request_without_callback_throws :
    (∀ (env : Env) (fuel : Nat) (this : PipePoint) (request : Value) (w : World),
      this.context = none →
      ∀ p, (this.request env fuel request none w).completion ≠ .ok p) ∧
    (let env : Env := ⟨fun _ _ _ _ => [], fun _ _ _ => .suspend, fun _ => .undefined⟩
     let w : World := (buildPipe [] 0 (createPipePoint (.fn (.user 9)) none {}).2).2
     (w.heap 1).context = none ∧
     ((w.heap 1).request env 5 (.str "a") none w).completion = .thrown .typeError ∧
     ((w.heap 1).request env 5 (.str "a") (some (.user 3)) w).completion
       = .ok { w.heap 1 with context := some 0, oid := 2 } ∧
     (((w.heap 1).request env 5 (.str "a") (some (.user 3)) w).world.ctxs 0).fields = []) := by
  refine ⟨?_, by decide⟩
  intro env fuel this request w hthis p hp
  unfold PipePoint.request at hp
  simp only [hthis] at hp
  obtain ⟨a, -, h2⟩ := bind_completion_ok hp
  cases h2

/-! ## C10: an error without an error hook -/

theorem handlers_keeps_entry (p : PipePoint) (ctx : Option Nat) (w : World) :
    EntriesKept w (p.handlers ctx w).world := by
  intro c id ⟨reg, m, hp, hr⟩
  unfold PipePoint.handlers
  split
  · exact ⟨reg, m, hp, hr⟩
  · rename_i c0 _
    by_cases hc : c = c0
    · subst hc
      simp only [hp, Option.getD_some]
      by_cases hid : id = p._id
      · refine ⟨fun k => if k = p._id then some ((reg p._id).getD fun _ => none) else reg k,
          (reg p._id).getD (fun _ => none), ?_, ?_⟩
        · simp [World.setCtx]
        · simp [hid]
      · refine ⟨fun k => if k = p._id then some ((reg p._id).getD fun _ => none) else reg k,
          m, ?_, ?_⟩
        · simp [World.setCtx]
        · simp [hid, hr]
    · exact ⟨reg, m, by simp [World.setCtx, hc, hp], hr⟩

theorem setHook_keeps_entry (w : World) (c0 id0 : Nat) (t0 : String) (h : Option Hook) :
    EntriesKept w (w.setHook c0 id0 t0 h) := by
  intro c1 id1 ⟨reg, mm, hp1, hr1⟩
  by_cases he : HasEntry w c0 id0
  · obtain ⟨reg0, m0, hp0, hr0⟩ := he
    rw [setHook_entry w c0 id0 t0 h reg0 m0 hp0 hr0]
    by_cases hc1 : c1 = c0
    · subst hc1
      rw [hp0] at hp1
      cases hp1
      by_cases hid : id1 = id0
      · refine ⟨fun k => if k = id0 then some (fun t1 => if t1 = t0 then h else m0 t1)
          else reg k, fun t1 => if t1 = t0 then h else m0 t1, ?_, ?_⟩
        · simp [World.setCtx]
        · simp [hid]
      · refine ⟨fun k => if k = id0 then some (fun t1 => if t1 = t0 then h else m0 t1)
          else reg k, mm, ?_, ?_⟩
        · simp [World.setCtx]
        · simp [hid, hr1]
    · exact ⟨reg, mm, by simp [World.setCtx, hc1, hp1], hr1⟩
  · rw [setHook_noEntry w c0 id0 t0 h he]
    exact ⟨reg, mm, hp1, hr1⟩

theorem entriesKept_kept : Kept (fun _ => True) EntriesKept where
  same := fun _ _ _ h => h
  seq := fun h1 h2 c id h => h2 c id (h1 c id h)
  ensure := handlers_keeps_entry
  del := fun w c id t => setHook_keeps_entry w c id t none
  logs := fun _ _ _ _ _ h => h
  pend := fun _ _ _ _ h => h

theorem linked_suffix {g : Nat → PipePoint} :
    ∀ (xs l : List Nat), Linked g (xs ++ l) → Linked g l
  | [], _, h => h
  | _ :: xs, l, h => linked_suffix xs l (Linked.tail h)

theorem prevPath_of_split {heap : Nat → PipePoint} (full pre post : List Nat) (r a : Nat)
    (hl : Linked heap full) (hsplit : full = pre ++ r :: post)
    (hhead : full.head? = some a) (hprev : (heap a).prev = none) :
    PrevPath heap (heap r).prev pre.reverse := by
  have hrev := Linked.reverse full hl
  have hfr : full.reverse = post.reverse ++ r :: pre.reverse := by
    rw [hsplit]; simp
  rw [hfr] at hrev
  have hsuf := linked_suffix _ _ hrev
  have hnp := @nextPath_of_linked (swapLinks heap) pre.reverse r hsuf (by
    intro z hz
    have hlast : (r :: pre.reverse).getLast? = some a := by
      have h1 : (post.reverse ++ r :: pre.reverse).getLast? = full.head? := by
        rw [← hfr, List.getLast?_reverse]
      rw [List.getLast?_append_cons] at h1
      rw [h1, hhead]
    rw [hlast] at hz
    cases hz
    simpa [swapLinks] using hprev)
  clear hsuf hrev hfr hsplit
  have hconv : ∀ (rs : List Nat) (pv : Option Nat),
      NextPath (swapLinks heap) pv rs → PrevPath heap pv rs := by
    intro rs
    induction rs with
    | nil => intro pv h; exact h
    | cons b rest ih =>
      intro pv h
      exact ⟨h.1, ih _ (by simpa [swapLinks] using h.2)⟩
  exact hconv _ _ (by simpa [swapLinks] using hnp)

/-- An error message sent backward from `p` through points without an `error` hook reaches
the first point of the chain and is thrown there; no hook is called on the way. -/
theorem err_walk (env : Env) (c : Nat) :
    ∀ (rs : List Nat) (fuel : Nat) (p : PipePoint) (m : Message) (w : World),
      m.type = "error" → m.flow = Types.RESPONSE → m.context = some c →
      PrevPath w.heap p.prev rs → (∀ id, w.hook c id "error" = none) →
      rs.length ≤ fuel →
      (sendWith (process env fuel) p m w).completion = .thrown (.value m.ref) ∧
      (sendWith (process env fuel) p m w).world.log = w.log ∧
      (∀ r ∈ rs, HasEntry (sendWith (process env fuel) p m w).world c (w.heap r)._id)
  | [], fuel, p, m, w, ht, hf, hc, hpath, hno, hfuel => by
    have hn : p.prev = none := hpath
    have hfl : m.flow ≠ Types.REQUEST := by rw [hf]; decide
    have hs : sendWith (process env fuel) p m w = ⟨w, .thrown (.value m.ref)⟩ := by
      simp [sendWith, hfl, hn, ht]
    rw [hs]
    exact ⟨rfl, rfl, by simp⟩
  | r :: rs, fuel, p, m, w, ht, hf, hc, hpath, hno, hfuel => by
    obtain ⟨f, rfl⟩ : ∃ f, fuel = f + 1 := ⟨fuel - 1, by simp at hfuel; omega⟩
    have hn : p.prev = some r := hpath.1
    have hfl : m.flow ≠ Types.REQUEST := by rw [hf]; decide
    have htc : m.type ≠ "context" := by rw [ht]; decide
    have hm : ({ m with context := orElse m.context p.context } : Message) = m := by
      cases m; simp only [orElse] at hc ⊢; simp [hc]
    have hs : sendWith (process env (f + 1)) p m w = process env (f + 1) (w.heap r) m w := by
      unfold sendWith
      rw [hm]
      simp [hfl, hn, hc]
    have hnoEnd : isEndOfStream m = false := by
      simp [isEndOfStream, ht]
    rw [hs, process_nohook env f (w.heap r) m w c hc htc (by rw [ht]; exact hno _),
      endEventOrSend_pass env _ _ c m _ (Or.inl hnoEnd)]
    generalize hw1 : ((w.heap r).handlers (some c) w).world = w1
    have hheap : w1.heap = w.heap := by
      rw [← hw1]; exact (staticEq_kept.ensure _ _ _).1
    have hlog : w1.log = w.log := by
      rw [← hw1]; exact logSame_kept.ensure _ _ _
    have hno1 : ∀ id, w1.hook c id "error" = none := by
      intro id; rw [← hw1, handlers_hook]; exact hno id
    have hent : HasEntry w1 c (w.heap r)._id := by
      rw [← hw1]; exact handlers_entry _ _ _ _ (handlers_some _ _ _)
    have ih := err_walk env c rs f (w.heap r) m w1 ht hf hc
      (by rw [hheap]; exact hpath.2) hno1 (by simp at hfuel; omega)
    obtain ⟨i1, i2, i3⟩ := ih
    refine ⟨i1, by rw [i2, hlog], ?_⟩
    intro q hq
    rcases List.mem_cons.mp hq with hqr | hq
    · rw [hqr]
      have hk : EntriesKept w1 (sendWith (process env f) (w.heap r) m w1).world :=
        sendWith_kept (P := fun m => m.type ≠ "context") entriesKept_kept (fun _ _ h => h)
          (fun p1 m1 v h1 => dispatch_kept entriesKept_kept (fun _ _ _ => trivial) env f p1 m1 v h1)
          _ _ htc _
      exact hk c _ hent
    · have := i3 q hq
      rw [hheap] at this
      exact this

/-- C10: on a chain built by `buildPipe`, under a context in which no `error` hook is
registered, `p.throw(e)` on the context-bound copy `p` of any point of the chain throws
exactly `e`; no hook is called, and the error message was processed at every point between
`p` and the head (each of them got its registry entry under the context). -/
theorem C10_unhandled_error_rethrown (env : Env) (hs : List Value) (t : Nat) (w0 : World)
    (ht : t < w0.heapSize) (w : World) (hheap : w.heap = (buildPipe hs t w0).2.heap)
    (c : Nat) (hno : ∀ id, w.hook c id "error" = none)
    (pre post : List Nat) (r : Nat)
    (hsplit : walkNext w.heap (hs.length + 2) (buildPipe hs t w0).1 = pre ++ r :: post)
    (e : Value) (oid fuel : Nat) (hfuel : hs.length + 2 ≤ fuel) :
    let p : PipePoint := { w.heap r with context := some c, oid := oid }
    (p.throw env fuel e w).completion = .thrown (.value e) ∧
    (p.throw env fuel e w).world.log = w.log ∧
    ∀ q ∈ pre, HasEntry (p.throw env fuel e w).world c (w.heap q)._id := by
  intro p
  obtain ⟨b1, b2, -, b4, -⟩ := buildPipe_chain hs t w0 ht
  have hwalk := (C2_reverse_list_order hs t w0 ht).1
  have hl := b2.linked
  rw [← hheap] at hl b4 hwalk
  rw [hwalk] at hsplit
  have hpath := prevPath_of_split _ pre post r _ hl hsplit rfl b4
  have hlen : pre.length ≤ hs.length + 2 := by
    have := congrArg List.length hsplit
    simp at this
    omega
  have hw := err_walk env c pre.reverse fuel p
    { type := "error", flow := Types.RESPONSE, ref := e, context := some c } w rfl rfl rfl
    hpath hno (by simp; omega)
  have hsend : p.throw env fuel e w = sendWith (process env fuel) p
      { type := "error", flow := Types.RESPONSE, ref := e, context := some c } w := by
    unfold PipePoint.throw PipePoint.send
    exact sendWith_attach _ p _ w c rfl rfl
  rw [hsend]
  exact ⟨hw.1, hw.2.1, fun q hq => hw.2.2 q (by simpa using hq)⟩

/-- Witness of C10: `throw` on the bound copy of the transport point of a chain with one
stage. -/
theorem C10_unhandled_error_rethrown_witness :
    let env : Env := ⟨fun _ _ _ _ => [], fun _ _ _ => .suspend, fun _ => .undefined⟩
    let w : World := (buildPipe [.handlerMeta (.fn (.user 1)) .undefined] 0
       (createPipePoint (.fn (.user 9)) none {}).2).2
    let p : PipePoint := { w.heap 0 with context := some 0, oid := 5 }
    (p.throw env 3 (.str "boom") w).completion = .thrown (.value (.str "boom")) ∧
    (p.throw env 3 (.str "boom") w).world.log = w.log ∧
    ∀ q ∈ [2, 1], HasEntry (p.throw env 3 (.str "boom") w).world 0 (w.heap q)._id :=
  C10_unhandled_error_rethrown ⟨fun _ _ _ _ => [], fun _ _ _ => .suspend, fun _ => .undefined⟩
    [.handlerMeta (.fn (.user 1)) .undefined] 0 (createPipePoint (.fn (.user 9)) none {}).2
    (by decide) _ rfl 0 (fun _ => rfl) [2, 1] [] 0 (by decide) (.str "boom") 5 3 (by decide)

/-! ## C11: hooks compose along the chain -/

theorem stagesOk_congr (env : Env) (w w1 : World) (c : Nat) (ty : String)
    (hheap : w1.heap = w.heap) (hhook : ∀ id t, w1.hook c id t = w.hook c id t) :
    ∀ (refs : List Nat) (specs : List StageSpec),
      StagesOk env w c ty refs specs → StagesOk env w1 c ty refs specs
  | [], [], _ => trivial
  | r :: refs, none :: specs, h => by
    refine ⟨?_, stagesOk_congr env w w1 c ty hheap hhook refs specs h.2⟩
    rw [hhook, hheap]; exact h.1
  | r :: refs, some (n, f) :: specs, h => by
    refine ⟨?_, h.2.1, stagesOk_congr env w w1 c ty hheap hhook refs specs h.2.2⟩
    rw [hhook, hheap]; exact h.1
  | [], _ :: _, h => by cases h
  | _ :: _, [], h => by cases h

theorem sendWith_step (proc : PipePoint → Message → World → Res Unit) (p : PipePoint)
    (m : Message) (w : World) (c r : Nat) (hc : m.context = some c)
    (hn : nbr m.flow p = some r) :
    sendWith proc p m w = proc (w.heap r) m w := by
  have hm : ({ m with context := orElse m.context p.context } : Message) = m := by
    cases m; simp only [orElse] at hc ⊢; simp [hc]
  unfold sendWith
  unfold nbr at hn
  rw [hm, hn]
  simp [hc]

theorem sendWith_stop (proc : PipePoint → Message → World → Res Unit) (p : PipePoint)
    (m : Message) (w : World) (hn : nbr m.flow p = none) (ht : m.type ≠ "error") :
    sendWith proc p m w = ⟨w, .ok ()⟩ := by
  unfold sendWith
  unfold nbr at hn
  rw [hn]
  simp [ht]

/-- A message that is neither a context, error nor data message, relayed by the stages at
`refs` to the point `last`, whose hook `nl` is called with the payload the stages made. -/
theorem relay (env : Env) (c : Nat) (last nl : Nat) :
    ∀ (refs : List Nat) (specs : List StageSpec) (fuel : Nat) (p : PipePoint) (m : Message)
      (w : World),
      m.type ≠ "context" → m.type ≠ "error" → m.type ≠ "response:data" →
      m.type ≠ "request:data" → m.sync = false → m.context = some c →
      FlowPath w.heap m.flow (nbr m.flow p) (refs ++ [last]) →
      StagesOk env w c m.type refs specs →
      w.hook c (w.heap last)._id m.type = some (.user nl) →
      refs.length + 2 ≤ fuel →
      (sendWith (process env fuel) p m w).world.log
        = w.log ++ relayEvents specs m.ref ++ [.hook nl [relayPayload specs m.ref] true] ∧
      (sendWith (process env fuel) p m w).completion ≠ .outOfFuel
  | [], [], fuel, p, m, w, h1, h2, h3, h4, hsync, hc, hpath, _, hlast, hfuel => by
    obtain ⟨f, rfl⟩ : ∃ f, fuel = f + 1 := ⟨fuel - 1, by simp at hfuel; omega⟩
    have hstop : nbr m.flow (w.heap last) = none := hpath.2
    rw [sendWith_step _ p m w c last hc hpath.1,
      process_user env f (w.heap last) m w c hc h1 nl hlast hsync]
    simp only [relayEvents, relayPayload, List.append_nil]
    have hlog : ((w.heap last).handlers (some c) w).world.log = w.log :=
      logSame_kept.ensure _ _ _
    have hnoEnd : ∀ v, isEndOfStream { m with ref := v } = false := by
      intro v; simp [isEndOfStream, h3, h4]
    unfold afterHook
    cases hookOutcome env nl [m.ref] true with
    | suspend => simp [hlog, hsync]
    | raise t => simp [hlog]
    | complete arg =>
      cases arg with
      | none =>
        simp only
        rw [endEventOrSend_pass env _ _ c m _ (Or.inl (hnoEnd m.ref)),
          sendWith_stop _ _ m _ hstop h2]
        simp [hlog]
      | some ref =>
        simp only
        rw [endEventOrSend_pass env _ _ c _ _ (Or.inl (hnoEnd ref)),
          sendWith_stop _ _ { m with ref := ref } _ hstop h2]
        simp [hlog]
  | r :: refs, s :: specs, fuel, p, m, w, h1, h2, h3, h4, hsync, hc, hpath, hst, hlast,
      hfuel => by
    obtain ⟨f, rfl⟩ : ∃ f, fuel = f + 1 := ⟨fuel - 1, by simp at hfuel; omega⟩
    have hnoEnd : ∀ v, isEndOfStream { m with ref := v } = false := by
      intro v; simp [isEndOfStream, h3, h4]
    have hrest : FlowPath w.heap m.flow (nbr m.flow (w.heap r)) (refs ++ [last]) := hpath.2
    rw [sendWith_step _ p m w c r hc hpath.1]
    generalize hw1 : ((w.heap r).handlers (some c) w).world = w1
    have hheap1 : w1.heap = w.heap := by
      rw [← hw1]; exact (staticEq_kept.ensure _ _ _).1
    have hlog1 : w1.log = w.log := by
      rw [← hw1]; exact logSame_kept.ensure _ _ _
    have hhook1 : ∀ id t, w1.hook c id t = w.hook c id t := by
      intro id t; rw [← hw1, handlers_hook]
    cases s with
    | none =>
      have hst' : w.hook c (w.heap r)._id m.type = none ∧ StagesOk env w c m.type refs specs :=
        hst
      rw [process_nohook env f (w.heap r) m w c hc h1 hst'.1, hw1,
        endEventOrSend_pass env _ _ c m _ (Or.inl (hnoEnd m.ref))]
      have ih := relay env c last nl refs specs f (w.heap r) m w1 h1 h2 h3 h4 hsync hc
        (by rw [hheap1]; exact hrest)
        (stagesOk_congr env w w1 c m.type hheap1 hhook1 refs specs hst'.2)
        (by rw [hhook1, hheap1]; exact hlast) (by simp at hfuel; omega)
      rw [ih.1, hlog1]
      exact ⟨by simp [relayEvents, relayPayload, StageSpec.apply], ih.2⟩
    | some nf =>
      obtain ⟨n, g⟩ := nf
      have hst' : w.hook c (w.heap r)._id m.type = some (.user n) ∧
          (∀ v, env.hook n [v] true = .complete (some (g v))) ∧
          StagesOk env w c m.type refs specs := hst
      have hout : hookOutcome env n [m.ref] true = .complete (some (g m.ref)) := by
        simp [hookOutcome, hst'.2.1]
      rw [process_user env f (w.heap r) m w c hc h1 n hst'.1 hsync, hw1, hout]
      unfold afterHook
      simp only
      rw [endEventOrSend_pass env _ _ c _ _ (Or.inl (hnoEnd (g m.ref)))]
      have ih := relay env c last nl refs specs f (w.heap r) { m with ref := g m.ref }
        { w1 with log := w1.log ++ [.hook n [m.ref] true] } h1 h2 h3 h4 hsync hc
        (by show FlowPath w1.heap _ _ _; rw [hheap1]; exact hrest)
        (stagesOk_congr env w { w1 with log := w1.log ++ [.hook n [m.ref] true] } c m.type
          hheap1 hhook1 refs specs hst'.2.2)
        (by
          show w1.hook c (w1.heap last)._id m.type = _
          rw [hhook1, hheap1]; exact hlast)
        (by simp at hfuel; omega)
      rw [ih.1]
      exact ⟨by simp [relayEvents, relayPayload, StageSpec.apply, hlog1], ih.2⟩
  | [], _ :: _, _, _, _, _, _, _, _, _, _, _, _, hst, _, _ => by cases hst
  | _ :: _, [], _, _, _, _, _, _, _, _, _, _, _, hst, _, _ => by cases hst

theorem flowPath_request {heap : Nat → PipePoint} :
    ∀ (rs : List Nat) (x : Option Nat), NextPath heap x rs → FlowPath heap Types.REQUEST x rs
  | [], _, h => h
  | r :: rs, _, h => ⟨h.1, by
      have hn : nbr Types.REQUEST (heap r) = (heap r).next := by simp [nbr]
      rw [hn]; exact flowPath_request rs _ h.2⟩

theorem flowPath_response {heap : Nat → PipePoint} :
    ∀ (rs : List Nat) (x : Option Nat), PrevPath heap x rs → FlowPath heap Types.RESPONSE x rs
  | [], _, h => h
  | r :: rs, _, h => ⟨h.1, by
      have hn : nbr Types.RESPONSE (heap r) = (heap r).prev := by
        simp [nbr, Types.RESPONSE, Types.REQUEST]
      rw [hn]; exact flowPath_response rs _ h.2⟩

theorem stagesOk_snoc (env : Env) (w : World) (c : Nat) (ty : String) (r : Nat) (s : StageSpec)
    (hs : StagesOk env w c ty [r] [s]) :
    ∀ (refs : List Nat) (specs : List StageSpec),
      StagesOk env w c ty refs specs → StagesOk env w c ty (refs ++ [r]) (specs ++ [s])
  | [], [], _ => hs
  | a :: refs, none :: specs, h => ⟨h.1, stagesOk_snoc env w c ty r s hs refs specs h.2⟩
  | a :: refs, some (n, f) :: specs, h =>
    ⟨h.1, h.2.1, stagesOk_snoc env w c ty r s hs refs specs h.2.2⟩
  | [], _ :: _, h => by cases h
  | _ :: _, [], h => by cases h

theorem stagesOk_reverse (env : Env) (w : World) (c : Nat) (ty : String) :
    ∀ (refs : List Nat) (specs : List StageSpec),
      StagesOk env w c ty refs specs → StagesOk env w c ty refs.reverse specs.reverse
  | [], [], _ => trivial
  | a :: refs, none :: specs, h => by
    rw [List.reverse_cons, List.reverse_cons]
    exact stagesOk_snoc env w c ty a none ⟨h.1, trivial⟩ _ _
      (stagesOk_reverse env w c ty refs specs h.2)
  | a :: refs, some (n, f) :: specs, h => by
    rw [List.reverse_cons, List.reverse_cons]
    exact stagesOk_snoc env w c ty a (some (n, f)) ⟨h.1, h.2.1, trivial⟩ _ _
      (stagesOk_reverse env w c ty refs specs h.2.2)
  | [], _ :: _, h => by cases h
  | _ :: _, [], h => by cases h

theorem stagesOk_length (env : Env) (w : World) (c : Nat) (ty : String) :
    ∀ (refs : List Nat) (specs : List StageSpec),
      StagesOk env w c ty refs specs → specs.length = refs.length
  | [], [], _ => rfl
  | a :: refs, none :: specs, h => by
    simp [stagesOk_length env w c ty refs specs h.2]
  | a :: refs, some (n, f) :: specs, h => by
    simp [stagesOk_length env w c ty refs specs h.2.2]
  | [], _ :: _, h => by cases h
  | _ :: _, [], h => by cases h

theorem relayPayload_foldl : ∀ (specs : List StageSpec) (v : Value),
    relayPayload specs v = specs.foldl (fun x s => s.apply x) v
  | [], _ => rfl
  | s :: rest, v => by
    rw [relayPayload, List.foldl_cons]; exact relayPayload_foldl rest (s.apply v)

theorem relayPayload_reverse (specs : List StageSpec) (v : Value) :
    relayPayload specs.reverse v = specs.foldr StageSpec.apply v := by
  rw [relayPayload_foldl, List.foldl_reverse]

/-- C11: on a chain `h, s1 .. sN, t` (head, stages, transport point) under the context `c`,
where each stage has either no `response` hook or a hook that calls its completion callback
with `fi payload`: `respond(r)` on the bound transport-side point calls the hooks of the stages
from `sN` to `s1` and then, exactly once, the `response` hook of the head with
`f1 (f2 (.. (fN r)))`; and with `request` hooks `gi`, a request `req` sent from the bound head
calls the hooks of the stages from `s1` to `sN` and then, exactly once, the `request` hook at
the transport point with `gN (.. (g1 req))`.  Neither runs out of fuel. -/
theorem C11_hooks_compose (env : Env) (c h t : Nat) (ss : List Nat) (w : World) (fuel : Nat)
    (hl : Linked w.heap (h :: (ss ++ [t]))) (hhead : (w.heap h).prev = none)
    (hterm : (w.heap t).next = none) (hfuel : ss.length + 2 ≤ fuel) :
    (∀ (fs : List StageSpec) (pt : PipePoint) (r : Value) (nl : Nat),
      pt.context = some c → pt.prev = (w.heap t).prev →
      StagesOk env w c "response" ss fs →
      w.hook c (w.heap h)._id "response" = some (.user nl) →
      (pt.respond env fuel r w).world.log
        = w.log ++ relayEvents fs.reverse r ++ [.hook nl [fs.foldr StageSpec.apply r] true] ∧
      (pt.respond env fuel r w).completion ≠ .outOfFuel) ∧
    (∀ (gs : List StageSpec) (ph : PipePoint) (req : Value) (nt : Nat),
      ph.context = some c → ph.next = (w.heap h).next →
      StagesOk env w c "request" ss gs →
      w.hook c (w.heap t)._id "request" = some (.user nt) →
      (sendRequest env fuel ph req w).world.log
        = w.log ++ relayEvents gs req ++ [.hook nt [gs.foldl (fun x s => s.apply x) req] true] ∧
      (sendRequest env fuel ph req w).completion ≠ .outOfFuel) := by
  constructor
  · intro fs pt r nl hpt hprev hst hhook
    have hpp : PrevPath w.heap (w.heap t).prev (h :: ss).reverse :=
      prevPath_of_split (h :: (ss ++ [t])) (h :: ss) [] t h hl (by simp) rfl hhead
    rw [List.reverse_cons] at hpp
    have hfp := flowPath_response _ _ hpp
    have key := relay env c h nl ss.reverse fs.reverse fuel pt
      { type := "response", flow := Types.RESPONSE, ref := r, context := some c } w
      (show "response" ≠ "context" by decide) (show "response" ≠ "error" by decide)
      (show "response" ≠ "response:data" by decide)
      (show "response" ≠ "request:data" by decide) rfl rfl
      (by
        have hn : nbr Types.RESPONSE pt = pt.prev := by
          simp [nbr, Types.RESPONSE, Types.REQUEST]
        show FlowPath w.heap Types.RESPONSE (nbr Types.RESPONSE pt) _
        rw [hn, hprev]; exact hfp)
      (stagesOk_reverse env w c "response" ss fs hst) hhook (by simpa using hfuel)
    rw [relayPayload_reverse] at key
    have hsend : pt.send env fuel { type := "response", flow := Types.RESPONSE, ref := r } w
        = sendWith (process env fuel) pt
            { type := "response", flow := Types.RESPONSE, ref := r, context := some c } w :=
      sendWith_attach _ pt _ w c rfl hpt
    unfold PipePoint.respond
    have hb := bind_ret
      (pt.send env fuel { type := "response", flow := Types.RESPONSE, ref := r } w) pt
    rw [hb.1]
    refine ⟨?_, hb.2 ?_⟩
    · rw [hsend]; exact key.1
    · rw [hsend]; exact key.2
  · intro gs ph req nt hph hnext hst hhook
    have hnp : NextPath w.heap (w.heap h).next (ss ++ [t]) :=
      nextPath_of_linked (ss ++ [t]) h hl (by
        intro z hz
        rw [getLast?_cons_snoc] at hz
        cases hz; exact hterm)
    have hfp := flowPath_request _ _ hnp
    have key := relay env c t nt ss gs fuel ph
      { type := "request", flow := Types.REQUEST, ref := req, context := some c } w
      (show "request" ≠ "context" by decide) (show "request" ≠ "error" by decide)
      (show "request" ≠ "response:data" by decide)
      (show "request" ≠ "request:data" by decide) rfl rfl
      (by
        have hn : nbr Types.REQUEST ph = ph.next := by simp [nbr]
        show FlowPath w.heap Types.REQUEST (nbr Types.REQUEST ph) _
        rw [hn, hnext]; exact hfp)
      hst hhook hfuel
    rw [relayPayload_foldl] at key
    have hsend : sendRequest env fuel ph req w
        = sendWith (process env fuel) ph
            { type := "request", flow := Types.REQUEST, ref := req, context := some c } w :=
      sendWith_attach _ ph _ w c rfl hph
    rw [hsend]
    exact key

/-- Witness of C11: the scenario of the specification.  The request `"ping"` reaches the hook
of the transport unchanged, and the response `"ok"` reaches the hook of the caller as
`"OK"`. -/
theorem C11_hooks_compose_witness :
    (PipePoint.respond pingEnv 4 { pingWorld.heap 0 with context := some 0 } (.str "ok")
        pingWorld).world.log
      = pingWorld.log ++ [.hook 12 [.str "ok"] true, .hook 20 [.str "OK"] true] ∧
    (sendRequest pingEnv 4 { pingWorld.heap 3 with context := some 0 } (.str "ping")
        pingWorld).world.log
      = pingWorld.log ++ [.hook 11 [.str "ping"] true, .hook 19 [.str "ping"] true] :=
  ⟨((C11_hooks_compose pingEnv 0 3 0 [2, 1] pingWorld 4
      ⟨by decide, by decide, by decide, by decide, by decide, by decide, trivial⟩
      (by decide) (by decide) (by decide)).1 [none, some (12, upper)]
      { pingWorld.heap 0 with context := some 0 } (.str "ok") 20 rfl rfl
      ⟨by decide, by decide, fun _ => rfl, trivial⟩ (by decide)).1,
   ((C11_hooks_compose pingEnv 0 3 0 [2, 1] pingWorld 4
      ⟨by decide, by decide, by decide, by decide, by decide, by decide, trivial⟩
      (by decide) (by decide) (by decide)).2 [some (11, id), none]
      { pingWorld.heap 3 with context := some 0 } (.str "ping") 19 rfl rfl
      ⟨by decide, fun _ => rfl, by decide, trivial⟩ (by decide)).1⟩

/-! ## C12: a stage with only an end hook -/

theorem handlers_base (p : PipePoint) (ctx : Option Nat) (w : World) :
    StreamBase w (p.handlers ctx w).world ∧ (p.handlers ctx w).world.log = w.log ∧
    (p.handlers ctx w).world.pending = w.pending := by
  refine ⟨⟨?_, ?_, fun c id t => handlers_hook p ctx w c id t⟩, ?_, ?_⟩ <;>
  · unfold PipePoint.handlers
    split <;> rfl

/-- A data message with a chunk, at a point that has no hook for data messages: it is sent
on unchanged and no hook is called. -/
theorem stage_chunk (env : Env) (f : Nat) (s : PipePoint) (m : Message) (v : World) (c : Nat)
    (hm : m.context = some c) (ht : m.type = "request:data") (hr : m.ref ≠ .undefined)
    (hh : v.hook c s._id "request:data" = none) :
    process env (f + 1) s m v = sendWith (process env f) s m (s.handlers (some c) v).world := by
  rw [process_nohook env f s m v c hm (by rw [ht]; decide) (by rw [ht]; exact hh),
    endEventOrSend_pass _ _ _ _ _ _ (Or.inl (by simp [isEndOfStream, hr]))]

/-- The end-of-stream message at a point that has a `request:end` hook and no hook for data
messages: the end hook is called with a resume callback, which it keeps; nothing is sent. -/
theorem stage_end (env : Env) (f : Nat) (s : PipePoint) (m : Message) (v : World) (c ne : Nat)
    (hm : m.context = some c) (ht : m.type = "request:data") (hf : m.flow = Types.REQUEST)
    (hr : m.ref = .undefined) (hh : v.hook c s._id "request:data" = none)
    (he : v.hook c s._id "request:end" = some (.user ne))
    (hs : env.hook ne [] true = .suspend) :
    process env (f + 1) s m v
      = ⟨{ (s.handlers (some c) v).world with
            log := (s.handlers (some c) v).world.log ++ [.hook ne [] true]
            pending := (s.handlers (some c) v).world.pending ++ [⟨s, m, c, true⟩] }, .ok ()⟩ := by
  rw [process_nohook env f s m v c hm (by rw [ht]; decide) (by rw [ht]; exact hh)]
  unfold endEventOrSend
  simp [ht, hr, hf, handlers_hook, he, callHook, hookOutcome, hs]

/-- A data message at a point whose hook for data messages keeps the completion callback. -/
theorem data_kept (env : Env) (f : Nat) (t : PipePoint) (m : Message) (v : World) (c nd : Nat)
    (hm : m.context = some c) (ht : m.type = "request:data") (hsync : m.sync = false)
    (hh : v.hook c t._id "request:data" = some (.user nd))
    (hs : env.hook nd [m.ref] true = .suspend) :
    process env (f + 1) t m v
      = ⟨{ (t.handlers (some c) v).world with
            log := (t.handlers (some c) v).world.log ++ [.hook nd [m.ref] true]
            pending := (t.handlers (some c) v).world.pending ++ [⟨t, m, c, false⟩] }, .ok ()⟩ := by
  rw [process_user env f t m v c hm (by rw [ht]; decide) nd (by rw [ht]; exact hh) hsync]
  unfold afterHook
  simp [hookOutcome, hs, hsync]

theorem streamBase_seq {a b c : World} (h1 : StreamBase a b) (h2 : StreamBase b c) :
    StreamBase a c :=
  ⟨h2.1.trans h1.1, h2.2.1.trans h1.2.1, fun x id t => (h2.2.2 x id t).trans (h1.2.2 x id t)⟩

/-- A chunk sent from the channel `p` of a writer, whose forward neighbor `sr` has no hook for
data messages and is followed by `tr`, whose hook for data messages keeps its callback. -/
theorem chunk_sent (env : Env) (c sr tr nd : Nat) (p : PipePoint) (f : Nat) (w0 w : World)
    (m : Message) (hp : p.context = some c) (hnext : p.next = some sr)
    (hs : (w0.heap sr).next = some tr)
    (hdata : w0.hook c (w0.heap sr)._id "request:data" = none)
    (hnd : w0.hook c (w0.heap tr)._id "request:data" = some (.user nd))
    (hsusp : env.hook nd [m.ref] true = .suspend)
    (hb : StreamBase w0 w) (hmc : m.context = none) (hmt : m.type = "request:data")
    (hmf : m.flow = Types.REQUEST) (hsync : m.sync = false) (hv : m.ref ≠ .undefined) :
    (p.send env (f + 2) m w).completion = .ok () ∧
    (p.send env (f + 2) m w).world.log = w.log ++ [.hook nd [m.ref] true] ∧
    StreamBase w0 (p.send env (f + 2) m w).world := by
  obtain ⟨hheap, hsc, hhook⟩ := hb
  have h1 := handlers_base (w.heap sr) (some c) w
  generalize hwa : ((w.heap sr).handlers (some c) w).world = wa at h1
  have h2 := handlers_base (wa.heap tr) (some c) wa
  have hstep : p.send env (f + 2) m w
      = ⟨{ ((wa.heap tr).handlers (some c) wa).world with
            log := ((wa.heap tr).handlers (some c) wa).world.log ++ [.hook nd [m.ref] true]
            pending := ((wa.heap tr).handlers (some c) wa).world.pending
              ++ [⟨wa.heap tr, { m with context := some c }, c, false⟩] }, .ok ()⟩ := by
    unfold PipePoint.send
    rw [sendWith_attach _ p m w c hmc hp,
      sendWith_step _ p { m with context := some c } w c sr rfl (by simp [nbr, hmf, hnext]),
      stage_chunk env (f + 1) (w.heap sr) { m with context := some c } w c rfl hmt hv (by rw [hhook, hheap]; exact hdata),
      hwa,
      sendWith_step _ _ { m with context := some c } wa c tr rfl (by
        show nbr m.flow (w.heap sr) = some tr
        simp [nbr, hmf, hheap, hs]),
      data_kept env f (wa.heap tr) { m with context := some c } wa c nd rfl hmt hsync (by
        rw [h1.1.2.2, hhook, h1.1.1, hheap]; exact hnd) hsusp]
  rw [hstep]
  refine ⟨rfl, ?_, ?_⟩
  · show ((wa.heap tr).handlers (some c) wa).world.log ++ _ = _
    rw [h2.2.1, h1.2.1]
  · exact streamBase_seq ⟨hheap, hsc, hhook⟩ (streamBase_seq h1.1 h2.1)

theorem write_chunk (env : Env) (c sr tr nd : Nat) (p : PipePoint) (f : Nat) (w0 w : World)
    (v : Value) (hp : p.context = some c) (hnext : p.next = some sr)
    (hs : (w0.heap sr).next = some tr)
    (hdata : w0.hook c (w0.heap sr)._id "request:data" = none)
    (hnd : w0.hook c (w0.heap tr)._id "request:data" = some (.user nd))
    (hsusp : env.hook nd [v] true = .suspend)
    (hb : StreamBase w0 w) (hopen : w.streamClosed p.oid = false) (hv : v ≠ .undefined) :
    ((createWriteStream p Types.REQUEST).write env (f + 2) v w).completion
      = .ok (createWriteStream p Types.REQUEST) ∧
    ((createWriteStream p Types.REQUEST).write env (f + 2) v w).world.log
      = w.log ++ [.hook nd [v] true] ∧
    StreamBase w0 ((createWriteStream p Types.REQUEST).write env (f + 2) v w).world := by
  have key := chunk_sent env c sr tr nd p f w0 w
    { type := "request:data", flow := Types.REQUEST, ref := v } hp hnext hs hdata hnd hsusp hb
    rfl rfl rfl rfl hv
  have hw : (createWriteStream p Types.REQUEST)._write env (f + 2) v w
      = p.send env (f + 2) { type := "request:data", flow := Types.REQUEST, ref := v } w := by
    simp [WriteStream._write, createWriteStream, hopen, hv]
  unfold WriteStream.write
  rw [hw, bind_ok _ _ () key.1]
  exact ⟨rfl, key.2.1, key.2.2⟩

theorem writeAll_chunks (env : Env) (c sr tr nd : Nat) (p : PipePoint) (f : Nat) (w0 : World)
    (hp : p.context = some c) (hnext : p.next = some sr)
    (hs : (w0.heap sr).next = some tr)
    (hdata : w0.hook c (w0.heap sr)._id "request:data" = none)
    (hnd : w0.hook c (w0.heap tr)._id "request:data" = some (.user nd))
    (hsusp : ∀ v, env.hook nd [v] true = .suspend) (hopen : w0.streamClosed p.oid = false) :
    ∀ (chunks : List Value) (w : World), StreamBase w0 w → (∀ v ∈ chunks, v ≠ .undefined) →
      (writeAll env (f + 2) (createWriteStream p Types.REQUEST) chunks w).completion = .ok () ∧
      (writeAll env (f + 2) (createWriteStream p Types.REQUEST) chunks w).world.log
        = w.log ++ chunks.map (fun v => .hook nd [v] true) ∧
      StreamBase w0 (writeAll env (f + 2) (createWriteStream p Types.REQUEST) chunks w).world
  | [], w, hb, _ => ⟨rfl, by simp [writeAll], hb⟩
  | v :: rest, w, hb, hch => by
    have h1 := write_chunk env c sr tr nd p f w0 w v hp hnext hs hdata hnd (hsusp v) hb
      (by rw [hb.2.1]; exact hopen) (hch v (by simp))
    have ih := writeAll_chunks env c sr tr nd p f w0 hp hnext hs hdata hnd hsusp hopen rest _
      h1.2.2 (fun x hx => hch x (by simp [hx]))
    rw [writeAll, bind_ok _ _ _ h1.1]
    refine ⟨ih.1, ?_, ih.2.2⟩
    rw [ih.2.1, h1.2.1]
    simp

/-- The end-of-stream message sent from the channel `p`, whose forward neighbor `sr` has a
`request:end` hook that keeps its resume callback, and no hook for data messages. -/
theorem end_sent (env : Env) (c sr ne : Nat) (p : PipePoint) (f : Nat) (w0 w : World)
    (m : Message) (hp : p.context = some c) (hnext : p.next = some sr)
    (hdata : w0.hook c (w0.heap sr)._id "request:data" = none)
    (hend : w0.hook c (w0.heap sr)._id "request:end" = some (.user ne))
    (hkeep : env.hook ne [] true = .suspend)
    (hheap : w.heap = w0.heap) (hhook : ∀ x id t, w.hook x id t = w0.hook x id t)
    (hmc : m.context = none) (hmt : m.type = "request:data")
    (hmf : m.flow = Types.REQUEST) (hv : m.ref = .undefined) :
    (p.send env (f + 1) m w).completion = .ok () ∧
    (p.send env (f + 1) m w).world.log = w.log ++ [.hook ne [] true] ∧
    (p.send env (f + 1) m w).world.pending
      = w.pending ++ [⟨w0.heap sr, { m with context := some c }, c, true⟩] ∧
    (p.send env (f + 1) m w).world.heap = w0.heap ∧
    ∀ x id t, (p.send env (f + 1) m w).world.hook x id t = w0.hook x id t := by
  have h1 := handlers_base (w0.heap sr) (some c) w
  have hstep : p.send env (f + 1) m w
      = ⟨{ ((w0.heap sr).handlers (some c) w).world with
            log := ((w0.heap sr).handlers (some c) w).world.log ++ [.hook ne [] true]
            pending := ((w0.heap sr).handlers (some c) w).world.pending
              ++ [⟨w0.heap sr, { m with context := some c }, c, true⟩] }, .ok ()⟩ := by
    unfold PipePoint.send
    rw [sendWith_attach _ p m w c hmc hp,
      sendWith_step _ p { m with context := some c } w c sr rfl (by simp [nbr, hmf, hnext]),
      hheap,
      stage_end env f (w0.heap sr) { m with context := some c } w c ne rfl hmt hmf hv
        (by rw [hhook]; exact hdata) (by rw [hhook]; exact hend) hkeep]
  rw [hstep]
  refine ⟨rfl, ?_, ?_, ?_, ?_⟩
  · show ((w0.heap sr).handlers (some c) w).world.log ++ _ = _
    rw [h1.2.1]
  · show ((w0.heap sr).handlers (some c) w).world.pending ++ _ = _
    rw [h1.2.2]
  · exact h1.1.1.trans hheap
  · intro x id t
    exact (h1.1.2.2 x id t).trans (hhook x id t)

/-- The resume callback of the end hook of `sr`: the message goes to the forward neighbor
`tr`, whose hook for data messages is called with its payload. -/
theorem end_resumed (env : Env) (c sr tr nd : Nat) (f : Nat) (w0 w : World) (m : Message)
    (arg : Option Value) (hs : (w0.heap sr).next = some tr)
    (hnd : w0.hook c (w0.heap tr)._id "request:data" = some (.user nd))
    (hsusp : env.hook nd [m.ref] true = .suspend)
    (hheap : w.heap = w0.heap) (hhook : ∀ x id t, w.hook x id t = w0.hook x id t)
    (hmc : m.context = some c) (hmt : m.type = "request:data")
    (hmf : m.flow = Types.REQUEST) (hsync : m.sync = false) :
    (resume env (f + 1) ⟨w0.heap sr, m, c, true⟩ arg w).world.log
      = w.log ++ [.hook nd [m.ref] true] := by
  have hres : resume env (f + 1) ⟨w0.heap sr, m, c, true⟩ arg w
      = sendWith (process env (f + 1)) (w0.heap sr) m w := rfl
  have h1 := handlers_base (w.heap tr) (some c) w
  rw [hres, sendWith_step _ _ m w c tr hmc (by simp [nbr, hmf, hs]),
    data_kept env f (w.heap tr) m w c nd hmc hmt hsync
      (by rw [hhook, hheap]; exact hnd) hsusp]
  show ((w.heap tr).handlers (some c) w).world.log ++ _ = _
  rw [h1.2.1]

/-- C12: a stage `sr` that has a `request:end` hook `ne` and no `request:data` hook, next to the
channel `p` of a request stream writer and followed by the point `tr`.  A data message with a
chunk that arrives at the stage is sent on to the forward neighbor as it is, with no hook
called; the end-of-stream message calls the end hook once and is not sent on; the resume
callback sends it on with the end-of-stream payload.  For the writer: after `write(c1)`, ...,
`write(cn)` the chunks have arrived at the hook of `tr` in write order, `end()` then calls the
end hook once and nothing else, and the resume callback delivers the end-of-stream payload to
the hook of `tr`. -/
theorem C12_end_hook_after_chunks (env : Env) (c sr tr ne nd : Nat) (p : PipePoint) (f : Nat)
    (w : World) (chunks : List Value) (hp : p.context = some c) (hnext : p.next = some sr)
    (hs : (w.heap sr).next = some tr)
    (hdata : w.hook c (w.heap sr)._id "request:data" = none)
    (hend : w.hook c (w.heap sr)._id "request:end" = some (.user ne))
    (hnd : w.hook c (w.heap tr)._id "request:data" = some (.user nd))
    (hkeep : env.hook ne [] true = .suspend) (hsusp : ∀ v, env.hook nd [v] true = .suspend)
    (hopen : w.streamClosed p.oid = false) (hchunks : ∀ v ∈ chunks, v ≠ .undefined) :
    (∀ (g : Nat) (m : Message) (v : World), m.context = some c → m.type = "request:data" →
      v.hook c (w.heap sr)._id "request:data" = none →
      (m.ref ≠ .undefined →
        process env (g + 1) (w.heap sr) m v
          = sendWith (process env g) (w.heap sr) m ((w.heap sr).handlers (some c) v).world ∧
        ((w.heap sr).handlers (some c) v).world.log = v.log) ∧
      (m.ref = .undefined → m.flow = Types.REQUEST →
        v.hook c (w.heap sr)._id "request:end" = some (.user ne) →
        (process env (g + 1) (w.heap sr) m v).completion = .ok () ∧
        (process env (g + 1) (w.heap sr) m v).world.log = v.log ++ [.hook ne [] true] ∧
        (process env (g + 1) (w.heap sr) m v).world.pending
          = v.pending ++ [⟨w.heap sr, m, c, true⟩] ∧
        ∀ (arg : Option Value) (v1 : World),
          resume env g ⟨w.heap sr, m, c, true⟩ arg v1
            = sendWith (process env g) (w.heap sr) m v1)) ∧
    (let st := createWriteStream p Types.REQUEST
     let r1 := writeAll env (f + 2) st chunks w
     let r2 := st.end_ env (f + 2) r1.world
     let k : Continuation :=
       ⟨w.heap sr, { type := "request:data", flow := Types.REQUEST, ref := .undefined,
                     context := some c }, c, true⟩
     r1.completion = .ok () ∧
     r1.world.log = w.log ++ chunks.map (fun v => .hook nd [v] true) ∧
     r2.completion = .ok p ∧
     r2.world.log = r1.world.log ++ [.hook ne [] true] ∧
     r2.world.pending = r1.world.pending ++ [k] ∧
     ∀ arg : Option Value,
       (resume env (f + 2) k arg r2.world).world.log
         = r2.world.log ++ [.hook nd [.undefined] true]) := by
  constructor
  · intro g m v hm ht hno
    constructor
    · intro hr
      exact ⟨stage_chunk env g (w.heap sr) m v c hm ht hr hno,
        (handlers_base (w.heap sr) (some c) v).2.1⟩
    · intro hr hf he
      have hb := handlers_base (w.heap sr) (some c) v
      rw [stage_end env g (w.heap sr) m v c ne hm ht hf hr hno he hkeep]
      refine ⟨rfl, ?_, ?_, ?_⟩
      · show ((w.heap sr).handlers (some c) v).world.log ++ _ = _
        rw [hb.2.1]
      · show ((w.heap sr).handlers (some c) v).world.pending ++ _ = _
        rw [hb.2.2]
      · intro arg v1
        rfl
  · have h1 := writeAll_chunks env c sr tr nd p f w hp hnext hs hdata hnd hsusp hopen chunks w
      ⟨rfl, rfl, fun _ _ _ => rfl⟩ hchunks
    generalize hw1 : (writeAll env (f + 2) (createWriteStream p Types.REQUEST) chunks w).world
      = w1 at h1
    obtain ⟨hok, hlog, hheap, hsc, hhook⟩ := h1
    simp only
    rw [hw1]
    have hclosed : w1.streamClosed p.oid = false := by rw [hsc]; exact hopen
    have hwr : (createWriteStream p Types.REQUEST)._write env (f + 2) .undefined w1
        = p.send env (f + 2)
            { type := "request:data", flow := Types.REQUEST, ref := .undefined }
            { w1 with streamClosed := fun k => if k = p.oid then true else w1.streamClosed k } := by
      unfold WriteStream._write createWriteStream
      simp only [hclosed, Bool.false_eq_true, if_false, if_true]
    have h2 := end_sent env c sr ne p (f + 1) w
      { w1 with streamClosed := fun k => if k = p.oid then true else w1.streamClosed k }
      { type := "request:data", flow := Types.REQUEST, ref := .undefined } hp hnext hdata hend
      hkeep hheap hhook rfl rfl rfl rfl
    rw [← hwr] at h2
    generalize hr2 : (createWriteStream p Types.REQUEST)._write env (f + 2) .undefined w1 = r2
      at h2
    obtain ⟨e1, e2, e3, e4, e5⟩ := h2
    have hend2 : (createWriteStream p Types.REQUEST).end_ env (f + 2) w1 = ⟨r2.world, .ok p⟩ := by
      unfold WriteStream.end_
      rw [hr2, bind_ok _ _ () e1]
      rfl
    rw [hend2]
    refine ⟨hok, hlog, rfl, e2, e3, ?_⟩
    intro arg
    exact end_resumed env c sr tr nd (f + 1) w r2.world _ arg hs hnd (hsusp _) e4 e5 rfl rfl rfl
      rfl

/-- Witness of C12: the writer sends `"a"`, `"b"`, then `end()`. -/
theorem C12_end_hook_after_chunks_witness :
    let p : PipePoint := { streamWorld.heap 2 with context := some 0, oid := 3 }
    let st := createWriteStream p Types.REQUEST
    let r1 := writeAll streamEnv 2 st [.str "a", .str "b"] streamWorld
    let r2 := st.end_ streamEnv 2 r1.world
    let k : Continuation :=
      ⟨streamWorld.heap 1, { type := "request:data", flow := Types.REQUEST, ref := .undefined,
                             context := some 0 }, 0, true⟩
    r1.completion = .ok () ∧
    r1.world.log = streamWorld.log ++ [.hook 32 [.str "a"] true, .hook 32 [.str "b"] true] ∧
    r2.completion = .ok p ∧
    r2.world.log = r1.world.log ++ [.hook 31 [] true] ∧
    r2.world.pending = r1.world.pending ++ [k] ∧
    ∀ arg : Option Value,
      (resume streamEnv 2 k arg r2.world).world.log
        = r2.world.log ++ [.hook 32 [.undefined] true] :=
  (C12_end_hook_after_chunks streamEnv 0 1 0 31 32
    { streamWorld.heap 2 with context := some 0, oid := 3 } 0 streamWorld
    [.str "a", .str "b"] rfl (by decide) (by decide) (by decide) (by decide) (by decide) rfl
    (fun _ => rfl) (by decide) (by decide)).2

/-! ## C13: writing to a closed stream -/

theorem closedSame_kept : Kept (fun _ => True) ClosedSame where
  same := fun _ => rfl
  seq := fun h1 h2 => Eq.trans h2 h1
  ensure := by
    intro p ctx w
    unfold PipePoint.handlers
    split <;> rfl
  del := by
    intro w c id t
    unfold World.setHook
    simp only
    split
    · rfl
    · split <;> rfl
  logs := fun _ _ _ => rfl
  pend := fun _ _ => rfl

/-- Sending a message other than the context message changes no flag `_streamClosed`. -/
theorem send_closedSame (env : Env) (fuel : Nat) (p : PipePoint) (m : Message) (w : World)
    (hm : m.type ≠ "context") : ClosedSame w (p.send env fuel m w).world :=
  sendWith_kept (P := fun m => m.type ≠ "context") closedSame_kept (fun _ _ h => h)
    (fun p m w h => dispatch_kept closedSame_kept (fun _ _ _ => trivial) env fuel p m w h)
    p m hm w

theorem dataType_ne (flow : Nat) :
    (if flow = Types.REQUEST then "request:data" else "response:data") ≠ "context" := by
  split <;> decide

/-- The function `_write` on an open channel: the flag is set when the data is the
end-of-stream payload, and the message is sent. -/
theorem write_open (env : Env) (fuel : Nat) (s : WriteStream) (data : Value) (w : World)
    (hopen : w.streamClosed s.channel.oid = false) :
    s._write env fuel data w
      = s.channel.send env fuel
          { type := if s.flow = Types.REQUEST then "request:data" else "response:data",
            flow := s.flow, ref := data }
          (if data = .undefined then
            { w with streamClosed := fun k =>
                if k = s.channel.oid then true else w.streamClosed k }
           else w) := by
  unfold WriteStream._write
  simp only [hopen, Bool.false_eq_true, if_false]

theorem bind_ret_eq {α β : Type} (r : Res α) (b : β) :
    (r.bind fun _ w1 => ⟨w1, .ok b⟩).world = r.world ∧
    (∀ t, (r.bind fun _ w1 => ⟨w1, Completion.ok b⟩).completion = .thrown t ↔
      r.completion = .thrown t) := by
  unfold Res.bind
  split
  · rename_i h; exact ⟨rfl, fun t => by simp [h]⟩
  · rename_i h; exact ⟨rfl, fun t => by simp [h]⟩
  · rename_i h; exact ⟨rfl, fun t => by simp [h]⟩

/-- C13 amended: the flag `_streamClosed` belongs to the channel point of the writer.  On a
closed channel every `write(chunk)` and every `end()` raises the stream-closed error and
leaves the world as it is (no message is sent); after `end()` or `write(undefined)` the
channel is closed, whatever the dispatch did; and on an open channel `write(chunk)` with a
chunk other than `undefined` is the dispatch of the data message, leaves the channel open, and
raises only what the dispatch raises. -/
theorem C13_closed_channel_rejects_writes (env : Env) (fuel : Nat) (s : WriteStream) (w : World) :
    (w.streamClosed s.channel.oid = true →
      (∀ chunk, s.write env fuel chunk w = ⟨w, .thrown streamClosedError⟩) ∧
      s.end_ env fuel w = ⟨w, .thrown streamClosedError⟩) ∧
    (s.end_ env fuel w).world.streamClosed s.channel.oid = true ∧
    (s.write env fuel .undefined w).world.streamClosed s.channel.oid = true ∧
    (w.streamClosed s.channel.oid = false → ∀ chunk, chunk ≠ .undefined →
      (s.write env fuel chunk w).world
        = (s.channel.send env fuel
            { type := if s.flow = Types.REQUEST then "request:data" else "response:data",
              flow := s.flow, ref := chunk } w).world ∧
      (∀ t, (s.write env fuel chunk w).completion = .thrown t ↔
        (s.channel.send env fuel
            { type := if s.flow = Types.REQUEST then "request:data" else "response:data",
              flow := s.flow, ref := chunk } w).completion = .thrown t) ∧
      (s.write env fuel chunk w).world.streamClosed s.channel.oid = false) := by
  have hclosing : (s._write env fuel .undefined w).world.streamClosed s.channel.oid = true := by
    cases hc : w.streamClosed s.channel.oid with
    | true =>
      unfold WriteStream._write
      simp [hc]
    | false =>
      rw [write_open env fuel s .undefined w hc, if_pos rfl]
      have h := send_closedSame env fuel s.channel
        { type := if s.flow = Types.REQUEST then "request:data" else "response:data",
          flow := s.flow, ref := .undefined }
        { w with streamClosed := fun k => if k = s.channel.oid then true else w.streamClosed k }
        (dataType_ne s.flow)
      rw [h]
      simp
  refine ⟨?_, ?_, ?_, ?_⟩
  · intro hc
    have hw : ∀ chunk, s._write env fuel chunk w = ⟨w, .thrown streamClosedError⟩ := by
      intro chunk
      unfold WriteStream._write
      simp [hc, streamClosedError]
    constructor
    · intro chunk
      unfold WriteStream.write
      rw [hw]; rfl
    · unfold WriteStream.end_
      rw [hw]; rfl
  · unfold WriteStream.end_
    rw [(bind_ret_eq _ _).1]
    exact hclosing
  · unfold WriteStream.write
    rw [(bind_ret_eq _ _).1]
    exact hclosing
  · intro hopen chunk hne
    have hw := write_open env fuel s chunk w hopen
    rw [if_neg hne] at hw
    unfold WriteStream.write
    rw [hw]
    refine ⟨(bind_ret_eq _ _).1, (bind_ret_eq _ _).2, ?_⟩
    rw [(bind_ret_eq _ _).1, send_closedSame env fuel s.channel _ w (dataType_ne s.flow)]
    exact hopen

/-- Witness of C13 amended: the request stream writer of the bound head, open at first and
closed after `end()`. -/
theorem C13_closed_channel_rejects_writes_witness :
    let p : PipePoint := { streamWorld.heap 2 with context := some 0, oid := 3 }
    let s := createWriteStream p Types.REQUEST
    let w1 := (s.end_ streamEnv 2 streamWorld).world
    (s.write streamEnv 2 (.str "a") streamWorld).world.streamClosed p.oid = false ∧
    ((∀ chunk, s.write streamEnv 2 chunk w1 = ⟨w1, .thrown streamClosedError⟩) ∧
      s.end_ streamEnv 2 w1 = ⟨w1, .thrown streamClosedError⟩) :=
  ⟨((C13_closed_channel_rejects_writes streamEnv 2
      (createWriteStream { streamWorld.heap 2 with context := some 0, oid := 3 } Types.REQUEST)
      streamWorld).2.2.2 (by decide) (.str "a") (by decide)).2.2,
   (C13_closed_channel_rejects_writes streamEnv 2
      (createWriteStream { streamWorld.heap 2 with context := some 0, oid := 3 } Types.REQUEST)
      (WriteStream.end_ streamEnv 2 (createWriteStream
        { streamWorld.heap 2 with context := some 0, oid := 3 } Types.REQUEST)
        streamWorld).world).1 (by decide)⟩

/-- Counterexample of C13: a request stream writer and a response stream writer made on the
same context-bound point.  After `end()` on the first, `write("a")` on the second, on which
`end()` was never called, raises the stream-closed error.  And on a single writer,
`write(undefined)` closes the stream: `write("a")` after it raises the stream-closed error
without any call of `end()`. -/
theorem C13_counterexample :
    let p : PipePoint := { streamWorld.heap 2 with context := some 0, oid := 3 }
    let r1 := p.streamRequest streamEnv 4 (.str "r1") streamWorld
    let r2 := p.streamResponse streamEnv 4 (.str "r2") r1.world
    let s1 := createWriteStream p Types.REQUEST
    let s2 := createWriteStream p Types.RESPONSE
    (r1.completion = .ok s1 ∧ r2.completion = .ok s2 ∧ s1 ≠ s2 ∧
     (s1.end_ streamEnv 4 r2.world).completion = .ok p ∧
     (s2.write streamEnv 4 (.str "a") (s1.end_ streamEnv 4 r2.world).world).completion
       = .thrown streamClosedError) ∧
    ((s1.write streamEnv 4 .undefined r1.world).completion = .ok s1 ∧
     (s1.write streamEnv 4 (.str "a") (s1.write streamEnv 4 .undefined r1.world).world).completion
       = .thrown streamClosedError) := by
  decide

/-! ## C14, C15: resolution of the transport -/

theorem sameTransportCalls_kept :
    KeptAll (fun e => ∀ f p c, e ≠ .transport f p c) SameTransportCalls where
  same := fun _ => rfl
  seq := fun h1 h2 => Eq.trans h2 h1
  ensure := by
    intro p ctx w
    unfold PipePoint.handlers
    split <;> rfl
  del := by
    intro w c id t
    unfold World.setHook
    simp only
    split
    · rfl
    · split <;> rfl
  logs := by
    intro w e he
    cases e with
    | handler f p c => simp [SameTransportCalls, transportCalls]
    | transport f p c => exact absurd rfl (he f p c)
    | api f p c => simp [SameTransportCalls, transportCalls]
    | hook n a c => simp [SameTransportCalls, transportCalls]
  pend := fun _ _ => rfl
  add := by
    intro w c id t h
    unfold World.setHook
    simp only
    split
    · rfl
    · split <;> rfl
  alloc := fun _ _ _ _ => rfl

/-- The call of a caller-supplied function: it adds nothing to the log, keeps the static
chain, the builders and the context properties, and does not run out of fuel. -/
theorem callUser (env : Env) (fuel n : Nat) (point : PipePoint) (cfg : Value) (w : World) :
    (callFunction env (fuel + 1) (.fn (.user n)) point cfg w).world.log = w.log ∧
    Quiet w (callFunction env (fuel + 1) (.fn (.user n)) point cfg w).world ∧
    (callFunction env (fuel + 1) (.fn (.user n)) point cfg w).completion ≠ .outOfFuel := by
  have h : callFunction env (fuel + 1) (.fn (.user n)) point cfg w
      = runOps point (env.stage n point cfg (w.ctxOf point)) w := rfl
  rw [h]
  exact ⟨runOps_kept logSame_kept _ _ _, runOps_kept quiet_kept _ _ _, runOps_done _ _ _⟩

/-- The context message sent from `p` along the stages `rs`, whose handlers are
caller-supplied functions, to the point `t`: either the handler of a stage throws, after the
handlers of the stages before it and its own were called, or the message arrives at `t` after
the handlers of all stages were called.  No transport is called on the way. -/
theorem ctx_reach (env : Env) (c t : Nat) :
    ∀ (rs : List Nat) (fuel : Nat) (p : PipePoint) (m : Message) (w : World),
      m.type = "context" → m.flow = Types.REQUEST → m.context = some c →
      NextPath w.heap p.next (rs ++ [t]) →
      (∀ r ∈ rs, ∃ n, (w.heap r).handler = .fn (.user n)) →
      (∃ k e, k < rs.length ∧
        (sendWith (process env (fuel + rs.length)) p m w).completion = .thrown e ∧
        ThrownByUser env e ∧
        handlerCalls (sendWith (process env (fuel + rs.length)) p m w).world.log
          = handlerCalls w.log ++ (rs.take (k + 1)).map (boundCopy w.heap c) ∧
        transportCalls (sendWith (process env (fuel + rs.length)) p m w).world.log
          = transportCalls w.log) ∨
      (∃ w2, Quiet w w2 ∧
        handlerCalls w2.log = handlerCalls w.log ++ rs.map (boundCopy w.heap c) ∧
        transportCalls w2.log = transportCalls w.log ∧
        sendWith (process env (fuel + rs.length)) p m w = process env fuel (w.heap t) m w2)
  | [], fuel, p, m, w, _, hf, hc, hpath, _ => by
    right
    refine ⟨w, quiet_kept.same w, by simp, rfl, ?_⟩
    have hn : nbr m.flow p = some t := by simp [nbr, hf]; exact hpath.1
    exact sendWith_step _ p m w c t hc hn
  | r :: rs, fuel, p, m, w, ht, hf, hc, hpath, hst => by
    have hn : nbr m.flow p = some r := by simp [nbr, hf]; exact hpath.1
    have hrest : NextPath w.heap (w.heap r).next (rs ++ [t]) := hpath.2
    obtain ⟨n, hh⟩ := hst r (by simp)
    have hF : fuel + (r :: rs).length = (fuel + rs.length) + 1 := by simp; omega
    rw [hF, sendWith_step _ p m w c r hc hn, process_context env _ _ m w ht, hc, hh]
    generalize hpt : cloneOf (w.heap r) (some c) w = point
    generalize hw1 : afterClone (w.heap r) (some c) w = w1
    have hpn : point.next = (w.heap r).next := by rw [← hpt]; rfl
    have hq1 : Quiet w w1 := by
      rw [← hw1]
      exact ⟨⟨rfl, rfl, rfl, rfl⟩, fun _ => rfl⟩
    have hl1 : handlerCalls w1.log = handlerCalls w.log ++ [boundCopy w.heap c r] := by
      rw [← hw1]
      simp [handlerCalls, boundCopy, afterClone, cloneOf, List.filterMap_append]
    have ht1 : transportCalls w1.log = transportCalls w.log := by
      rw [← hw1]
      simp [transportCalls, afterClone, List.filterMap_append]
    obtain ⟨u1, u2, u3⟩ := callUser env (fuel + rs.length) n point (w.heap r).config w1
    cases hcomp : (callFunction env (fuel + rs.length + 1) (.fn (.user n)) point
        (w.heap r).config w1).completion with
    | ok u =>
      generalize hw2 : (callFunction env (fuel + rs.length + 1) (.fn (.user n)) point
        (w.heap r).config w1).world = w2 at u1 u2
      have hq2 : Quiet w w2 := quiet_kept.seq hq1 u2
      have hheap : w2.heap = w.heap := hq2.1.1
      rw [bind_ok _ _ u hcomp, hw2]
      rcases ctx_reach env c t rs fuel point m w2 ht hf hc
          (by rw [hpn, hheap]; exact hrest)
          (by intro x hx; rw [hheap]; exact hst x (by simp [hx])) with
        ⟨k, e, hk, he, hu, hlog, htr⟩ | ⟨w3, hq3, hlog, htr, heq⟩
      · left
        refine ⟨k + 1, e, by simp; omega, he, hu, ?_, ?_⟩
        · rw [hlog, u1, hl1, hheap]; simp
        · rw [htr, u1, ht1]
      · right
        refine ⟨w3, quiet_kept.seq hq2 hq3, ?_, ?_, ?_⟩
        · rw [hlog, u1, hl1, hheap]; simp
        · rw [htr, u1, ht1]
        · rw [heq, hheap]
    | thrown e =>
      left
      rw [bind_thrown _ _ e hcomp]
      refine ⟨0, e, by simp, rfl, ⟨n, point, (w.heap r).config, _, w1, hcomp⟩, ?_, ?_⟩
      · show handlerCalls (callFunction env (fuel + rs.length + 1) (.fn (.user n)) point
          (w.heap r).config w1).world.log = _
        rw [u1, hl1]; simp
      · show transportCalls (callFunction env (fuel + rs.length + 1) (.fn (.user n)) point
          (w.heap r).config w1).world.log = _
        rw [u1, ht1]
    | outOfFuel => exact absurd hcomp u3

/-- The body of `injectTransport` on a point bound to `c`: without a transport it throws;
with a transport whose function is the caller-supplied function `k`, it calls that function
with the point and the config of the transport. -/
theorem inject_call (env : Env) (f self : Nat) (point : PipePoint) (cfg : Value) (w : World)
    (c : Nat) (hp : point.context = some c) :
    ((resolveTransport w c self).truthy = false →
      callFunction env (f + 2) (.fn (.injectTransport self)) point cfg w
        = ⟨w, .thrown noTransport⟩) ∧
    ((resolveTransport w c self).truthy = true →
      ∀ k, (transportOf (resolveTransport w c self)).1 = .fn (.user k) →
      callFunction env (f + 2) (.fn (.injectTransport self)) point cfg w
        = runOps point
            (env.stage k point (transportOf (resolveTransport w c self)).2 (w.ctxOf point))
            { w with log := w.log ++ [.transport (transportOf (resolveTransport w c self)).1
                point (transportOf (resolveTransport w c self)).2] }) := by
  constructor
  · intro h
    unfold resolveTransport at h
    unfold callFunction
    simp [hp, h, noTransport]
  · intro h k hk
    unfold resolveTransport at h hk
    unfold transportOf at hk
    unfold resolveTransport transportOf callFunction
    simp only [hp, h, Bool.not_true, Bool.false_eq_true, if_false]
    split
    · rename_i h1
      rw [if_pos h1] at hk
      simp only at hk
      rw [hk]
      rfl
    · rename_i h1
      rw [if_neg h1] at hk
      simp only at hk
      rw [hk]
      rfl

/-- The context message at the transport-injection point `t`, the last point of the chain. -/
theorem inject_step (env : Env) (f self c : Nat) (t : PipePoint) (m : Message) (w : World)
    (hm : m.type = "context") (hc : m.context = some c)
    (hh : t.handler = .fn (.injectTransport self)) (hn : t.next = none)
    (hf : m.flow = Types.REQUEST) :
    ((resolveTransport w c self).truthy = false →
      process env (f + 2) t m w = ⟨afterClone t (some c) w, .thrown noTransport⟩) ∧
    ((resolveTransport w c self).truthy = true →
      ∀ k, (transportOf (resolveTransport w c self)).1 = .fn (.user k) →
      process env (f + 2) t m w
        = runOps (cloneOf t (some c) w)
            (env.stage k (cloneOf t (some c) w) (transportOf (resolveTransport w c self)).2
              (w.ctxs c))
            { afterClone t (some c) w with
              log := (afterClone t (some c) w).log ++
                [.transport (transportOf (resolveTransport w c self)).1 (cloneOf t (some c) w)
                  (transportOf (resolveTransport w c self)).2] }) := by
  have hres : resolveTransport (afterClone t (some c) w) c self = resolveTransport w c self :=
    rfl
  have hic := inject_call env f self (cloneOf t (some c) w) t.config (afterClone t (some c) w) c
    rfl
  rw [hres] at hic
  have hstop : ∀ v, sendWith (process env (f + 1)) (cloneOf t (some c) w) m v = ⟨v, .ok ()⟩ := by
    intro v
    exact sendWith_stop _ _ m v (by simp [nbr, hf, cloneOf, hn]) (by rw [hm]; decide)
  constructor
  · intro h
    rw [process_context env (f + 1) t m w hm, hc, hh, hic.1 h]
    rfl
  · intro h k hk
    rw [process_context env (f + 1) t m w hm, hc, hh, hic.2 h k hk]
    have hbind : ∀ r : Res Unit,
        (r.bind fun _ w2 => sendWith (process env (f + 1)) (cloneOf t (some c) w) m w2) = r := by
      intro r
      obtain ⟨rw_, rc⟩ := r
      cases rc with
      | ok u => simp [Res.bind, hstop]
      | thrown e => rfl
      | outOfFuel => rfl
    rw [hbind]
    rfl

theorem handlerCalls_afterClone (p : PipePoint) (c : Nat) (v : World) :
    handlerCalls (afterClone p (some c) v).log
      = handlerCalls v.log ++ [(p.handler, { p with context := some c, oid := 0 }, p.config)] := by
  simp [handlerCalls, afterClone, cloneOf, List.filterMap_append]

theorem transportCalls_afterClone (p : PipePoint) (c : Nat) (v : World) :
    transportCalls (afterClone p (some c) v).log = transportCalls v.log := by
  simp [transportCalls, afterClone, List.filterMap_append]

theorem nextPath_last {heap : Nat → PipePoint} (t : Nat) :
    ∀ (rs : List Nat) (x : Option Nat), NextPath heap x (rs ++ [t]) → (heap t).next = none
  | [], _, h => h.2
  | _ :: rs, _, h => nextPath_last t rs _ h.2

/-- The method `create` on the head `this` of a chain whose stages `rs` have caller-supplied
functions as handlers and whose last point `t` is the transport injection of the builder
`self`. -/
theorem create_inject (env : Env) (self t : Nat) (rs : List Nat) (f : Nat) (this : PipePoint)
    (context : Option Nat) (w : World) (hthis : this.context = none)
    (hpath : NextPath w.heap this.next (rs ++ [t]))
    (hst : ∀ r ∈ rs, ∃ n, (w.heap r).handler = .fn (.user n))
    (ht : (w.heap t).handler = .fn (.injectTransport self)) :
    let c := (orNewContext context w).1
    let tr := resolveTransport (orNewContext context w).2 c self
    let res := PipePoint.create env (f + 2 + rs.length) this context w
    (∃ k e, k < rs.length ∧ res.completion = .thrown e ∧ ThrownByUser env e ∧
      handlerCalls res.world.log
        = handlerCalls w.log ++ (rs.take (k + 1)).map (boundCopy w.heap c) ∧
      transportCalls res.world.log = transportCalls w.log) ∨
    ((tr.truthy = false →
        res.completion = .thrown noTransport ∧
        handlerCalls res.world.log
          = handlerCalls w.log ++ (rs ++ [t]).map (boundCopy w.heap c) ∧
        transportCalls res.world.log = transportCalls w.log) ∧
      (tr.truthy = true → ∀ k, (transportOf tr).1 = .fn (.user k) →
        handlerCalls res.world.log
          = handlerCalls w.log ++ (rs ++ [t]).map (boundCopy w.heap c) ∧
        transportCalls res.world.log
          = transportCalls w.log ++
              [((transportOf tr).1, { w.heap t with context := some c, oid := 0 },
                (transportOf tr).2)] ∧
        (res.completion = .ok { this with context := some c, oid := w.objCount } ∨
          ∃ e, res.completion = .thrown e ∧ ThrownByUser env e))) := by
  intro c tr res
  have htrd : tr = resolveTransport (orNewContext context w).2 c self := rfl
  have hresd : res = PipePoint.create env (f + 2 + rs.length) this context w := rfl
  clear_value tr res
  have hnt : (w.heap t).next = none := nextPath_last t rs _ hpath
  generalize hw1 : (orNewContext context w).2 = w1 at htrd
  have hq1 : StaticEq w w1 ∧ w1.log = w.log ∧ w1.objCount = w.objCount := by
    rw [← hw1]
    cases context <;> exact ⟨⟨rfl, rfl, rfl, rfl⟩, rfl, rfl⟩
  generalize hw4 : ({ w1.setCtx c { w1.ctxs c with points := none } with
      objCount := w1.objCount + 1,
      streamClosed := fun k =>
        if k = w1.objCount then w1.streamClosed this.oid else w1.streamClosed k } : World) = w4
  generalize hcp : ({ this with context := some c, oid := w1.objCount } : PipePoint) = cp
  have hcreate : res
      = (sendWith (process env (f + 2 + rs.length)) cp
          { type := "context", flow := Types.REQUEST, ref := .ctxRef c, context := some c }
          w4).bind fun _ w5 => ⟨w5, .ok cp⟩ := by
    rw [hresd]
    unfold PipePoint.create
    simp only [hthis, hw1]
    rw [← hw4, ← hcp]
    unfold PipePoint.send
    rw [sendWith_attach _ _ _ _ c rfl rfl]
    rfl
  have hheap4 : w4.heap = w.heap := by rw [← hw4]; exact hq1.1.1
  have hlog4 : w4.log = w.log := by rw [← hw4]; exact hq1.2.1
  have hfields4 : ∀ k, (w4.ctxs k).fields = (w1.ctxs k).fields := by
    intro k
    rw [← hw4]
    simp only [World.setCtx]
    split
    · rename_i h; rw [h]
    · rfl
  have hbuild4 : w4.builders = w.builders := by rw [← hw4]; exact hq1.1.2.2.1
  have hcpx : cp = { this with context := some c, oid := w.objCount } := by
    rw [← hcp, hq1.2.2]
  rcases ctx_reach env c t rs (f + 2) cp
      { type := "context", flow := Types.REQUEST, ref := .ctxRef c, context := some c } w4
      rfl rfl rfl (by rw [hheap4, ← hcp]; exact hpath)
      (by intro r hr; rw [hheap4]; exact hst r hr) with
    ⟨k, e, hk, he, hu, hlog, htr⟩ | ⟨w5, hq5, hlog, htr, heq⟩
  · left
    refine ⟨k, e, hk, ?_, hu, ?_, ?_⟩
    · rw [hcreate, bind_thrown _ _ e he]
    · rw [hcreate, bind_thrown _ _ e he, ← hlog4, ← hheap4]; exact hlog
    · rw [hcreate, bind_thrown _ _ e he, ← hlog4]; exact htr
  · right
    have hres5 : resolveTransport w5 c self = tr := by
      rw [htrd]
      unfold resolveTransport
      rw [hq5.2 c, hfields4 c, hq5.1.2.2.1, hbuild4, hq1.1.2.2.1]
    have hstep := inject_step env f self c (w4.heap t)
      { type := "context", flow := Types.REQUEST, ref := .ctxRef c, context := some c } w5
      rfl rfl (by rw [hheap4]; exact ht) (by rw [hheap4]; exact hnt) rfl
    rw [hres5] at hstep
    have hl5 : handlerCalls (afterClone (w4.heap t) (some c) w5).log
        = handlerCalls w.log ++ (rs ++ [t]).map (boundCopy w.heap c) := by
      rw [handlerCalls_afterClone, hlog, hlog4, hheap4]
      simp [boundCopy]
    have ht5 : transportCalls (afterClone (w4.heap t) (some c) w5).log = transportCalls w.log := by
      rw [transportCalls_afterClone, htr, hlog4]
    constructor
    · intro htruthy
      have hs := hstep.1 htruthy
      have hres : res = ⟨afterClone (w4.heap t) (some c) w5, .thrown noTransport⟩ := by
        rw [hcreate, heq, hs]; rfl
      rw [hres]
      exact ⟨rfl, hl5, ht5⟩
    · intro htruthy k hk
      have hs := hstep.2 htruthy k hk
      generalize hops : env.stage k (cloneOf (w4.heap t) (some c) w5) (transportOf tr).2
        (w5.ctxs c) = ops at hs
      generalize hw6 : ({ afterClone (w4.heap t) (some c) w5 with
          log := (afterClone (w4.heap t) (some c) w5).log ++
            [.transport (transportOf tr).1 (cloneOf (w4.heap t) (some c) w5)
              (transportOf tr).2] } : World) = w6 at hs
      have hl6 : handlerCalls w6.log
          = handlerCalls w.log ++ (rs ++ [t]).map (boundCopy w.heap c) := by
        rw [← hw6, ← hl5]
        simp [handlerCalls, List.filterMap_append]
      have ht6 : transportCalls w6.log = transportCalls w.log ++
          [((transportOf tr).1, { w.heap t with context := some c, oid := 0 },
            (transportOf tr).2)] := by
        rw [← hw6, ← ht5]
        simp [transportCalls, List.filterMap_append, cloneOf, hheap4]
      have hlogr : (runOps (cloneOf (w4.heap t) (some c) w5) ops w6).world.log = w6.log :=
        runOps_kept logSame_kept _ _ _
      have hres : res = (runOps (cloneOf (w4.heap t) (some c) w5) ops w6).bind
          fun _ w7 => ⟨w7, .ok cp⟩ := by
        rw [hcreate, heq, hs]
      have hb := bind_ret_eq (runOps (cloneOf (w4.heap t) (some c) w5) ops w6) cp
      rw [hres, hb.1, hlogr]
      refine ⟨hl6, ht6, ?_⟩
      cases hcomp : (runOps (cloneOf (w4.heap t) (some c) w5) ops w6).completion with
      | ok u =>
        left
        rw [bind_ok _ _ u hcomp, hcpx]
      | thrown e =>
        right
        refine ⟨e, by rw [bind_thrown _ _ e hcomp], ?_⟩
        rw [← hops] at hcomp
        exact ⟨k, _, _, _, w6, hcomp⟩
      | outOfFuel => exact absurd hcomp (runOps_done _ _ _)

/-- The method `create` of a builder without a cached pipe and without an API wrapper: the
pipe is built, cached, and bound to the context. -/
theorem Trooba_create_eq (env : Env) (fuel self : Nat) (context : Option Nat) (w : World)
    (hp : (w.builders self)._pipe = none) (hapi : (w.builders self)._api.truthy = false) :
    Trooba.create env fuel self context w
      = (PipePoint.create env fuel
          ((buildPipe (w.builders self)._handlers w.heapSize
            (createPipePoint (.fn (.injectTransport self)) none w).2).2.heap
            (buildPipe (w.builders self)._handlers w.heapSize
              (createPipePoint (.fn (.injectTransport self)) none w).2).1)
          context
          ((buildPipe (w.builders self)._handlers w.heapSize
              (createPipePoint (.fn (.injectTransport self)) none w).2).2.setBuilder self
            { (buildPipe (w.builders self)._handlers w.heapSize
                (createPipePoint (.fn (.injectTransport self)) none w).2).2.builders self with
              _pipe := some (buildPipe (w.builders self)._handlers w.heapSize
                (createPipePoint (.fn (.injectTransport self)) none w).2).1 })).bind
          fun p w3 => ⟨w3, .ok (.point p)⟩ := by
  unfold Trooba.create
  simp only [hp, createPipePoint_fst, hapi]
  rfl

theorem bind_point (r : Res PipePoint) :
    (r.bind fun p w3 => ⟨w3, Completion.ok (Created.point p)⟩).world = r.world ∧
    (∀ e, r.completion = .thrown e →
      (r.bind fun p w3 => ⟨w3, Completion.ok (Created.point p)⟩).completion = .thrown e) ∧
    (∀ p, r.completion = .ok p →
      (r.bind fun p w3 => ⟨w3, Completion.ok (Created.point p)⟩).completion
        = .ok (Created.point p)) := by
  obtain ⟨v, rc⟩ := r
  cases rc <;> simp [Res.bind]

/-- The method `create` of a builder without a cached pipe and without an API wrapper, whose
stages are caller-supplied functions.  Either a stage function throws, after the functions of
the stages before it and its own were called and before any transport is called; or all stage
functions and the transport injection are called, and then: without a transport the injection
throws, and with a transport whose function is caller-supplied, that function is called once
with the bound injection point and the config of the transport. -/
theorem builder_inject (env : Env) (f self : Nat) (context : Option Nat) (w : World)
    (hpipe : (w.builders self)._pipe = none) (hapi : (w.builders self)._api.truthy = false)
    (hstages : ∀ h ∈ (w.builders self)._handlers, ∃ n, (stageOf h).1 = .fn (.user n)) :
    (∃ k e, k < (w.builders self)._handlers.length ∧
      (Trooba.create env (f + 2 + (w.builders self)._handlers.length) self context
        w).completion = .thrown e ∧
      ThrownByUser env e ∧
      handlerFns (Trooba.create env (f + 2 + (w.builders self)._handlers.length) self context
          w).world.log
        = handlerFns w.log ++ (stageFns (w.builders self)._handlers).take (k + 1) ∧
      transportCalls (Trooba.create env (f + 2 + (w.builders self)._handlers.length) self
          context w).world.log = transportCalls w.log) ∨
    (((transportFor context w self).truthy = false →
        (Trooba.create env (f + 2 + (w.builders self)._handlers.length) self context
          w).completion = .thrown noTransport ∧
        handlerFns (Trooba.create env (f + 2 + (w.builders self)._handlers.length) self
            context w).world.log
          = handlerFns w.log ++ stageFns (w.builders self)._handlers
              ++ [.fn (.injectTransport self)] ∧
        transportCalls (Trooba.create env (f + 2 + (w.builders self)._handlers.length) self
            context w).world.log = transportCalls w.log) ∧
      ((transportFor context w self).truthy = true →
        ∀ k, (transportOf (transportFor context w self)).1 = .fn (.user k) →
        handlerFns (Trooba.create env (f + 2 + (w.builders self)._handlers.length) self
            context w).world.log
          = handlerFns w.log ++ stageFns (w.builders self)._handlers
              ++ [.fn (.injectTransport self)] ∧
        transportCalls (Trooba.create env (f + 2 + (w.builders self)._handlers.length) self
            context w).world.log
          = transportCalls w.log ++
              [((transportOf (transportFor context w self)).1,
                { (Trooba.create env (f + 2 + (w.builders self)._handlers.length) self
                    context w).world.heap w.heapSize with
                  context := some (orNewContext context w).1, oid := 0 },
                (transportOf (transportFor context w self)).2)] ∧
        ((∃ p, (Trooba.create env (f + 2 + (w.builders self)._handlers.length) self context
              w).completion = .ok (.point p) ∧ p.context = some (orNewContext context w).1) ∨
          ∃ e, (Trooba.create env (f + 2 + (w.builders self)._handlers.length) self context
              w).completion = .thrown e ∧ ThrownByUser env e))) := by
  have hheapF := (Trooba_create_static env (f + 2 + (w.builders self)._handlers.length) self
    context w hpipe).1
  simp only at hheapF
  rw [Trooba_create_eq env _ self context w hpipe hapi] at hheapF ⊢
  have hsz := createPipePoint_heapSize (.fn (.injectTransport self)) none w
  have hnew := createPipePoint_heap_new (.fn (.injectTransport self)) none w (by simp)
  have hsame := (createPipePoint_same (.fn (.injectTransport self)) none w).1
  have hb := buildPipe_chain (w.builders self)._handlers w.heapSize
    (createPipePoint (.fn (.injectTransport self)) none w).2 (by rw [hsz]; exact Nat.lt_succ_self _)
  simp only [hsz] at hb
  generalize hwa : (createPipePoint (.fn (.injectTransport self)) none w).2 = wa
    at hheapF hnew hsame hb ⊢
  generalize hhs : (w.builders self)._handlers = hs at hheapF hb hstages ⊢
  generalize hrb : buildPipe hs w.heapSize wa = rb at hheapF hb ⊢
  obtain ⟨b1, b2, b3, -, b5, -, b7, -, -, b10⟩ := hb
  generalize hw2 : rb.2.setBuilder self { rb.2.builders self with _pipe := some rb.1 } = w2
    at hheapF ⊢
  have hheap2 : w2.heap = rb.2.heap := by rw [← hw2]; rfl
  have hlog2 : w2.log = w.log := by
    rw [← hw2]; exact b10.2.2.2.2.1.trans hsame.2.2.2.2.1
  have hctx2 : w2.ctxs = w.ctxs := by rw [← hw2]; exact b10.1.trans hsame.1
  have hcc2 : w2.ctxCount = w.ctxCount := by rw [← hw2]; exact b10.2.1.trans hsame.2.1
  have htr2 : (w2.builders self)._transport = (w.builders self)._transport := by
    rw [← hw2]
    simp only [World.setBuilder, if_true]
    rw [b10.2.2.1, hsame.2.2.1]
  have hc2 : (orNewContext context w2).1 = (orNewContext context w).1 := by
    cases context with
    | none => exact hcc2
    | some c0 => rfl
  have htrf : resolveTransport (orNewContext context w2).2 (orNewContext context w2).1 self
      = transportFor context w self := by
    unfold transportFor resolveTransport
    cases context with
    | none => simp [orNewContext, World.setCtx, hcc2, htr2]
    | some c0 => simp [orNewContext, hctx2, htr2]
  generalize hrs : (List.range' (w.heapSize + 1) hs.length).reverse = rs at b2 b3
  have hlen : rs.length = hs.length := by rw [← hrs]; simp
  have hpath : NextPath w2.heap (w2.heap rb.1).next (rs ++ [w.heapSize]) := by
    rw [hheap2, b1]
    refine nextPath_of_linked _ _ b2.linked ?_
    intro z hz
    rw [getLast?_cons_snoc] at hz
    cases hz
    rw [b5]; exact hnew.2.1
  have hthis : (w2.heap rb.1).context = none := by
    rw [hheap2, b1]; exact (b7 hs.length (Nat.le_refl _)).2
  simp only [List.map_cons, List.map_append, List.map_nil, List.cons.injEq] at b3
  have hmap := List.append_inj b3.2 (by simp [hlen])
  have hfns : ∀ c, (rs.map (boundCopy w2.heap c)).map Prod.fst = stageFns hs := by
    intro c
    have h1 : (rs.map (boundCopy w2.heap c)).map Prod.fst
        = (rs.map (stageAt rb.2.heap)).map Prod.fst := by
      rw [hheap2]
      simp [boundCopy, stageAt]
    rw [h1, hmap.1]
    simp [stageFns]
  have hst : ∀ r ∈ rs, ∃ n, (w2.heap r).handler = .fn (.user n) := by
    intro r hr
    have hmem : stageAt rb.2.heap r ∈ (hs.map stageOf).reverse := by
      rw [← hmap.1]; exact List.mem_map_of_mem _ hr
    rw [List.mem_reverse, List.mem_map] at hmem
    obtain ⟨h, hh, he⟩ := hmem
    obtain ⟨n, hn⟩ := hstages h hh
    refine ⟨n, ?_⟩
    rw [hheap2, ← hn, he]
    rfl
  have ht : (w2.heap w.heapSize).handler = .fn (.injectTransport self) := by
    have h1 := hmap.2
    simp only [List.cons.injEq, and_true] at h1
    have h2 : (rb.2.heap w.heapSize).handler = (wa.heap w.heapSize).handler :=
      congrArg Prod.fst h1
    have h3 : (wa.heap w.heapSize).handler = (stageOf (.fn (.injectTransport self))).1 :=
      congrArg Prod.fst hnew.1
    rw [hheap2, h2, h3]
    rfl
  have key := create_inject env self w.heapSize rs f (w2.heap rb.1) context w2 hthis hpath hst ht
  simp only at key
  rw [hlen, htrf, hc2, hlog2] at key
  rw [← hheap2] at hheapF ⊢
  generalize hR : PipePoint.create env (f + 2 + hs.length) (w2.heap rb.1) context w2 = R
    at key hheapF ⊢
  obtain ⟨hbw, hbt, hbo⟩ := bind_point R
  rw [hbw] at hheapF ⊢
  have hcalls : ∀ (l1 : List (Value × PipePoint × Value)) (l2 : List Value),
      handlerCalls R.world.log = handlerCalls w.log ++ l1 → l1.map Prod.fst = l2 →
      handlerFns R.world.log = handlerFns w.log ++ l2 := by
    intro l1 l2 h1 h2
    unfold handlerFns
    rw [h1, List.map_append, h2]
  rcases key with ⟨k, e, hk, he, hu, hlog, htc⟩ | ⟨hno, hyes⟩
  · left
    refine ⟨k, e, hlen ▸ hk, hbt e he, hu, ?_, htc⟩
    refine hcalls _ _ hlog ?_
    rw [List.map_take, List.map_take, hfns]
  · right
    have hall : ∀ c, ((rs ++ [w.heapSize]).map (boundCopy w2.heap c)).map Prod.fst
        = stageFns hs ++ [.fn (.injectTransport self)] := by
      intro c
      rw [List.map_append, List.map_append, hfns]
      simp [boundCopy, ht]
    constructor
    · intro h
      obtain ⟨h1, h2, h3⟩ := hno h
      refine ⟨hbt _ h1, ?_, h3⟩
      rw [List.append_assoc]
      exact hcalls _ _ h2 (hall _)
    · intro h k hk
      obtain ⟨h1, h2, h3⟩ := hyes h k hk
      refine ⟨?_, ?_, ?_⟩
      · rw [List.append_assoc]
        exact hcalls _ _ h1 (hall _)
      · rw [h2, hheapF]
      · rcases h3 with h3 | ⟨e, he, hu⟩
        · exact Or.inl ⟨_, hbo _ h3, rfl⟩
        · exact Or.inr ⟨e, hbt e he, hu⟩

theorem duplicateHook_ne (t : String) : duplicateHook t ≠ noTransport := by
  intro h
  have h0 : ("The hook has already been registered, you can use only one hook for specific event type: "
      ++ t) = "Transport is not provided" := by
    unfold duplicateHook noTransport at h
    exact Thrown.error.inj h
  have h1 := congrArg String.data h0
  rw [String.data_append] at h1
  have h2 : (("The hook has already been registered, you can use only one hook for specific event type: ").data
      ++ t.data).get? 1 = some 'h' := rfl
  rw [h1] at h2
  exact absurd h2 (by decide)

theorem handlers_thrown (p : PipePoint) (ctx : Option Nat) (w : World) (e : Thrown)
    (h : (p.handlers ctx w).completion = .thrown e) :
    e = .error "Context is missing, please make sure context() is used first" := by
  unfold PipePoint.handlers at h
  split at h
  · exact (Completion.thrown.inj h).symm
  · cases h

theorem on_not_noTransport (p : PipePoint) (t : String) (h : Hook) (w : World) :
    (p.on t h w).completion ≠ .thrown noTransport := by
  unfold PipePoint.on
  intro hth
  cases hc : (p.handlers none w).completion with
  | ok c =>
    rw [bind_ok _ _ c hc] at hth
    split at hth
    · exact duplicateHook_ne t (Completion.thrown.inj hth)
    · cases hth
  | thrown e =>
    rw [bind_thrown _ _ e hc] at hth
    have h1 := handlers_thrown p none w e hc
    have h2 : e = noTransport := Completion.thrown.inj hth
    rw [h1] at h2
    exact absurd h2 (by unfold noTransport; decide)
  | outOfFuel => exact absurd hc (handlers_done _ _ _)

theorem once_not_noTransport (p : PipePoint) (t : String) (h : Hook) (w : World) :
    (p.once t h w).completion ≠ .thrown noTransport := by
  unfold PipePoint.once
  intro hth
  cases hc : (p.on t (.onceFn p t h) w).completion with
  | ok c => rw [bind_ok _ _ c hc] at hth; cases hth
  | thrown e =>
    rw [bind_thrown _ _ e hc] at hth
    have h2 : e = noTransport := Completion.thrown.inj hth
    rw [h2] at hc
    exact on_not_noTransport _ _ _ _ hc
  | outOfFuel => exact absurd hc (on_done _ _ _ _)

/-- The calls a stage or transport function makes raise the missing-transport error only if
the function raises it itself. -/
theorem runOps_not_noTransport (p : PipePoint) :
    ∀ (ops : List StageOp) (w : World), StageOp.raise noTransport ∉ ops →
      (runOps p ops w).completion ≠ .thrown noTransport
  | [], w, _ => by simp [runOps]
  | .on t h :: rest, w, hn => by
    simp only [runOps]
    intro hth
    cases hc : (p.on t h w).completion with
    | ok c =>
      rw [bind_ok _ _ c hc] at hth
      exact runOps_not_noTransport p rest _ (fun hm => hn (List.mem_cons_of_mem _ hm)) hth
    | thrown e =>
      rw [bind_thrown _ _ e hc] at hth
      have h2 : e = noTransport := Completion.thrown.inj hth
      rw [h2] at hc
      exact on_not_noTransport _ _ _ _ hc
    | outOfFuel => exact absurd hc (on_done _ _ _ _)
  | .once t h :: rest, w, hn => by
    simp only [runOps]
    intro hth
    cases hc : (p.once t h w).completion with
    | ok c =>
      rw [bind_ok _ _ c hc] at hth
      exact runOps_not_noTransport p rest _ (fun hm => hn (List.mem_cons_of_mem _ hm)) hth
    | thrown e =>
      rw [bind_thrown _ _ e hc] at hth
      have h2 : e = noTransport := Completion.thrown.inj hth
      rw [h2] at hc
      exact once_not_noTransport _ _ _ _ hc
    | outOfFuel => exact absurd hc (once_done _ _ _ _)
  | .raise e :: rest, w, hn => by
    simp only [runOps]
    intro hth
    have h2 : e = noTransport := Completion.thrown.inj hth
    exact hn (by rw [h2]; exact List.mem_cons_self _ _)

theorem thrownByUser_ne (env : Env)
    (huser : ∀ n p cfg ctx, StageOp.raise noTransport ∉ env.stage n p cfg ctx) (e : Thrown)
    (h : ThrownByUser env e) : e ≠ noTransport := by
  obtain ⟨n, pt, cfg, ctx, v, hc⟩ := h
  intro he
  rw [he] at hc
  exact runOps_not_noTransport pt _ v (huser n pt cfg ctx) hc

/-- C14: a builder without a cached pipe and without an API wrapper, whose stages are
caller-supplied functions.  When neither the builder nor the context has a transport,
`create(context)` throws `Transport is not provided` from the call itself, after the functions
of all stages and the transport injection were called and without calling any transport,
unless a stage function throws first (then `create` throws what the stage threw).  When a
transport with a caller-supplied function is configured on the builder or carried by the
context, `create` does not throw that error, unless a caller-supplied function raises it
itself. -/
theorem C14_transport_not_provided (env : Env) (f self : Nat) (context : Option Nat)
    (w : World) (hpipe : (w.builders self)._pipe = none)
    (hapi : (w.builders self)._api.truthy = false)
    (hstages : ∀ h ∈ (w.builders self)._handlers, ∃ n, (stageOf h).1 = .fn (.user n))
    (huser : ∀ n p cfg ctx, StageOp.raise noTransport ∉ env.stage n p cfg ctx) :
    ((transportFor context w self).truthy = false →
      ((Trooba.create env (f + 2 + (w.builders self)._handlers.length) self context
          w).completion = .thrown noTransport ∧
        handlerFns (Trooba.create env (f + 2 + (w.builders self)._handlers.length) self
            context w).world.log
          = handlerFns w.log ++ stageFns (w.builders self)._handlers
              ++ [.fn (.injectTransport self)] ∧
        transportCalls (Trooba.create env (f + 2 + (w.builders self)._handlers.length) self
            context w).world.log = transportCalls w.log) ∨
      (∃ k e, k < (w.builders self)._handlers.length ∧ e ≠ noTransport ∧
        ThrownByUser env e ∧
        (Trooba.create env (f + 2 + (w.builders self)._handlers.length) self context
          w).completion = .thrown e ∧
        handlerFns (Trooba.create env (f + 2 + (w.builders self)._handlers.length) self
            context w).world.log
          = handlerFns w.log ++ (stageFns (w.builders self)._handlers).take (k + 1))) ∧
    ((transportFor context w self).truthy = true →
      ∀ k, (transportOf (transportFor context w self)).1 = .fn (.user k) →
      (Trooba.create env (f + 2 + (w.builders self)._handlers.length) self context
        w).completion ≠ .thrown noTransport) := by
  rcases builder_inject env f self context w hpipe hapi hstages with
    ⟨k, e, hk, he, hu, hlog, -⟩ | ⟨hno, hyes⟩
  · constructor
    · intro _
      exact Or.inr ⟨k, e, hk, thrownByUser_ne env huser e hu, hu, he, hlog⟩
    · intro _ _ _ hth
      rw [he] at hth
      exact thrownByUser_ne env huser e hu (Completion.thrown.inj hth)
  · constructor
    · intro h
      exact Or.inl (hno h)
    · intro h k hk hth
      obtain ⟨-, -, h3⟩ := hyes h k hk
      rcases h3 with ⟨p, hp, -⟩ | ⟨e, he, hu⟩
      · rw [hp] at hth; cases hth
      · rw [he] at hth
        exact thrownByUser_ne env huser e hu (Completion.thrown.inj hth)

theorem pingEnv_user (n : Nat) (p : PipePoint) (cfg : Value) (ctx : Context) :
    StageOp.raise noTransport ∉ pingEnv.stage n p cfg ctx := by
  unfold pingEnv
  simp only
  split <;> simp

/-- Witness of C14: `create()` on a builder with one stage and no transport throws the
missing-transport error; with a transport it does not. -/
theorem C14_transport_not_provided_witness :
    (Trooba.create pingEnv 3 0 none bareBuilder).completion = .thrown noTransport ∧
    (((Trooba.create pingEnv 3 0 none bareBuilder).completion = .thrown noTransport ∧
        handlerFns (Trooba.create pingEnv 3 0 none bareBuilder).world.log
          = handlerFns bareBuilder.log ++ stageFns (bareBuilder.builders 0)._handlers
              ++ [.fn (.injectTransport 0)] ∧
        transportCalls (Trooba.create pingEnv 3 0 none bareBuilder).world.log
          = transportCalls bareBuilder.log) ∨
      (∃ k e, k < (bareBuilder.builders 0)._handlers.length ∧ e ≠ noTransport ∧
        ThrownByUser pingEnv e ∧
        (Trooba.create pingEnv 3 0 none bareBuilder).completion = .thrown e ∧
        handlerFns (Trooba.create pingEnv 3 0 none bareBuilder).world.log
          = handlerFns bareBuilder.log
              ++ (stageFns (bareBuilder.builders 0)._handlers).take (k + 1))) ∧
    (Trooba.create pingEnv 3 0 (some 0) overrideWorld).completion ≠ .thrown noTransport :=
  ⟨by decide,
   (C14_transport_not_provided pingEnv 0 0 none bareBuilder (by decide) (by decide)
      (by intro h hh; simp [bareBuilder, Trooba.use, Trooba.new, World.setBuilder,
            resolveHandler] at hh; subst hh; exact ⟨1, rfl⟩)
      pingEnv_user).1 (by decide),
   (C14_transport_not_provided pingEnv 0 0 (some 0) overrideWorld (by decide) (by decide)
      (by intro h hh; simp [overrideWorld, Trooba.transport, Trooba.use, Trooba.new,
            World.setBuilder, resolveHandler] at hh; subst hh; exact ⟨1, rfl⟩)
      pingEnv_user).2 (by decide) 8 (by decide)⟩

/-- C15: a builder without a cached pipe and without an API wrapper, whose stages are
caller-supplied functions.  The transport `injectTransport` resolves is the value of the
`transport` key of the context when that is truthy, and the transport configured on the
builder when the context has no `transport` key (or no context is given).  When the resolved
transport has a caller-supplied function, binding the context calls that function exactly
once, with the context-bound copy of the terminal point and the config of the transport, and
calls no other transport; unless a stage function throws first, in which case no transport
is called. -/
theorem C15_context_transport_overrides (env : Env) (f self : Nat) (context : Option Nat)
    (w : World) (hpipe : (w.builders self)._pipe = none)
    (hapi : (w.builders self)._api.truthy = false)
    (hstages : ∀ h ∈ (w.builders self)._handlers, ∃ n, (stageOf h).1 = .fn (.user n)) :
    (∀ c, context = some c → (getField (w.ctxs c).fields "transport").truthy = true →
      transportFor context w self = getField (w.ctxs c).fields "transport") ∧
    ((∀ c, context = some c → getField (w.ctxs c).fields "transport" = .undefined) →
      transportFor context w self = (w.builders self)._transport) ∧
    (∀ g : Fn, transportOf (.fn g) = (.fn g, .undefined)) ∧
    (∀ T cfg : Value, T.truthy = true → transportOf (.handlerMeta T cfg) = (T, cfg)) ∧
    ((transportFor context w self).truthy = true →
      ∀ k, (transportOf (transportFor context w self)).1 = .fn (.user k) →
      (transportCalls (Trooba.create env (f + 2 + (w.builders self)._handlers.length) self
            context w).world.log
          = transportCalls w.log ++
              [((transportOf (transportFor context w self)).1,
                { (Trooba.create env (f + 2 + (w.builders self)._handlers.length) self
                    context w).world.heap w.heapSize with
                  context := some (orNewContext context w).1, oid := 0 },
                (transportOf (transportFor context w self)).2)] ∧
        handlerFns (Trooba.create env (f + 2 + (w.builders self)._handlers.length) self
            context w).world.log
          = handlerFns w.log ++ stageFns (w.builders self)._handlers
              ++ [.fn (.injectTransport self)]) ∨
      (∃ e, (Trooba.create env (f + 2 + (w.builders self)._handlers.length) self context
          w).completion = .thrown e ∧ ThrownByUser env e ∧
        transportCalls (Trooba.create env (f + 2 + (w.builders self)._handlers.length) self
            context w).world.log = transportCalls w.log)) := by
  refine ⟨?_, ?_, ?_, ?_, ?_⟩
  · intro c hc h
    subst hc
    simp [transportFor, resolveTransport, orNewContext, Value.or, h]
  · intro h
    cases context with
    | none =>
      simp [transportFor, resolveTransport, orNewContext, Value.or, World.setCtx, getField,
        Value.truthy]
    | some c =>
      simp [transportFor, resolveTransport, orNewContext, Value.or, h c rfl, Value.truthy]
  · intro g
    simp [transportOf, Value.handlerProp, Value.truthy]
  · intro T cfg h
    simp [transportOf, Value.handlerProp, Value.configProp, h]
  · intro h k hk
    rcases builder_inject env f self context w hpipe hapi hstages with
      ⟨_, e, _, he, hu, _, htc⟩ | ⟨_, hyes⟩
    · exact Or.inr ⟨e, he, hu, htc⟩
    · obtain ⟨h1, h2, -⟩ := hyes h k hk
      exact Or.inl ⟨h2, h1⟩

/-- Witness of C15: the builder has the transport `9`; the context `0` carries the transport
`8`, which is called, once, with the bound terminal point. -/
theorem C15_context_transport_overrides_witness :
    transportFor (some 0) overrideWorld 0 = .fn (.user 8) ∧
    ((transportCalls (Trooba.create pingEnv 3 0 (some 0) overrideWorld).world.log
          = transportCalls overrideWorld.log ++
              [(.fn (.user 8),
                { (Trooba.create pingEnv 3 0 (some 0) overrideWorld).world.heap 0 with
                  context := some 0, oid := 0 }, .undefined)] ∧
        handlerFns (Trooba.create pingEnv 3 0 (some 0) overrideWorld).world.log
          = handlerFns overrideWorld.log ++ stageFns (overrideWorld.builders 0)._handlers
              ++ [.fn (.injectTransport 0)]) ∨
      (∃ e, (Trooba.create pingEnv 3 0 (some 0) overrideWorld).completion = .thrown e ∧
        ThrownByUser pingEnv e ∧
        transportCalls (Trooba.create pingEnv 3 0 (some 0) overrideWorld).world.log
          = transportCalls overrideWorld.log)) ∧
    transportCalls (Trooba.create pingEnv 3 0 (some 0) overrideWorld).world.log
      = [(.fn (.user 8),
          { (Trooba.create pingEnv 3 0 (some 0) overrideWorld).world.heap 0 with
            context := some 0, oid := 0 }, .undefined)] :=
  ⟨by decide,
   (C15_context_transport_overrides pingEnv 0 0 (some 0) overrideWorld (by decide) (by decide)
      (by intro h hh; simp [overrideWorld, Trooba.transport, Trooba.use, Trooba.new,
            World.setBuilder, resolveHandler] at hh; subst hh; exact ⟨1, rfl⟩)).2.2.2.2
      (by decide) 8 (by decide),
   by decide⟩

/-! ## C16: when the request message is dispatched -/

theorem timersSame_kept : KeptAll (fun _ => True) TimersSame where
  same := fun _ => rfl
  seq := fun h1 h2 => Eq.trans h2 h1
  ensure := by
    intro p ctx w
    unfold PipePoint.handlers
    split <;> rfl
  del := by
    intro w c id t
    unfold World.setHook
    simp only
    split
    · rfl
    · split <;> rfl
  logs := fun _ _ _ => rfl
  pend := fun _ _ => rfl
  add := by
    intro w c id t h
    unfold World.setHook
    simp only
    split
    · rfl
    · split <;> rfl
  alloc := fun _ _ _ _ => rfl

/-- Counterexample of C16: the context is not in streaming mode and `request("ping", cb)` is
called with a callback; when `request` returns, the request message has been dispatched and
the `request` hooks of the stage and of the transport have been called, and no task is
deferred. -/
theorem C16_counterexample :
    let p : PipePoint := { requestWorld.heap 3 with context := some 0 }
    let res := p.request pingEnv 4 (.str "ping") (some (.user 20)) requestWorld
    (getField (requestWorld.ctxs 0).fields "$requestStream").truthy = false ∧
    res.completion = .ok p ∧
    res.world.log = requestWorld.log
      ++ [.hook 11 [.str "ping"] true, .hook 19 [.str "ping"] true] ∧
    res.world.timers = [] := by
  decide

/-- C16 amended: `request` on a point bound to the context `c`.  Without a callback and
outside streaming mode nothing is dispatched before `request` returns: the only effect is one
deferred task, and running that task is the dispatch of the request message from the point.
In streaming mode, and whenever a callback is given, no task is deferred: the request message
is dispatched before `request` returns (with a callback: after the callback was registered for
`error` and `response`, provided the point has no such hooks yet). -/
theorem C16_request_dispatch_time (env : Env) (fuel : Nat) (p : PipePoint) (c : Nat)
    (req : Value) (w : World) (hp : p.context = some c) :
    ((getField (w.ctxs c).fields "$requestStream").truthy = false →
      p.request env fuel req none w
        = ⟨{ w with timers := w.timers ++ [(p, req)] }, .ok p⟩) ∧
    (∀ (v : World) (rest : List (PipePoint × Value)), v.timers = (p, req) :: rest →
      runTimer env fuel v = sendRequest env fuel p req { v with timers := rest }) ∧
    ((getField (w.ctxs c).fields "$requestStream").truthy = true →
      p.request env fuel req none w
        = ((sendRequest env fuel p req w).bind fun _ w2 => ⟨w2, .ok p⟩) ∧
      (p.request env fuel req none w).world.timers = w.timers) ∧
    (∀ cb : Hook,
      (p.request env fuel req (some cb) w).world.timers = w.timers ∧
      (w.hook c p._id "error" = none → w.hook c p._id "response" = none →
        ∃ w3 : World, w3.log = w.log ∧
          p.request env fuel req (some cb) w
            = (sendRequest env fuel p req w3).bind fun _ w4 => ⟨w4, .ok p⟩)) := by
  have hsend : ∀ v, TimersSame v (sendRequest env fuel p req v).world :=
    fun v => send_kept timersSame_kept (fun _ => trivial) env fuel p _ v
  refine ⟨?_, ?_, ?_, ?_⟩
  · intro h
    unfold PipePoint.request
    simp [hp, Res.bind, h]
  · intro v rest hv
    unfold runTimer
    rw [hv]
  · intro h
    have heq : p.request env fuel req none w
        = ((sendRequest env fuel p req w).bind fun _ w2 => ⟨w2, .ok p⟩) := by
      unfold PipePoint.request
      simp [hp, Res.bind, h]
    refine ⟨heq, ?_⟩
    rw [heq, (bind_ret _ _).1]
    exact hsend w
  · intro cb
    constructor
    · unfold PipePoint.request
      simp only [hp]
      have h0 : (⟨w, .ok p⟩ : Res PipePoint).bind (fun point w1 =>
          (point.on "error" cb w1).bind fun point1 w2 =>
            (point1.on "response" (.responseCb cb) w2).bind fun _ w3 =>
              (sendRequest env fuel point req w3).bind fun _ w4 => ⟨w4, .ok point⟩)
          = (p.on "error" cb w).bind fun point1 w2 =>
            (point1.on "response" (.responseCb cb) w2).bind fun _ w3 =>
              (sendRequest env fuel p req w3).bind fun _ w4 => ⟨w4, .ok p⟩ := rfl
      rw [h0]
      refine bind_kept timersSame_kept.toKept (on_kept timersSame_kept _ _ _ _) ?_
      intro q w1 h1
      refine bind_kept timersSame_kept.toKept
        (timersSame_kept.seq h1 (on_kept timersSame_kept _ _ _ _)) ?_
      intro _ w2 h2
      refine bind_kept timersSame_kept.toKept (timersSame_kept.seq h2 (hsend w2)) ?_
      intro _ _ h3
      exact h3
    · intro hE hR
      obtain ⟨w3, -, -, hlog, heq⟩ := request_registers env fuel p c hp req cb w hE hR
      exact ⟨w3, hlog, heq⟩

/-- Witness of C16 amended: `request("ping")` without callback on the bound head defers the
dispatch; `request("ping", cb)` dispatches before it returns. -/
theorem C16_request_dispatch_time_witness :
    let p : PipePoint := { requestWorld.heap 3 with context := some 0 }
    p.request pingEnv 4 (.str "ping") none requestWorld
      = ⟨{ requestWorld with timers := requestWorld.timers ++ [(p, .str "ping")] }, .ok p⟩ ∧
    (∃ w3 : World, w3.log = requestWorld.log ∧
      p.request pingEnv 4 (.str "ping") (some (.user 20)) requestWorld
        = (sendRequest pingEnv 4 p (.str "ping") w3).bind fun _ w4 => ⟨w4, .ok p⟩) :=
  ⟨(C16_request_dispatch_time pingEnv 4 { requestWorld.heap 3 with context := some 0 } 0
      (.str "ping") requestWorld rfl).1 (by decide),
   ((C16_request_dispatch_time pingEnv 4 { requestWorld.heap 3 with context := some 0 } 0
      (.str "ping") requestWorld rfl).2.2.2 (.user 20)).2 (by decide) (by decide)⟩

/-! ## C17: shape of the built chain -/

/-- Neighbors in a list are neighbors in the chain. -/
theorem linked_adjacent {heap : Nat → PipePoint} (full pre post : List Nat) (p q : Nat)
    (hl : Linked heap full) (hsplit : full = pre ++ p :: q :: post) :
    (heap p).next = some q ∧ (heap q).prev = some p := by
  rw [hsplit] at hl
  have h := linked_suffix pre _ hl
  exact ⟨h.1, h.2.1⟩

/-- In a chain whose last point has no `next`, a `next` link leads to the neighbor in the
list. -/
theorem next_adjacent {heap : Nat → PipePoint} (full : List Nat) (p q : Nat)
    (hl : Linked heap full) (hend : ∀ z, full.getLast? = some z → (heap z).next = none)
    (hp : p ∈ full) (hn : (heap p).next = some q) :
    ∃ pre post, full = pre ++ p :: q :: post := by
  obtain ⟨pre, post, hsplit⟩ := List.append_of_mem hp
  cases post with
  | nil =>
    have hlast : full.getLast? = some p := by rw [hsplit]; simp
    rw [hend p hlast] at hn
    cases hn
  | cons q1 post =>
    have h := (linked_adjacent full pre post p q1 hl hsplit).1
    rw [hn] at h
    cases h
    exact ⟨pre, post, hsplit⟩

/-- In a chain whose first point has no `prev`, a `prev` link leads to the neighbor in the
list. -/
theorem prev_adjacent {heap : Nat → PipePoint} (full : List Nat) (p q : Nat)
    (hl : Linked heap full) (hhead : ∀ a, full.head? = some a → (heap a).prev = none)
    (hq : q ∈ full) (hn : (heap q).prev = some p) :
    ∃ pre post, full = pre ++ p :: q :: post := by
  obtain ⟨pre, post, hsplit⟩ := List.append_of_mem hq
  rcases List.eq_nil_or_concat pre with hnil | ⟨pre1, p1, hpre⟩
  · subst hnil
    have hh : full.head? = some q := by rw [hsplit]; rfl
    rw [hhead q hh] at hn
    cases hn
  · subst hpre
    have hs2 : full = pre1 ++ p1 :: q :: post := by rw [hsplit]; simp
    have h := (linked_adjacent full pre1 post p1 q hl hs2).2
    rw [hn] at h
    cases h
    exact ⟨pre1, post, hs2⟩

/-- Below `2^53` the counter counts. -/
theorem iterate_incrementCounter :
    ∀ (i c : Nat), c + i ≤ 9007199254740992 → incrementCounter^[i] c = c + i
  | 0, _, _ => rfl
  | i + 1, c, h => by
    have hc : incrementCounter c = c + 1 := by
      unfold incrementCounter
      rw [if_pos (by omega)]
    rw [Function.iterate_succ_apply, hc, iterate_incrementCounter i (c + 1) (by omega)]
    omega

/-- Counterexample of C17: the instance counter is at `2^53 - 1` when the terminal point is
created, so the terminal point is fresh (no `next`, identity below the counter); `buildPipe`
with one stage then gives the stage point and the head the same identity `2^53`, because
the counter, a JavaScript number, no longer increases. -/
theorem C17_counterexample :
    let w := (createPipePoint (.fn (.user 9)) none { instanceCounter := 9007199254740991 }).2
    let res := buildPipe [Value.fn (.user 1)] 0 w
    (w.heap 0).next = none ∧ (w.heap 0)._id < w.instanceCounter ∧
    walkNext res.2.heap 3 res.1 = [2, 1, 0] ∧
    (res.2.heap 2)._id = 9007199254740992 ∧ (res.2.heap 1)._id = 9007199254740992 ∧
    ¬ ([2, 1, 0].map fun r => (res.2.heap r)._id).Nodup := by
  decide

/-- C17 amended: the chain `buildPipe` returns for a list of `n` stage configurations and a
fresh terminal point `t` (no `next`, identity below the instance counter).  The forward walk
from the head visits `n + 2` points, pairwise distinct as objects; the head has no `prev`, the
terminal point has no `next`; for all points `p`, `q` of the chain `p.next` is `q` if and only
if `q.prev` is `p`; and the backward walk from the terminal point is the forward walk
reversed.  The identities `_id` of the points are pairwise distinct when the instance counter
plus `n` does not exceed `2^53`, the range in which the counter still counts. -/
theorem C17_chain_shape (hs : List Value) (t : Nat) (w : World) (ht : t < w.heapSize)
    (hnext : (w.heap t).next = none) (hid : (w.heap t)._id < w.instanceCounter) :
    let res := buildPipe hs t w
    let full := res.1 :: ((List.range' w.heapSize hs.length).reverse ++ [t])
    (∀ k, hs.length + 2 ≤ k → walkNext res.2.heap k res.1 = full) ∧
    full.length = hs.length + 2 ∧
    full.Nodup ∧
    (w.instanceCounter + hs.length ≤ 9007199254740992 →
      (full.map fun r => (res.2.heap r)._id).Nodup) ∧
    (res.2.heap res.1).prev = none ∧
    (res.2.heap t).next = none ∧
    (∀ p ∈ full, ∀ q ∈ full,
      ((res.2.heap p).next = some q ↔ (res.2.heap q).prev = some p)) ∧
    (∀ k, hs.length + 2 ≤ k → walkPrev res.2.heap k t = full.reverse) := by
  intro res full
  obtain ⟨b1, b2, -, b4, b5, b6, b7, -⟩ := buildPipe_chain hs t w ht
  have hfull : full = (w.heapSize + hs.length) ::
      ((List.range' w.heapSize hs.length).reverse ++ [t]) := by
    show res.1 :: _ = _
    rw [show res.1 = w.heapSize + hs.length from b1]
  have hl : Linked res.2.heap full := by rw [hfull]; exact b2.linked
  have hend : ∀ z, full.getLast? = some z → (res.2.heap z).next = none := by
    intro z hz
    rw [hfull, getLast?_cons_snoc] at hz
    cases hz
    show (res.2.heap t).next = none
    rw [b5]; exact hnext
  have hhead : ∀ a, full.head? = some a → (res.2.heap a).prev = none := by
    intro a ha
    rw [hfull] at ha
    cases ha
    exact b4
  have hmem : ∀ x : Nat, x ∈ full → x = t ∨ ∃ i : Nat, i ≤ hs.length ∧ x = w.heapSize + i := by
    intro x hx
    rw [hfull] at hx
    simp only [List.mem_cons, List.mem_append, List.mem_reverse, List.mem_range'_1,
      List.mem_singleton, List.not_mem_nil, or_false] at hx
    rcases hx with hx | hx | hx
    · exact Or.inr ⟨hs.length, Nat.le_refl _, hx⟩
    · exact Or.inr ⟨x - w.heapSize, by omega, by omega⟩
    · exact Or.inl hx
  have hidOf : w.instanceCounter + hs.length ≤ 9007199254740992 → ∀ x : Nat, x ∈ full →
      (x = t ∧ (res.2.heap x)._id < w.instanceCounter) ∨
      (w.heapSize ≤ x ∧ (res.2.heap x)._id = w.instanceCounter + (x - w.heapSize)) := by
    intro hbound x hx
    rcases hmem x hx with h | ⟨i, hi, h⟩
    · left
      refine ⟨h, ?_⟩
      rw [h]
      show (res.2.heap t)._id < _
      rw [(b6 t ht).1]; exact hid
    · right
      refine ⟨by omega, ?_⟩
      rw [h]
      show (res.2.heap (w.heapSize + i))._id = _
      rw [(b7 i hi).1, iterate_incrementCounter i _ (by omega)]
      congr 1
      exact (Nat.add_sub_cancel_left _ _).symm
  refine ⟨?_, ?_, ?_, ?_, ?_, ?_, ?_, ?_⟩
  · intro k hk
    rw [hfull, show res.1 = w.heapSize + hs.length from b1]
    exact walkNext_linked_end _ _ b2.linked (by rw [← hfull]; exact hend) k (by simp; omega)
  · rw [hfull]; simp
  · rw [hfull]; exact b2.nodup
  · intro hbound
    refine List.Nodup.map_on ?_ (by rw [hfull]; exact b2.nodup)
    intro x hx y hy hxy
    have hxy1 : (res.2.heap x)._id = (res.2.heap y)._id := hxy
    show (x : Nat) = (y : Nat)
    rcases hidOf hbound x hx with ⟨hx1, hx2⟩ | ⟨hx1, hx2⟩ <;>
      rcases hidOf hbound y hy with ⟨hy1, hy2⟩ | ⟨hy1, hy2⟩
    · rw [hx1, hy1]
    · rw [hxy1, hy2] at hx2
      exact absurd hx2 (Nat.not_lt.mpr (Nat.le_add_right _ _))
    · rw [← hxy1, hx2] at hy2
      exact absurd hy2 (Nat.not_lt.mpr (Nat.le_add_right _ _))
    · rw [hx2, hy2] at hxy1
      have h := Nat.add_left_cancel hxy1
      rw [← Nat.sub_add_cancel hx1, ← Nat.sub_add_cancel hy1, h]
  · rw [show res.1 = w.heapSize + hs.length from b1]; exact b4
  · show (res.2.heap t).next = none
    rw [b5]; exact hnext
  · intro p hp q hq
    constructor
    · intro h
      obtain ⟨pre, post, hsplit⟩ := next_adjacent full p q hl hend hp h
      exact (linked_adjacent full pre post p q hl hsplit).2
    · intro h
      obtain ⟨pre, post, hsplit⟩ := prev_adjacent full p q hl hhead hq h
      exact (linked_adjacent full pre post p q hl hsplit).1
  · intro k hk
    rw [hfull]
    exact walkPrev_linked_end _ _ _ b2.linked (getLast?_cons_snoc _ _ _) b4 k (by simp; omega)

/-- Witness of C17 amended: two stage configurations and a terminal point just created. -/
theorem C17_chain_shape_witness :
    let w := (createPipePoint (.fn (.user 9)) none {}).2
    let hs := [Value.handlerMeta (.fn (.user 1)) .undefined, Value.fn (.user 2)]
    let res := buildPipe hs 0 w
    let full := res.1 :: ((List.range' w.heapSize hs.length).reverse ++ [0])
    ((∀ k, hs.length + 2 ≤ k → walkNext res.2.heap k res.1 = full) ∧
     full.length = hs.length + 2 ∧
     full.Nodup ∧
     (w.instanceCounter + hs.length ≤ 9007199254740992 →
       (full.map fun r => (res.2.heap r)._id).Nodup) ∧
     (res.2.heap res.1).prev = none ∧
     (res.2.heap 0).next = none ∧
     (∀ p ∈ full, ∀ q ∈ full,
       ((res.2.heap p).next = some q ↔ (res.2.heap q).prev = some p)) ∧
     (∀ k, hs.length + 2 ≤ k → walkPrev res.2.heap k 0 = full.reverse)) ∧
    (full.map fun r => (res.2.heap r)._id).Nodup :=
  ⟨C17_chain_shape [Value.handlerMeta (.fn (.user 1)) .undefined, Value.fn (.user 2)] 0
      (createPipePoint (.fn (.user 9)) none {}).2 (by decide) (by decide) (by decide),
   (C17_chain_shape [Value.handlerMeta (.fn (.user 1)) .undefined, Value.fn (.user 2)] 0
      (createPipePoint (.fn (.user 9)) none {}).2 (by decide) (by decide) (by decide)).2.2.2.1
      (by decide)⟩

/-! ## C18: the static chain is not written by the operations on bound points -/

theorem request_static (env : Env) (fuel : Nat) (p : PipePoint) (req : Value)
    (cb : Option Hook) (w : World) : StaticEq w (p.request env fuel req cb w).world := by
  have hrest : ∀ (point : PipePoint) (w1 : World), StaticEq w w1 →
      StaticEq w (match cb with
        | some cb =>
          (point.on "error" cb w1).bind fun point1 w2 =>
            (point1.on "response" (.responseCb cb) w2).bind fun _ w3 =>
              (sendRequest env fuel point req w3).bind fun _ w4 => ⟨w4, .ok point⟩
        | none =>
          match p.context with
          | none => ⟨w1, .thrown .typeError⟩
          | some c =>
            if (getField (w1.ctxs c).fields "$requestStream").truthy then
              (sendRequest env fuel point req w1).bind fun _ w2 => ⟨w2, .ok point⟩
            else
              ⟨{ w1 with timers := w1.timers ++ [(point, req)] }, .ok point⟩).world := by
    intro point w1 h1
    cases cb with
    | some cb =>
      refine bind_static (staticEq_kept.seq h1 (on_kept staticEq_kept _ _ _ _)) ?_
      intro _ w2 h2
      refine bind_static (staticEq_kept.seq h2 (on_kept staticEq_kept _ _ _ _)) ?_
      intro _ w3 h3
      exact bind_static (staticEq_kept.seq h3 (send_static _ _ _ _ _)) (fun _ _ h => h)
    | none =>
      cases hc : p.context with
      | none => exact h1
      | some c =>
        simp only
        split
        · exact bind_static (staticEq_kept.seq h1 (send_static _ _ _ _ _)) (fun _ _ h => h)
        · exact staticEq_kept.seq h1 ⟨rfl, rfl, rfl, rfl⟩
  unfold PipePoint.request
  refine bind_static ?_ hrest
  cases hc : p.context with
  | some c => exact staticEq_kept.same w
  | none =>
    have h0 : StaticEq w { w.setCtx w.ctxCount {} with ctxCount := w.ctxCount + 1 } :=
      ⟨rfl, rfl, rfl, rfl⟩
    exact staticEq_kept.seq h0 (create_static env fuel p (some w.ctxCount) _)

theorem respond_static (env : Env) (fuel : Nat) (p : PipePoint) (v : Value) (w : World) :
    StaticEq w (p.respond env fuel v w).world := by
  unfold PipePoint.respond
  exact bind_static (send_static _ _ _ _ _) (fun _ _ h => h)

theorem write_static (env : Env) (fuel : Nat) (s : WriteStream) (data : Value) (w : World) :
    StaticEq w (s._write env fuel data w).world := by
  unfold WriteStream._write
  split
  · exact staticEq_kept.same w
  · have h1 : StaticEq w (if data = .undefined then
        { w with streamClosed := fun k => if k = s.channel.oid then true else w.streamClosed k }
        else w) := by
      split <;> exact ⟨rfl, rfl, rfl, rfl⟩
    exact staticEq_kept.seq h1 (send_static _ _ _ _ _)

theorem resume_static (env : Env) (fuel : Nat) (k : Continuation) (arg : Option Value)
    (w : World) : StaticEq w (resume env fuel k arg w).world := by
  unfold resume
  split
  · exact send_static _ _ _ _ _
  · exact endEventOrSend_kept (P := fun _ => True) staticEq_kept.toKept (fun _ _ _ => trivial)
      env (fun _ _ h => h)
      (fun p m w _ => process_kept staticEq_kept (fun _ => trivial) env fuel p m w) _ _ _
      trivial _

/-- One operation leaves the static chain as it is. -/
theorem run_static (env : Env) (fuel : Nat) :
    ∀ (op : Op) (w : World), StaticEq w (op.run env fuel w)
  | .create _ _, _ => create_static _ _ _ _ _
  | .on _ _ _, _ => on_kept staticEq_kept _ _ _ _
  | .once _ _ _, _ => once_kept staticEq_kept _ _ _ _
  | .request _ _ _, _ => request_static _ _ _ _ _ _
  | .respond _ _, _ => respond_static _ _ _ _ _
  | .throw _ _, _ => send_static _ _ _ _ _
  | .streamRequest p req, w => by
    show StaticEq w (p.streamRequest env fuel req w).world
    unfold PipePoint.streamRequest
    split
    · exact staticEq_kept.same w
    · exact bind_static (staticEq_kept.seq ⟨rfl, rfl, rfl, rfl⟩ (request_static _ _ _ _ _ _))
        (fun _ _ h => h)
  | .streamResponse p v, w => by
    show StaticEq w (p.streamResponse env fuel v w).world
    unfold PipePoint.streamResponse
    split
    · exact staticEq_kept.same w
    · exact bind_static (staticEq_kept.seq ⟨rfl, rfl, rfl, rfl⟩ (respond_static _ _ _ _ _))
        (fun _ _ h => h)
  | .write s data, w => by
    show StaticEq w (s.write env fuel data w).world
    unfold WriteStream.write
    exact bind_static (write_static _ _ _ _ _) (fun _ _ h => h)
  | .end_ s, w => by
    show StaticEq w (s.end_ env fuel w).world
    unfold WriteStream.end_
    exact bind_static (write_static _ _ _ _ _) (fun _ _ h => h)
  | .timer, w => by
    show StaticEq w (runTimer env fuel w).world
    unfold runTimer
    split
    · exact staticEq_kept.same w
    · exact staticEq_kept.seq ⟨rfl, rfl, rfl, rfl⟩ (send_static _ _ _ _ _)
  | .resumed _ _, _ => resume_static _ _ _ _ _

theorem runAll_static (env : Env) (fuel : Nat) :
    ∀ (ops : List Op) (w : World), StaticEq w (runAll env fuel ops w)
  | [], w => staticEq_kept.same w
  | op :: ops, w =>
    staticEq_kept.seq (run_static env fuel op w) (runAll_static env fuel ops (op.run env fuel w))

/-- C18: whatever sequence of `create`, `on`, `once`, `request`, `respond`, `throw` and
stream operations is performed (on any points, with any contexts), and however deferred
requests and kept callbacks are continued, every static point is afterwards what it was
before: same handler, config, identity, `next` and `prev`.  And the copy `process` makes of a
point when it binds a context, the one handed to the handler of the point, has the handler,
config, identity, `next` and `prev` of that point, and carries the context of the message. -/
theorem C18_static_chain_unchanged (env : Env) (fuel : Nat) (ops : List Op) (w : World) :
    (∀ r, (runAll env fuel ops w).heap r = w.heap r) ∧
    (∀ (this : PipePoint) (m : Message) (v : World), m.type = "context" →
      process env (fuel + 1) this m v
        = (callFunction env (fuel + 1) this.handler (cloneOf this m.context v) this.config
            (afterClone this m.context v)).bind
            fun _ w2 => sendWith (process env fuel) (cloneOf this m.context v) m w2) ∧
    (∀ (this : PipePoint) (ctx : Option Nat) (v : World),
      cloneOf this ctx v = { (this.clone v).1 with context := ctx } ∧
      (cloneOf this ctx v).handler = this.handler ∧
      (cloneOf this ctx v).config = this.config ∧
      (cloneOf this ctx v)._id = this._id ∧
      (cloneOf this ctx v).next = this.next ∧
      (cloneOf this ctx v).prev = this.prev ∧
      (cloneOf this ctx v).context = ctx ∧
      (afterClone this ctx v).heap = v.heap) := by
  refine ⟨?_, ?_, ?_⟩
  · intro r
    rw [(runAll_static env fuel ops w).1]
  · intro this m v hm
    exact process_context env fuel this m v hm
  · intro this ctx v
    exact ⟨rfl, rfl, rfl, rfl, rfl, rfl, rfl, rfl⟩

/-- Witness of C18: a request, the deferred dispatch and a response on the bound chain of the
two stages and the transport; and the copy made for the context message at the stage `1`. -/
theorem C18_static_chain_unchanged_witness :
    (∀ r, (runAll pingEnv 4
        [.request { requestWorld.heap 3 with context := some 0 } (.str "ping") none, .timer,
         .respond { requestWorld.heap 0 with context := some 0 } (.str "ok")]
        requestWorld).heap r = requestWorld.heap r) ∧
    process pingEnv (4 + 1) (requestWorld.heap 2)
        { type := "context", flow := Types.REQUEST, ref := .ctxRef 1, context := some 1 }
        requestWorld
      = (callFunction pingEnv (4 + 1) (requestWorld.heap 2).handler
          (cloneOf (requestWorld.heap 2) (some 1) requestWorld) (requestWorld.heap 2).config
          (afterClone (requestWorld.heap 2) (some 1) requestWorld)).bind
          fun _ w2 => sendWith (process pingEnv 4)
            (cloneOf (requestWorld.heap 2) (some 1) requestWorld)
            { type := "context", flow := Types.REQUEST, ref := .ctxRef 1, context := some 1 }
            w2 :=
  ⟨(C18_static_chain_unchanged pingEnv 4
      [.request { requestWorld.heap 3 with context := some 0 } (.str "ping") none, .timer,
       .respond { requestWorld.heap 0 with context := some 0 } (.str "ok")] requestWorld).1,
   (C18_static_chain_unchanged pingEnv 4 [] requestWorld).2.1 (requestWorld.heap 2)
      { type := "context", flow := Types.REQUEST, ref := .ctxRef 1, context := some 1 }
      requestWorld rfl⟩

/-! ## C19: no dispatch without a context -/

/-- C19: a point `p` without context.  `send` of a message without context, of any type, in a
direction in which `p` has a neighbor, throws the missing-context error and leaves the world
as it is, whatever the method `process` of the neighbor would do: it is not called.  And
`handlers()`, `on` and `once` on `p` throw the missing-context error and leave the world as it
is: nothing is registered. -/
theorem C19_missing_context (env : Env) (fuel : Nat) (p : PipePoint) (w : World)
    (hp : p.context = none) :
    (∀ (m : Message) (r : Nat), m.context = none → nbr m.flow p = some r →
      (∀ proc, sendWith proc p m w = ⟨w, .thrown missingContextSend⟩) ∧
      p.send env fuel m w = ⟨w, .thrown missingContextSend⟩) ∧
    p.handlers none w = ⟨w, .thrown missingContextHandlers⟩ ∧
    (∀ (t : String) (h : Hook),
      p.on t h w = ⟨w, .thrown missingContextHandlers⟩ ∧
      p.once t h w = ⟨w, .thrown missingContextHandlers⟩) := by
  have hh : p.handlers none w = ⟨w, .thrown missingContextHandlers⟩ := by
    simp [PipePoint.handlers, orElse, hp, missingContextHandlers]
  have hon : ∀ (t : String) (h : Hook), p.on t h w = ⟨w, .thrown missingContextHandlers⟩ := by
    intro t h
    unfold PipePoint.on
    rw [bind_thrown _ _ missingContextHandlers (by rw [hh]), hh]
  refine ⟨?_, hh, ?_⟩
  · intro m r hm hn
    have hs : ∀ proc, sendWith proc p m w = ⟨w, .thrown missingContextSend⟩ := by
      intro proc
      unfold nbr at hn
      unfold sendWith
      simp [hn, hm, hp, missingContextSend]
    exact ⟨hs, hs _⟩
  · intro t h
    refine ⟨hon t h, ?_⟩
    unfold PipePoint.once
    rw [bind_thrown _ _ missingContextHandlers (by rw [hon]), hon]

/-- Witness of C19: the static head of a built chain; a request message without context. -/
theorem C19_missing_context_witness :
    let w : World := (buildPipe [.handlerMeta (.fn (.user 1)) .undefined] 0
      (createPipePoint (.fn (.user 9)) none {}).2).2
    let m : Message := { type := "request", flow := Types.REQUEST, ref := .str "a" }
    (∀ proc, sendWith proc (w.heap 2) m w = ⟨w, .thrown missingContextSend⟩) ∧
    (w.heap 2).send pingEnv 3 m w = ⟨w, .thrown missingContextSend⟩ :=
  (C19_missing_context pingEnv 3
    ((buildPipe [.handlerMeta (.fn (.user 1)) .undefined] 0
      (createPipePoint (.fn (.user 9)) none {}).2).2.heap 2)
    (buildPipe [.handlerMeta (.fn (.user 1)) .undefined] 0
      (createPipePoint (.fn (.user 9)) none {}).2).2 (by decide)).1
    { type := "request", flow := Types.REQUEST, ref := .str "a" } 1 rfl (by decide)

/-! ## C20: a stage with a data hook and an end hook -/

/-- C20: a point `s` that has, under the context `c`, the hook `nd` for the data messages of
one direction and the hook `ne` for the end of the stream of that direction.  A data message
that arrives calls the data hook first, with the payload of the message and a completion
callback.  When the data hook calls the callback and the payload is then the end-of-stream
payload, the end hook is called next, once, with a resume callback; if it keeps that callback
nothing is sent, and the resume callback sends the message on.  When the payload is not the
end-of-stream payload after the data hook completed, the message is sent on and the end hook
is not called. -/
theorem C20_data_hook_then_end_hook (env : Env) (f : Nat) (s : PipePoint) (m : Message)
    (w : World) (c nd ne : Nat) (hm : m.context = some c) (hsync : m.sync = false)
    (htype : m.type = "request:data" ∨ m.type = "response:data")
    (hdata : w.hook c s._id m.type = some (.user nd))
    (hend : w.hook c s._id (endType m) = some (.user ne)) :
    ∃ wl : World, wl.log = w.log ++ [.hook nd [m.ref] true] ∧ wl.pending = w.pending ∧
      process env (f + 1) s m w = afterHook env f s c m (hookOutcome env nd [m.ref] true) wl ∧
      (∀ arg, hookOutcome env nd [m.ref] true = .complete arg →
        ((completed m arg).ref = .undefined → hookOutcome env ne [] true = .suspend →
          (process env (f + 1) s m w).completion = .ok () ∧
          (process env (f + 1) s m w).world.log
            = w.log ++ [.hook nd [m.ref] true, .hook ne [] true] ∧
          (process env (f + 1) s m w).world.pending
            = w.pending ++ [⟨s, completed m arg, c, true⟩] ∧
          ∀ (a : Option Value) (v : World),
            resume env f ⟨s, completed m arg, c, true⟩ a v
              = sendWith (process env f) s (completed m arg) v) ∧
        ((completed m arg).ref ≠ .undefined →
          process env (f + 1) s m w = sendWith (process env f) s (completed m arg) wl)) := by
  have hb := handlers_base s (some c) w
  have htc : m.type ≠ "context" := by
    rcases htype with h | h <;> rw [h] <;> decide
  refine ⟨{ (s.handlers (some c) w).world with
      log := (s.handlers (some c) w).world.log ++ [.hook nd [m.ref] true] }, ?_, hb.2.2,
    process_user env f s m w c hm htc nd hdata hsync, ?_⟩
  · show (s.handlers (some c) w).world.log ++ _ = _
    rw [hb.2.1]
  · intro arg harg
    rw [process_user env f s m w c hm htc nd hdata hsync, harg]
    have hafter : ∀ wl, afterHook env f s c m (.complete arg) wl
        = endEventOrSend env (process env f) s c (completed m arg) wl := by
      intro wl
      unfold afterHook completed
      cases arg <;> rfl
    rw [hafter]
    have hty : (completed m arg).type = m.type := by cases arg <;> rfl
    have hfl : (completed m arg).flow = m.flow := by cases arg <;> rfl
    constructor
    · intro href hkeep
      have hlook : World.hook { (s.handlers (some c) w).world with
            log := (s.handlers (some c) w).world.log ++ [.hook nd [m.ref] true] } c s._id
            (if (completed m arg).flow = Types.REQUEST then "request:end" else "response:end")
          = some (.user ne) := by
        rw [hfl]
        show (s.handlers (some c) w).world.hook c s._id (endType m) = _
        rw [hb.1.2.2]; exact hend
      have hcond : (((completed m arg).type = "response:data"
          || (completed m arg).type = "request:data")
          && (completed m arg).ref = .undefined) = true := by
        rw [hty]
        rcases htype with h | h <;> simp [h, href]
      have hstep : endEventOrSend env (process env f) s c (completed m arg)
            { (s.handlers (some c) w).world with
              log := (s.handlers (some c) w).world.log ++ [.hook nd [m.ref] true] }
          = ⟨{ (s.handlers (some c) w).world with
                log := (s.handlers (some c) w).world.log ++ [.hook nd [m.ref] true]
                  ++ [.hook ne [] true]
                pending := (s.handlers (some c) w).world.pending
                  ++ [⟨s, completed m arg, c, true⟩] }, .ok ()⟩ := by
        unfold endEventOrSend
        rw [if_pos hcond, hlook]
        simp only [callHook, hkeep]
      rw [hstep]
      refine ⟨rfl, ?_, ?_, fun _ _ => rfl⟩
      · show (s.handlers (some c) w).world.log ++ _ ++ _ = _
        rw [hb.2.1]; simp
      · show (s.handlers (some c) w).world.pending ++ _ = _
        rw [hb.2.2]
    · intro href
      exact endEventOrSend_pass env _ s c _ _ (Or.inl (by simp [isEndOfStream, href]))

/-- Witness of C20: the end-of-stream message at the stage: the data hook is called with the
end-of-stream payload, then the end hook, and the message is parked. -/
theorem C20_data_hook_then_end_hook_witness :
    (process bothEnv 2 (bothWorld.heap 1)
        { type := "request:data", flow := Types.REQUEST, ref := .undefined, context := some 0 }
        bothWorld).completion = .ok () ∧
    (process bothEnv 2 (bothWorld.heap 1)
        { type := "request:data", flow := Types.REQUEST, ref := .undefined, context := some 0 }
        bothWorld).world.log
      = bothWorld.log ++ [.hook 41 [.undefined] true, .hook 42 [] true] :=
  (C20_data_hook_then_end_hook bothEnv 1 (bothWorld.heap 1)
    { type := "request:data", flow := Types.REQUEST, ref := .undefined, context := some 0 }
    bothWorld 0 41 42 rfl rfl (Or.inl rfl) (by decide) (by decide)).elim
    fun _ h => ⟨((h.2.2.2 none rfl).1 rfl rfl).1, ((h.2.2.2 none rfl).1 rfl rfl).2.1⟩

end Index
